import Mathlib

/-!
# PEBIL text-section model

A shallow embedding of `src/src/TextSection.C` (text-object discovery, linear
disassembly, the section verifier and the range tests).  Machine integers are
natural numbers; every C operation that can wrap or truncate carries an
explicit `% 2^32` or `% 2^64`.
-/

namespace PEBIL

/-! ## Machine arithmetic -/

/-- Number of values of a `uint32_t`. -/
def U32 : Nat := 4294967296

/-- Number of values of a `uint64_t`. -/
def U64 : Nat := 18446744073709551616

/-- Conversion of a 64-bit value to `uint32_t` (an initialisation or assignment
to a `uint32_t` variable, or passing it as a `uint32_t` argument). -/
def toU32 (x : Nat) : Nat := x % U32

/-- Addition of `uint32_t` values. -/
def add32 (a b : Nat) : Nat := (a + b) % U32

/-- Subtraction of `uint32_t` values. -/
def sub32 (a b : Nat) : Nat := (a + U32 - b) % U32

/-- Addition of `uint64_t` values. -/
def add64 (a b : Nat) : Nat := (a + b) % U64

/-- Subtraction of `uint64_t` values. -/
def sub64 (a b : Nat) : Nat := (a + U64 - b) % U64

/-! ## Instructions and `TextObject::digestLinear` -/

/-- The attributes of an `X86Instruction` that `digestLinear` sets: the index
handed to the constructor, the virtual address and the size in bytes. -/
structure X86Instruction where
  index : Nat
  baseAddress : Nat
  sizeInBytes : Nat
  deriving DecidableEq, Repr

/-- The `while (currByte < sizeInBytes)` loop of `TextObject::digestLinear`.
`decode idx off` is the size the disassembler gives the instruction that is
constructed with index `idx` at byte offset `off` of the object (the
`X86Instruction` constructor itself is not part of the sources).  The state is
`currByte`, `numberOfInstructions` and the vector built so far; `none` means
that the fuel ran out before the loop condition became false. -/
def digestLoop (decode : Nat → Nat → Nat) (baseAddress sizeInBytes : Nat) :
    Nat → Nat → Nat → List X86Instruction → Option (Nat × List X86Instruction)
  | 0, _, _, _ => none
  | fuel + 1, currByte, numberOfInstructions, allInstructions =>
    if currByte < sizeInBytes then
      let newInstruction : X86Instruction :=
        { index := numberOfInstructions
          baseAddress := add64 baseAddress currByte
          sizeInBytes := decode numberOfInstructions currByte }
      digestLoop decode baseAddress sizeInBytes fuel
        (add32 currByte newInstruction.sizeInBytes)
        (add32 numberOfInstructions 1)
        (allInstructions ++ [newInstruction])
    else
      some (currByte, allInstructions)

/-- The call `back()->setSizeInBytes(back()->getSizeInBytes() - extraBytes)`;
`none` when the vector is empty. -/
def shrinkBack (allInstructions : List X86Instruction) (extraBytes : Nat) :
    Option (List X86Instruction) :=
  match allInstructions.getLast? with
  | none => none
  | some b =>
    some (allInstructions.dropLast ++
      [{ b with sizeInBytes := sub32 b.sizeInBytes extraBytes }])

/-- `TextObject::digestLinear`: the loop, the truncation of the last
instruction and the final `ASSERT(currByte == sizeInBytes)`.  The result is
`none` when the loop does not finish within the fuel or the assertion
fails. -/
def digestLinear (decode : Nat → Nat → Nat) (baseAddress sizeInBytes fuel : Nat) :
    Option (List X86Instruction) :=
  match digestLoop decode baseAddress sizeInBytes fuel 0 0 [] with
  | none => none
  | some (currByte, allInstructions) =>
    if currByte > sizeInBytes then
      let extraBytes := sub32 currByte sizeInBytes
      match shrinkBack allInstructions extraBytes with
      | none => none
      | some shrunk =>
        if sub32 currByte extraBytes = sizeInBytes then some shrunk else none
    else
      if currByte = sizeInBytes then some allInstructions else none

/-- Sum of the instruction lengths of a vector of instructions. -/
def totalLength (insts : List X86Instruction) : Nat :=
  (insts.map X86Instruction.sizeInBytes).sum

/-! ## Symbols, section headers and text objects -/

/-- Modelled from the spec: the part of a symbol's ELF type that
`Symbol::isFunctionSymbol` and `Symbol::isTextObjectSymbol` look at (neither
method is part of the sources).  `function` is the function type,
`textObject` stands for the non-function types that mark a text object, and
`other` for every remaining type. -/
inductive SymbolKind where
  | function
  | textObject
  | other
  deriving DecidableEq, Repr

/-- A symbol-table entry: the fields read through `GET(st_value)` and
`GET(st_size)` (both 64 bits wide in the accessor facade), its name index and
the classification of its type. -/
structure Symbol where
  st_name : Nat
  st_value : Nat
  st_size : Nat
  kind : SymbolKind
  deriving DecidableEq, Repr

/-- A symbol table: `isDynamic()` and the symbols in table order. -/
structure SymbolTable where
  isDynamic : Bool
  symbols : List Symbol

/-- The section header of a text section: `GET(sh_addr)` and `GET(sh_size)`. -/
structure SectionHeader where
  sh_addr : Nat
  sh_size : Nat
  deriving DecidableEq, Repr

/-- Modelled from the spec: `SectionHeader::inRange` is not part of the
sources; a section is in range of `addr` iff
`sh_addr ≤ addr < sh_addr + sh_size`. -/
def SectionHeader.inRange (sh : SectionHeader) (addr : Nat) : Bool :=
  decide (sh.sh_addr ≤ addr ∧ addr < sh.sh_addr + sh.sh_size)

/-- `TextSection::inRange`: the range test of the section's header.  A text
section is represented by its section header. -/
def TextSection.inRange (sh : SectionHeader) (addr : Nat) : Bool :=
  sh.inRange addr

/-- Modelled from the spec: `Symbol::isFunctionSymbol(text)` is not part of the
sources; a symbol is a function symbol of a text section iff its type is
function and its value lies in the section. -/
def isFunctionSymbol (sh : SectionHeader) (s : Symbol) : Bool :=
  decide (s.kind = SymbolKind.function) && TextSection.inRange sh s.st_value

/-- Modelled from the spec: `Symbol::isTextObjectSymbol(text)` is not part of
the sources; a symbol is a text-object symbol of a text section iff its type
is one of the non-function types that mark a text object and it points into
the section. -/
def isTextObjectSymbol (sh : SectionHeader) (s : Symbol) : Bool :=
  decide (s.kind = SymbolKind.textObject) && TextSection.inRange sh s.st_value

/-- A text object as `TextSection::disassemble` constructs it: the arguments
handed to the `TextObject` constructor (index, symbol, base address, size in
bytes) and, for a `FreeText`, the `usesInstructions` flag. -/
inductive TextObject where
  | Function (index : Nat) (symbol : Symbol) (baseAddress sizeInBytes : Nat)
  | FreeText (index : Nat) (symbol : Option Symbol) (baseAddress sizeInBytes : Nat)
      (usesInstructions : Bool)
  deriving DecidableEq, Repr

/-- `TextObject::getBaseAddress`. -/
def TextObject.getBaseAddress : TextObject → Nat
  | .Function _ _ b _ => b
  | .FreeText _ _ b _ _ => b

/-- `TextObject::getSizeInBytes`. -/
def TextObject.getSizeInBytes : TextObject → Nat
  | .Function _ _ _ sz => sz
  | .FreeText _ _ _ sz _ => sz

/-- `TextObject::getIndex`. -/
def TextObject.getIndex : TextObject → Nat
  | .Function i _ _ _ => i
  | .FreeText i _ _ _ _ => i

/-- The `symbol` member of a text object (`NULL` is `none`). -/
def TextObject.getSymbol : TextObject → Option Symbol
  | .Function _ s _ _ => some s
  | .FreeText _ s _ _ _ => s

/-- `TextObject::isFunction`. -/
def TextObject.isFunction : TextObject → Bool
  | .Function _ _ _ _ => true
  | .FreeText _ _ _ _ _ => false

/-- Modelled from the spec: the constructor
`Function(TextSection*, uint32_t idx, Symbol* sym, uint32_t sz)` is not part
of the sources; a function is the text object of its defining symbol, based at
the symbol's value. -/
def newFunction (idx : Nat) (sym : Symbol) (sz : Nat) : TextObject :=
  TextObject.Function idx sym sym.st_value sz

/-- `new FreeText(text, idx, sym, addr, sz, usesI)`; `sz` is a `uint32_t`
parameter. -/
def newFreeText (idx : Nat) (sym : Option Symbol) (addr sz : Nat) (usesI : Bool) :
    TextObject :=
  TextObject.FreeText idx sym addr (toU32 sz) usesI

/-- `TextObject::inRange` for an object with the given base address and size:
`addr >= baseAddress && addr < baseAddress + sizeInBytes`, the sum being a
`uint64_t`. -/
def TextObject.inRange (baseAddress sizeInBytes addr : Nat) : Bool :=
  decide (addr ≥ baseAddress ∧ addr < add64 baseAddress sizeInBytes)

/-! ## `TextSection::discoverTextObjects` -/

/-- The symbols one symbol table contributes: those for which
`isFunctionSymbol` or else `isTextObjectSymbol` holds, in table order. -/
def textSymbolsOf (sh : SectionHeader) (symbols : List Symbol) : List Symbol :=
  symbols.filter (fun symbol => isFunctionSymbol sh symbol || isTextObjectSymbol sh symbol)

/-- The collection loop of `discoverTextObjects` over all symbol tables of the
file; dynamic tables are skipped. -/
def collectTextSymbols (sh : SectionHeader) : List SymbolTable → List Symbol
  | [] => []
  | symbolTable :: rest =>
    (if !symbolTable.isDynamic then textSymbolsOf sh symbolTable.symbols else [])
      ++ collectTextSymbols sh rest

/-- The duplicate-removal loop of `discoverTextObjects` with `cur` the element
at index `i` and the argument the elements after it: while the element at
`i+1` has the value of the one at `i` it is removed, otherwise `i` advances. -/
def removeAfter (cur : Symbol) : List Symbol → List Symbol
  | [] => [cur]
  | nxt :: rest =>
    if nxt.st_value = cur.st_value then removeAfter cur rest
    else cur :: removeAfter nxt rest

/-- The duplicate-removal loop of `discoverTextObjects`, guarded by
`if (functionSymbols.size())`. -/
def removeDuplicateValues : List Symbol → List Symbol
  | [] => []
  | s :: rest => removeAfter s rest

/-- What `discoverTextObjects` does to the sorted vector: `reverse()`, the
duplicate-removal loop, `reverse()`. -/
def dedupSorted (sorted : List Symbol) : List Symbol :=
  (removeDuplicateValues sorted.reverse).reverse

/-- What is assumed of `qsort` with `compareSymbolValue` (the comparison is not
part of the sources): the result is a rearrangement of the input in ascending
order of `st_value`; the order among symbols of equal value is left open. -/
def SortsByValue (qsort : List Symbol → List Symbol) : Prop :=
  ∀ l, (qsort l).Perm l ∧ (qsort l).Pairwise (fun a b => a.st_value ≤ b.st_value)

/-- `TextSection::discoverTextObjects`. -/
def discoverTextObjects (sh : SectionHeader) (qsort : List Symbol → List Symbol)
    (tables : List SymbolTable) : List Symbol :=
  dedupSorted (qsort (collectTextSymbols sh tables))

/-! ## `TextSection::disassemble` -/

/-- The size `disassemble` gives the object of `cur` when `next` follows it in
`textSymbols`: the distance to the next symbol, replaced by `st_size` when that
is larger and less than `sh_size`.  `size` is a `uint32_t`. -/
def innerSize (sh : SectionHeader) (cur next : Symbol) : Nat :=
  let size := toU32 (sub64 next.st_value cur.st_value)
  if cur.st_size > size ∧ cur.st_size < sh.sh_size then toU32 cur.st_size else size

/-- The size `disassemble` gives the object of the last symbol: the distance
to the end of the section, replaced by `st_size` when that is larger. -/
def lastSize (sh : SectionHeader) (last : Symbol) : Nat :=
  let size := toU32 (sub64 (add64 sh.sh_addr sh.sh_size) last.st_value)
  if last.st_size > size then toU32 last.st_size else size

/-- The non-empty branch of `disassemble`: the `for` loop over all symbols but
the last, then the last symbol; `i` is the loop variable.  `none` is the
`PRINT_ERROR` branch for a symbol that is neither a function nor a text-object
symbol. -/
def disassembleSymbols (sh : SectionHeader) : Nat → List Symbol → Option (List TextObject)
  | _, [] => some []
  | i, [last] =>
    if isFunctionSymbol sh last then
      some [newFunction i last (lastSize sh last)]
    else
      some [newFreeText i (some last) last.st_value (lastSize sh last) false]
  | i, cur :: next :: rest =>
    if isFunctionSymbol sh cur then
      (disassembleSymbols sh (i + 1) (next :: rest)).map
        (fun objs => newFunction i cur (innerSize sh cur next) :: objs)
    else if isTextObjectSymbol sh cur then
      (disassembleSymbols sh (i + 1) (next :: rest)).map
        (fun objs => newFreeText i (some cur) cur.st_value (innerSize sh cur next) false :: objs)
    else
      none

/-- The object `disassemble` appends for a text symbol `sym` at loop index `i`
once the size is computed: a `Function` for a function symbol of the section,
otherwise a `FreeText` that does not use instructions. -/
def objectFor (sh : SectionHeader) (i : Nat) (sym : Symbol) (size : Nat) : TextObject :=
  if isFunctionSymbol sh sym then newFunction i sym size
  else newFreeText i (some sym) sym.st_value size false

/-- The body of `disassemble` after `discoverTextObjects` has returned
`textSymbols`: the objects appended to the (initially empty)
`sortedTextObjects`. -/
def disassembleFrom (sh : SectionHeader) (textSymbols : List Symbol) :
    Option (List TextObject) :=
  if textSymbols.length ≠ 0 then
    disassembleSymbols sh 0 textSymbols
  else
    some [newFreeText 0 none sh.sh_addr sh.sh_size true]

/-- The state of `TextSection::disassemble` when it calls `verify()`
(lines 355-401): the objects appended to `sortedTextObjects`, and their number
`sortedTextObjects.size()`. -/
def disassembleObjects (sh : SectionHeader) (qsort : List Symbol → List Symbol)
    (tables : List SymbolTable) : Option (List TextObject × Nat) :=
  (disassembleFrom sh (discoverTextObjects sh qsort tables)).map
    (fun sortedTextObjects => (sortedTextObjects, sortedTextObjects.length))

/-! ## `TextSection::verify` -/

/-- The first loop of `verify`: entry and exit address of every object. -/
def verifyBounds (sh : SectionHeader) : List TextObject → Bool
  | [] => true
  | o :: rest =>
    let entrAddr := o.getBaseAddress
    let exitAddr := add64 entrAddr o.getSizeInBytes
    if !sh.inRange entrAddr then false
    else if !sh.inRange exitAddr && exitAddr != add64 sh.sh_addr sh.sh_size then false
    else verifyBounds sh rest

/-- The second loop of `verify`: adjacent objects are in order. -/
def verifySorted : List TextObject → Bool
  | [] => true
  | [_] => true
  | a :: b :: rest =>
    if a.getBaseAddress > b.getBaseAddress then false
    else verifySorted (b :: rest)

/-- The last check of `verify`: the first object is at the section
beginning. -/
def verifyFirst (sh : SectionHeader) : List TextObject → Bool
  | [] => true
  | o :: _ => if o.getBaseAddress != sh.sh_addr then false else true

/-- `TextSection::verify` on the object list `sortedTextObjects`; `false` is a
check that fails, where the source reports a `PRINT_ERROR`. -/
def verify (sh : SectionHeader) (sortedTextObjects : List TextObject) : Bool :=
  if sortedTextObjects.length ≠ 0 then
    if !verifyBounds sh sortedTextObjects then false
    else if !verifySorted sortedTextObjects then false
    else if !verifyFirst sh sortedTextObjects then false
    else true
  else
    true

/-- `TextSection::disassemble`: the objects are built, `verify()` is called on
them, and `sortedTextObjects.size()` is returned together with the objects
left in `sortedTextObjects`.  `none` is a run that stops at a `PRINT_ERROR`, in
the loop over the symbols or in `verify()`. -/
def disassemble (sh : SectionHeader) (qsort : List Symbol → List Symbol)
    (tables : List SymbolTable) : Option (List TextObject × Nat) :=
  match disassembleObjects sh qsort tables with
  | none => none
  | some (sortedTextObjects, size) =>
    if verify sh sortedTextObjects then some (sortedTextObjects, size) else none

/-- A `qsort` that fits `SortsByValue`: insertion sort on `st_value`. -/
def sortByValue (l : List Symbol) : List Symbol :=
  l.insertionSort (fun a b => a.st_value ≤ b.st_value)

/-! ## `TextSection::dump` -/

/-- Modelled from the spec: `TextObject::getSymbolValue` is not part of the
sources; it is the value of the object's defining symbol.  For an object
without symbol the model gives the base address; `dump` reads the symbol value
only when the section has two or more objects, and then every object was built
from a symbol. -/
def TextObject.getSymbolValue (o : TextObject) : Nat :=
  match o.getSymbol with
  | some sym => sym.st_value
  | none => o.getBaseAddress

/-- Modelled from the spec: `BinaryOutputFile::copyBytes(buff, size, offset)`
is not part of the sources; it writes the `size` bytes of `buff` starting at
file position `offset` and leaves every other byte of the output as it was.
An output file is the map from file positions to bytes. -/
def copyBytes (buff : Nat → Nat) (size offset : Nat) (out : Nat → Nat) : Nat → Nat :=
  fun p => if offset ≤ p ∧ p < offset + size then buff (p - offset) else out p

/-- Modelled from the spec: the constructor of `RawSection` is not part of the
sources; `getSizeInBytes()` of a text section is the size of the section,
`sh_size`. -/
def TextSection.getSizeInBytes (sh : SectionHeader) : Nat :=
  sh.sh_size

/-- The object loop of `TextSection::dump`: every object but the last is
dumped at `offset + currByte` and `currByte` advances by the distance of the
symbol values; the last object is dumped at the final `offset + currByte`.
`objDump o off out` is the output after `o->dump(binaryOutputFile, off)`;
`offset`, `currByte` and `actualFunctionSize` are `uint32_t`. -/
def dumpObjects (objDump : TextObject → Nat → (Nat → Nat) → (Nat → Nat)) (offset : Nat) :
    List TextObject → Nat → (Nat → Nat) → (Nat → Nat)
  | [], _, out => out
  | [last], currByte, out => objDump last (add32 offset currByte) out
  | o :: next :: rest, currByte, out =>
    let actualFunctionSize := toU32 (sub64 next.getSymbolValue o.getSymbolValue)
    dumpObjects objDump offset (next :: rest) (add32 currByte actualFunctionSize)
      (objDump o (add32 offset currByte) out)

/-- `TextSection::dump(binaryOutputFile, offset)`: the zero fill of
`getSizeInBytes()` bytes at `offset`, then the object loop. -/
def TextSection.dump (sh : SectionHeader) (sortedTextObjects : List TextObject)
    (objDump : TextObject → Nat → (Nat → Nat) → (Nat → Nat))
    (out : Nat → Nat) (offset : Nat) : Nat → Nat :=
  dumpObjects objDump offset sortedTextObjects 0
    (copyBytes (fun _ => 0) (TextSection.getSizeInBytes sh) offset out)

/-- A text-object dump that writes exactly `sizeInBytes` bytes at the offset it
is handed, namely the bytes `orig` holds for the object's own address range
(`orig a` is the byte of the input image at virtual address `a`). -/
def dumpOriginal (orig : Nat → Nat) (o : TextObject) (off : Nat) (out : Nat → Nat) :
    Nat → Nat :=
  fun p =>
    if off ≤ p ∧ p < off + o.getSizeInBytes then orig (o.getBaseAddress + (p - off))
    else out p

/-! ## Relocations (`RelocationTable.h`) -/

/-- The four relocation classes derived from `Relocation`. -/
inductive RelocationClass where
  | Relocation32
  | Relocation64
  | RelocationAddend32
  | RelocationAddend64
  deriving DecidableEq, Repr

/-- `ELF32_R_SYM(val)` of `<elf.h>`: `(val) >> 8`. -/
def ELF32_R_SYM (val : Nat) : Nat := val >>> 8

/-- `ELF32_R_TYPE(val)` of `<elf.h>`: `(val) & 0xff`. -/
def ELF32_R_TYPE (val : Nat) : Nat := val &&& 0xff

/-- `ELF64_R_SYM(i)` of `<elf.h>`: `(i) >> 32`. -/
def ELF64_R_SYM (i : Nat) : Nat := i >>> 32

/-- `ELF64_R_TYPE(i)` of `<elf.h>`: `(i) & 0xffffffff`. -/
def ELF64_R_TYPE (i : Nat) : Nat := i &&& 0xffffffff

/-- The virtual call `getSymbol()` on a relocation of the given class whose
entry has the info field `r_info`.  `Relocation32`, `RelocationAddend32` and
`RelocationAddend64` override the method; `Relocation64` does not, so the call
runs the body of `Relocation::getSymbol`, which is `__SHOULD_NOT_ARRIVE`
(`none`). -/
def Relocation.getSymbol : RelocationClass → Nat → Option Nat
  | .Relocation32, r_info => some (ELF32_R_SYM r_info)
  | .Relocation64, _ => none
  | .RelocationAddend32, r_info => some (ELF32_R_SYM r_info)
  | .RelocationAddend64, r_info => some (ELF64_R_SYM r_info)

/-- The virtual call `getType()` on a relocation of the given class; as for
`getSymbol`, `Relocation64` has no override and reaches
`__SHOULD_NOT_ARRIVE` (`none`). -/
def Relocation.getType : RelocationClass → Nat → Option Nat
  | .Relocation32, r_info => some (ELF32_R_TYPE r_info)
  | .Relocation64, _ => none
  | .RelocationAddend32, r_info => some (ELF32_R_TYPE r_info)
  | .RelocationAddend64, r_info => some (ELF64_R_TYPE r_info)

/-! ## Cache-simulation probe (`CacheSimulation.C`): data -/

/-- `BUFFER_ENTRIES`. -/
def BUFFER_ENTRIES : Nat := 0x00010000

/-- `Size__BufferEntry`. -/
def Size__BufferEntry : Nat := 16

/-- `logBase2(Size__BufferEntry)`; `logBase2` is not part of the sources, the
value is the base-2 logarithm of 16. -/
def logBase2_Size__BufferEntry : Nat := 4

/-- Modelled from the spec: `X86_64BIT_GPRS`, the number of general-purpose
registers of the 64-bit path (the constant is not part of the sources). -/
def X86_64BIT_GPRS : Nat := 16

/-- Modelled from the spec: `X86_32BIT_GPRS`, the number of general-purpose
registers of the 32-bit path. -/
def X86_32BIT_GPRS : Nat := 8

/-- Modelled from the spec: `X86_REG_AX`, register number 0 of the x86
encoding. -/
def X86_REG_AX : Nat := 0

/-- Modelled from the spec: `X86_REG_SP`, register number 4 of the x86
encoding. -/
def X86_REG_SP : Nat := 4

/-- Modelled from the spec: the register code that `GET(base)` and
`GET(index)` give for a memory operand (the disassembler's register
enumeration is not part of the sources).  `UD_NONE` is 0; `gpr64 r` is
`UD_R_RAX + r` and `gpr32 r` is `UD_R_EAX + r`; `UD_R_RIP` is the program
counter; `other` is any other register. -/
inductive UdReg where
  | UD_NONE
  | gpr64 (r : Nat)
  | gpr32 (r : Nat)
  | UD_R_RIP
  | other
  deriving DecidableEq, Repr

/-- Modelled from the spec: `IS_64BIT_GPR(x)`, `UD_R_RAX ≤ x ≤ UD_R_R15`. -/
def IS_64BIT_GPR : UdReg → Bool
  | .gpr64 r => decide (r < 16)
  | _ => false

/-- Modelled from the spec: `IS_32BIT_GPR(x)`, `UD_R_EAX ≤ x ≤ UD_R_EDI`. -/
def IS_32BIT_GPR : UdReg → Bool
  | .gpr32 r => decide (r < 8)
  | _ => false

/-- Modelled from the spec: `IS_PC_REG(x)`, the program counter. -/
def IS_PC_REG : UdReg → Bool
  | .UD_R_RIP => true
  | _ => false

/-- The register number `x - UD_R_RAX` (64-bit path) or `x - UD_R_EAX` (32-bit
path) of a general-purpose register code, 0 for any other code. -/
def UdReg.number : UdReg → Nat
  | .gpr64 r => r
  | .gpr32 r => r
  | _ => 0

/-- The fields of a memory operand read through `GET(base)`, `GET(index)`,
`GET(scale)` and `getValue()` (the displacement). -/
structure Operand where
  base : UdReg
  index : UdReg
  scale : Nat
  value : Nat
  deriving DecidableEq, Repr

/-- The target instruction of a probe: its program address and size, its
explicit memory operand (`none` when `isExplicitMemoryOperation()` is false),
and the registers it touches besides those of the memory operand. -/
structure MemoryInstruction where
  programAddress : Nat
  sizeInBytes : Nat
  memoryOperand : Option Operand
  touched : List Nat
  deriving DecidableEq, Repr

/-- Modelled from the spec: the flags-protection method, one of `full` and
`light`. -/
inductive FlagsProtectionMethods where
  | FlagsProtectionMethod_full
  | FlagsProtectionMethod_light
  deriving DecidableEq, Repr

/-- What the tool reads from the instrumentation engine while generating a
precursor: `getInstDataAddress()`, `getRegStorageOffset()`, the constants
`Size__64_bit_inst_function_call_support`,
`Size__32_bit_inst_function_call_support` and `MIN_CONST_MEMADDR` (none of
them is part of the sources). -/
structure ToolData where
  instDataAddress : Nat
  regStorageOffset : Nat
  Size__64_bit_inst_function_call_support : Nat
  Size__32_bit_inst_function_call_support : Nat
  MIN_CONST_MEMADDR : Nat
  deriving DecidableEq, Repr

/-! ## Temp-register selection -/

/-- Modelled from the spec: `BitSet<uint32_t>` is not part of the sources; a
set of numbers below `maxVal`, given by its membership bits. -/
structure BitSet where
  maxVal : Nat
  bits : Nat → Bool

/-- `new BitSet<uint32_t>(maxVal)`: the empty set. -/
def BitSet.empty (maxVal : Nat) : BitSet := ⟨maxVal, fun _ => false⟩

/-- `insert(n)`; a number that is not below `maxVal` is not inserted. -/
def BitSet.insert (s : BitSet) (n : Nat) : BitSet :=
  if n < s.maxVal then ⟨s.maxVal, fun k => decide (k = n) || s.bits k⟩ else s

/-- `operator~`: the complement within `0 .. maxVal - 1`. -/
def BitSet.complement (s : BitSet) : BitSet := ⟨s.maxVal, fun k => !s.bits k⟩

/-- `contains(n)`; a number that is not below `maxVal` is not a member. -/
def BitSet.contains (s : BitSet) (n : Nat) : Bool := decide (n < s.maxVal) && s.bits n

/-- `size()`: the number of members. -/
def BitSet.size (s : BitSet) : Nat := ((List.range s.maxVal).filter s.bits).length

/-- The general-purpose registers named by the memory operand. -/
def Operand.registers (op : Operand) : List Nat :=
  (match op.base with
    | .gpr64 r => [r]
    | .gpr32 r => [r]
    | _ => []) ++
  (match op.index with
    | .gpr64 r => [r]
    | .gpr32 r => [r]
    | _ => [])

/-- Modelled from the spec: `Instruction::touchedRegisters(BitSet*)` is not
part of the sources; it inserts the registers touched by the instruction, among
them the general-purpose base and index registers of its memory operand. -/
def touchedRegisters (instruction : MemoryInstruction) (regs : BitSet) : BitSet :=
  (((instruction.memoryOperand.map Operand.registers).getD []) ++ instruction.touched).foldl
    BitSet.insert regs

/-- The set `availableRegs` after `~(*availableRegs)`: a set of capacity
`X86_64BIT_GPRS` into which `X86_REG_SP` and, for an explicit memory operand,
the touched registers were inserted, then complemented. -/
def availableRegs (instruction : MemoryInstruction) : BitSet :=
  let regs := (BitSet.empty X86_64BIT_GPRS).insert X86_REG_SP
  let regs := if instruction.memoryOperand.isSome then touchedRegisters instruction regs else regs
  regs.complement

/-- One iteration of the selection loop: `idx = unset - i` (a `uint32_t`), and
when `idx` is available the first temp register that still holds `unset`
receives it.  `unset` is `X86_64BIT_GPRS` or `X86_32BIT_GPRS`. -/
def pickTempReg (unset : Nat) (available : BitSet) (temps : Nat × Nat × Nat) (i : Nat) :
    Nat × Nat × Nat :=
  let idx := sub32 unset i
  if available.contains idx then
    if temps.1 = unset then (idx, temps.2.1, temps.2.2)
    else if temps.2.1 = unset then (temps.1, idx, temps.2.2)
    else if temps.2.2 = unset then (temps.1, temps.2.1, idx)
    else temps
  else temps

/-- The selection of `tempReg1`, `tempReg2`, `tempReg3`: the loop over
`i < availableRegs->size()` and the `ASSERT` that all three were found
(`none` when it fails). -/
def selectTempRegs (unset : Nat) (instruction : MemoryInstruction) :
    Option (Nat × Nat × Nat) :=
  let available := availableRegs instruction
  let temps := (List.range available.size).foldl (pickTempReg unset available)
    (unset, unset, unset)
  if temps.1 ≠ unset ∧ temps.2.1 ≠ unset ∧ temps.2.2 ≠ unset then some temps else none

/-! ## `generateBufferedAddressCalculation64` -/

/-- The instructions the 64-bit precursor is built from, one constructor per
generator of `InstructionGenerator64` (and `InstructionGenerator::generateBranchJL`)
with the generator's arguments in call order. -/
inductive Inst64 where
  | generateMoveRegToMem (reg addr : Nat)
  | generateMoveRegToReg (src dst : Nat)
  | generateMoveMemToReg (addr reg : Nat)
  | generateMoveImmToReg (imm reg : Nat)
  | generateRegAddImm (reg imm : Nat)
  | generateRegImmMultReg (src imm dst : Nat)
  | generateRegAddReg2OpForm (src dst : Nat)
  | generateShiftLeftLogical (imm reg : Nat)
  | generateShiftRightLogical (imm reg : Nat)
  | generateMoveRegToRegaddrImm (src addrReg imm : Nat) (source64Bit : Bool)
  | generateCompareImmReg (imm reg : Nat)
  | generateBranchJL (offset : Nat)
  deriving DecidableEq, Repr

/-- The address `dataAddr + getRegStorageOffset() + k*(sizeof(uint64_t))` of
register-save slot `k`, a `uint64_t`. -/
def regStorageSlot (tool : ToolData) (k : Nat) : Nat :=
  add64 (add64 tool.instDataAddress tool.regStorageOffset) (k * 8)

/-- The base-register block (lines 170-195): `baseReg` and `lValue`.  `none`
is the `PRINT_ERROR` for a base that is neither a 64-bit general-purpose
register nor the program counter. -/
def baseAndValue64 (tool : ToolData) : Option Operand → Option (Nat × Nat)
  | none => some (0, 0)
  | some operand =>
    let lValue := operand.value
    if operand.base ≠ UdReg.UD_NONE then
      if !IS_64BIT_GPR operand.base && !IS_PC_REG operand.base then none
      else if IS_64BIT_GPR operand.base then some (operand.base.number, lValue)
      else some (0, lValue)
    else
      if operand.index = UdReg.UD_NONE then
        if lValue < tool.MIN_CONST_MEMADDR then some (0, 0) else some (0, lValue)
      else some (0, lValue)

/-- The index-register block (lines 197-205): `indexReg`.  `none` is a failed
`ASSERT` (an index outside `UD_R_RAX .. UD_R_R15`, or a scale without an
index). -/
def indexReg64 : Option Operand → Option Nat
  | none => some 0
  | some operand =>
    if operand.index ≠ UdReg.UD_NONE then
      if IS_64BIT_GPR operand.index then some operand.index.number else none
    else
      if operand.scale = 0 then some 0 else none

/-- The `uint8_t scale` of lines 252-255: the encoded scale, 1 when it is 0. -/
def effectiveScale (operand : Operand) : Nat :=
  let scale := operand.scale % 256
  if scale = 0 then 1 else scale

/-- "save a few temp regs" (lines 211-213). -/
def saveTemps64 (tool : ToolData) (tempReg1 tempReg2 tempReg3 : Nat) : List Inst64 :=
  [Inst64.generateMoveRegToMem tempReg1 (regStorageSlot tool 2),
   Inst64.generateMoveRegToMem tempReg2 (regStorageSlot tool 3),
   Inst64.generateMoveRegToMem tempReg3 (regStorageSlot tool 4)]

/-- The effective-address instructions (lines 215-259). -/
def addressCalc64 (tool : ToolData) (instruction : MemoryInstruction)
    (method : FlagsProtectionMethods) (baseReg lValue indexReg tempReg1 tempReg2 : Nat) :
    List Inst64 :=
  match instruction.memoryOperand with
  | none => [Inst64.generateMoveRegToReg X86_REG_SP tempReg1]
  | some operand =>
    (if operand.base ≠ UdReg.UD_NONE then
      [Inst64.generateMoveRegToReg baseReg tempReg1] ++
      (if baseReg = X86_REG_AX ∧ method = .FlagsProtectionMethod_light then
        [Inst64.generateMoveMemToReg (add64 tool.instDataAddress tool.regStorageOffset) tempReg1]
      else [])
    else []) ++
    (if operand.index ≠ UdReg.UD_NONE then
      [Inst64.generateMoveRegToReg indexReg tempReg2] ++
      (if indexReg = X86_REG_AX ∧ method = .FlagsProtectionMethod_light then
        [Inst64.generateMoveMemToReg (add64 tool.instDataAddress tool.regStorageOffset) tempReg2]
      else [])
    else []) ++
    (if IS_PC_REG operand.base then
      [Inst64.generateMoveImmToReg instruction.programAddress tempReg1,
       Inst64.generateRegAddImm tempReg1 instruction.sizeInBytes]
    else []) ++
    (if operand.base ≠ UdReg.UD_NONE then [Inst64.generateRegAddImm tempReg1 lValue]
    else [Inst64.generateMoveImmToReg lValue tempReg1]) ++
    (if operand.index ≠ UdReg.UD_NONE then
      [Inst64.generateRegImmMultReg tempReg2 (effectiveScale operand) tempReg2,
       Inst64.generateRegAddReg2OpForm tempReg2 tempReg1]
    else [])

/-- Buffer base, cursor and "compute the address of the buffer entry"
(lines 261-267). -/
def entryAddress64 (tool : ToolData) (bufferStore bufferPtrStore tempReg2 tempReg3 : Nat) :
    List Inst64 :=
  [Inst64.generateMoveImmToReg (add64 tool.instDataAddress bufferStore) tempReg2,
   Inst64.generateMoveMemToReg (add64 tool.instDataAddress bufferPtrStore) tempReg3,
   Inst64.generateShiftLeftLogical logBase2_Size__BufferEntry tempReg3,
   Inst64.generateRegAddReg2OpForm tempReg3 tempReg2,
   Inst64.generateShiftRightLogical logBase2_Size__BufferEntry tempReg3]

/-- "fill the buffer entry" (lines 270-274); `2*sizeof(uint32_t)` is 8 and
`sizeof(uint32_t)` is 4. -/
def fillEntry64 (blockId memopId tempReg1 tempReg2 : Nat) : List Inst64 :=
  [Inst64.generateMoveRegToRegaddrImm tempReg1 tempReg2 8 true,
   Inst64.generateMoveImmToReg blockId tempReg1,
   Inst64.generateMoveRegToRegaddrImm tempReg1 tempReg2 0 false,
   Inst64.generateMoveImmToReg memopId tempReg1,
   Inst64.generateMoveRegToRegaddrImm tempReg1 tempReg2 4 false]

/-- "inc the buffer pointer and see if the buffer is full" (lines 277-279). -/
def incPointer64 (tool : ToolData) (bufferPtrStore bufferSize tempReg3 : Nat) : List Inst64 :=
  [Inst64.generateRegAddImm tempReg3 1,
   Inst64.generateMoveRegToMem tempReg3 (add64 tool.instDataAddress bufferPtrStore),
   Inst64.generateCompareImmReg bufferSize tempReg3]

/-- "restore regs" (lines 282-284). -/
def restoreTemps64 (tool : ToolData) (tempReg1 tempReg2 tempReg3 : Nat) : List Inst64 :=
  [Inst64.generateMoveMemToReg (regStorageSlot tool 4) tempReg3,
   Inst64.generateMoveMemToReg (regStorageSlot tool 3) tempReg2,
   Inst64.generateMoveMemToReg (regStorageSlot tool 2) tempReg1]

/-- `CacheSimulation::generateBufferedAddressCalculation64`: the vector
`addressCalc`, or `none` when the register-selection `ASSERT`, the bad-operand
`PRINT_ERROR` or an index `ASSERT` stops it.  The reloads under
`#ifndef NO_LAHF_SAHF` are compiled in. -/
def generateBufferedAddressCalculation64 (tool : ToolData) (instruction : MemoryInstruction)
    (bufferStore bufferPtrStore blockId memopId bufferSize : Nat)
    (method : FlagsProtectionMethods) : Option (List Inst64) :=
  match selectTempRegs X86_64BIT_GPRS instruction with
  | none => none
  | some (tempReg1, tempReg2, tempReg3) =>
    match baseAndValue64 tool instruction.memoryOperand with
    | none => none
    | some (baseReg, lValue) =>
      match indexReg64 instruction.memoryOperand with
      | none => none
      | some indexReg =>
        some (saveTemps64 tool tempReg1 tempReg2 tempReg3 ++
          addressCalc64 tool instruction method baseReg lValue indexReg tempReg1 tempReg2 ++
          entryAddress64 tool bufferStore bufferPtrStore tempReg2 tempReg3 ++
          fillEntry64 blockId memopId tempReg1 tempReg2 ++
          incPointer64 tool bufferPtrStore bufferSize tempReg3 ++
          restoreTemps64 tool tempReg1 tempReg2 tempReg3 ++
          [Inst64.generateBranchJL tool.Size__64_bit_inst_function_call_support])

/-! ## `generateBufferedAddressCalculation32` -/

/-- The instructions the 32-bit precursor is built from, one constructor per
generator of `InstructionGenerator32` (and `InstructionGenerator::generateBranchJL`)
with the generator's arguments in call order. -/
inductive Inst32 where
  | generateMoveRegToMem (reg addr : Nat)
  | generateMoveRegToReg (src dst : Nat)
  | generateMoveMemToReg (addr reg : Nat)
  | generateMoveImmToReg (imm reg : Nat)
  | generateRegAddImm (reg imm : Nat)
  | generateRegImm1ByteMultReg (src imm dst : Nat)
  | generateRegAddReg2OpForm (src dst : Nat)
  | generateShiftLeftLogical (imm reg : Nat)
  | generateShiftRightLogical (imm reg : Nat)
  | generateMoveRegToRegaddrImm (src addrReg imm : Nat)
  | generateCompareImmReg (imm reg : Nat)
  | generateBranchJL (offset : Nat)
  deriving DecidableEq, Repr

/-- The base-register block of the 32-bit path (lines 330-344): `baseReg`.
`none` is the `PRINT_ERROR` for a base that is not a 32-bit general-purpose
register, or the failed `ASSERT(operand->getValue() || operand->GET(index))`. -/
def baseReg32 : Option Operand → Option Nat
  | none => some 0
  | some operand =>
    if operand.base ≠ UdReg.UD_NONE then
      if !IS_32BIT_GPR operand.base then none
      else some operand.base.number
    else
      if operand.value ≠ 0 ∨ operand.index ≠ UdReg.UD_NONE then some 0 else none

/-- The index-register block of the 32-bit path (lines 346-354). -/
def indexReg32 : Option Operand → Option Nat
  | none => some 0
  | some operand =>
    if operand.index ≠ UdReg.UD_NONE then
      if IS_32BIT_GPR operand.index then some operand.index.number else none
    else
      if operand.scale = 0 then some 0 else none

/-- The effective-address instructions of the 32-bit path (lines 362-396); the
bodies of the two `FlagsProtectionMethod_light` tests are commented out in the
source. -/
def addressCalc32 (instruction : MemoryInstruction) (baseReg indexReg tempReg1 tempReg2 : Nat) :
    List Inst32 :=
  match instruction.memoryOperand with
  | none => []
  | some operand =>
    (if operand.base ≠ UdReg.UD_NONE then [Inst32.generateMoveRegToReg baseReg tempReg1]
    else []) ++
    (if operand.index ≠ UdReg.UD_NONE then [Inst32.generateMoveRegToReg indexReg tempReg2]
    else []) ++
    (if operand.base ≠ UdReg.UD_NONE then [Inst32.generateRegAddImm tempReg1 operand.value]
    else [Inst32.generateMoveImmToReg operand.value tempReg1]) ++
    (if operand.index ≠ UdReg.UD_NONE then
      [Inst32.generateRegImm1ByteMultReg tempReg2 (effectiveScale operand) tempReg2,
       Inst32.generateRegAddReg2OpForm tempReg2 tempReg1]
    else [])

/-- The buffer part of the 32-bit path (lines 398-404): buffer base, cursor,
entry address and the one store into the entry. -/
def fillEntry32 (tool : ToolData) (bufferStore bufferPtrStore tempReg1 tempReg2 tempReg3 : Nat) :
    List Inst32 :=
  [Inst32.generateMoveImmToReg (add64 tool.instDataAddress bufferStore) tempReg2,
   Inst32.generateMoveMemToReg (add64 tool.instDataAddress bufferPtrStore) tempReg3,
   Inst32.generateShiftLeftLogical logBase2_Size__BufferEntry tempReg3,
   Inst32.generateRegAddReg2OpForm tempReg3 tempReg2,
   Inst32.generateShiftRightLogical logBase2_Size__BufferEntry tempReg3,
   Inst32.generateMoveRegToRegaddrImm tempReg1 tempReg2 0]

/-- `CacheSimulation::generateBufferedAddressCalculation32`: the vector
`addressCalc`, or `none` when an `ASSERT` or the bad-operand `PRINT_ERROR`
stops it.  `blockId`, `memopId` and `method` are parameters of the source
function as well. -/
def generateBufferedAddressCalculation32 (tool : ToolData) (instruction : MemoryInstruction)
    (bufferStore bufferPtrStore blockId memopId bufferSize : Nat)
    (method : FlagsProtectionMethods) : Option (List Inst32) :=
  let _unusedIds := (blockId, memopId, method)
  match selectTempRegs X86_32BIT_GPRS instruction with
  | none => none
  | some (tempReg1, tempReg2, tempReg3) =>
    match baseReg32 instruction.memoryOperand with
    | none => none
    | some baseReg =>
      match indexReg32 instruction.memoryOperand with
      | none => none
      | some indexReg =>
        some ([Inst32.generateMoveRegToMem tempReg1 (regStorageSlot tool 2),
            Inst32.generateMoveRegToMem tempReg2 (regStorageSlot tool 3),
            Inst32.generateMoveRegToMem tempReg3 (regStorageSlot tool 4)] ++
          addressCalc32 instruction baseReg indexReg tempReg1 tempReg2 ++
          fillEntry32 tool bufferStore bufferPtrStore tempReg1 tempReg2 tempReg3 ++
          [Inst32.generateRegAddImm tempReg3 1,
            Inst32.generateMoveRegToMem tempReg3 (add64 tool.instDataAddress bufferPtrStore),
            Inst32.generateCompareImmReg bufferSize tempReg3] ++
          [Inst32.generateMoveMemToReg (regStorageSlot tool 4) tempReg3,
            Inst32.generateMoveMemToReg (regStorageSlot tool 3) tempReg2,
            Inst32.generateMoveMemToReg (regStorageSlot tool 2) tempReg1] ++
          [Inst32.generateBranchJL tool.Size__32_bit_inst_function_call_support])

/-! ## Execution of the 64-bit precursor -/

/-- The machine state the precursor acts on: the 64-bit general-purpose
registers by number, the memory by byte address, and the operands of the last
comparison while no later instruction has changed the flags (`none` after an
arithmetic or shift instruction). -/
structure MachineState where
  regs : Nat → Nat
  mem : Nat → Nat
  compared : Option (Nat × Nat)

/-- Little-endian store of the low `n` bytes of `value` at `addr`. -/
def storeBytes (mem : Nat → Nat) (addr n value : Nat) : Nat → Nat :=
  fun p => if addr ≤ p ∧ p < addr + n then (value / 256 ^ (p - addr)) % 256 else mem p

/-- Little-endian load of `n` bytes at `addr`. -/
def loadBytes (mem : Nat → Nat) (addr : Nat) : Nat → Nat
  | 0 => 0
  | n + 1 => mem addr + 256 * loadBytes mem (addr + 1) n

/-- The state with register `reg` set to `value`. -/
def MachineState.setReg (s : MachineState) (reg value : Nat) : MachineState :=
  { s with regs := fun r => if r = reg then value else s.regs r }

/-- Modelled from the spec: `InstructionGenerator64` is not part of the
sources; every built instruction has the effect of the x86-64 instruction its
generator is named after (moves between registers, immediates and memory;
`add` of an immediate or of a register in the two-operand form, destination
last; multiply of a register by an immediate; logical shifts; a store through
an address register plus displacement, 8 bytes wide when `source64Bit` and 4
bytes otherwise; compare of a register with an immediate), on 64-bit
registers.  The conditional jump at the end of the precursor changes neither
registers nor memory. -/
def exec1 (s : MachineState) : Inst64 → MachineState
  | .generateMoveRegToMem reg addr => { s with mem := storeBytes s.mem addr 8 (s.regs reg) }
  | .generateMoveRegToReg src dst => s.setReg dst (s.regs src)
  | .generateMoveMemToReg addr reg => s.setReg reg (loadBytes s.mem addr 8)
  | .generateMoveImmToReg imm reg => s.setReg reg (imm % U64)
  | .generateRegAddImm reg imm =>
    { s.setReg reg (add64 (s.regs reg) imm) with compared := none }
  | .generateRegImmMultReg src imm dst =>
    { s.setReg dst ((s.regs src * imm) % U64) with compared := none }
  | .generateRegAddReg2OpForm src dst =>
    { s.setReg dst (add64 (s.regs dst) (s.regs src)) with compared := none }
  | .generateShiftLeftLogical imm reg =>
    { s.setReg reg ((s.regs reg * 2 ^ imm) % U64) with compared := none }
  | .generateShiftRightLogical imm reg =>
    { s.setReg reg (s.regs reg / 2 ^ imm) with compared := none }
  | .generateMoveRegToRegaddrImm src addrReg imm source64Bit =>
    { s with mem := (storeBytes s.mem (add64 (s.regs addrReg) imm)
        (if source64Bit then 8 else 4) (s.regs src)) }
  | .generateCompareImmReg imm reg => { s with compared := some (s.regs reg, imm) }
  | .generateBranchJL _ => s

/-- Execution of a straight-line instruction sequence. -/
def exec (insts : List Inst64) (s : MachineState) : MachineState :=
  insts.foldl exec1 s

/-- Whether an instruction is a store through an address register
(`generateMoveRegToRegaddrImm`), the only kind of store into the buffer
entry. -/
def Inst64.isEntryStore : Inst64 → Bool
  | .generateMoveRegToRegaddrImm _ _ _ _ => true
  | _ => false

/-- The scaled-index term of an operand's effective address in state `s`. -/
def indexTerm (operand : Operand) (s : MachineState) : Nat :=
  if operand.index ≠ UdReg.UD_NONE then s.regs operand.index.number * effectiveScale operand
  else 0

/-- The tool data of the examples: reserved data at `0x600000`, register
storage at offset `0x100`, call-support blocks of 64 and 48 bytes, smallest
constant address `0x10000`. -/
def exampleTool : ToolData := ⟨0x600000, 0x100, 64, 48, 0x10000⟩

/-- `mov rax, [rbx + rcx*4 + 0x10]` at `0x400000`, 5 bytes long: base `rbx`
(register 3), index `rcx` (register 1), scale 4, displacement `0x10`; the
instruction also touches `rax` (register 0). -/
def exampleMov : MemoryInstruction :=
  ⟨0x400000, 5, some ⟨.gpr64 3, .gpr64 1, 4, 0x10⟩, [0]⟩

/-- Whether an instruction of the 32-bit precursor is a store through an
address register (`generateMoveRegToRegaddrImm`). -/
def Inst32.isEntryStore : Inst32 → Bool
  | .generateMoveRegToRegaddrImm _ _ _ => true
  | _ => false

/-- The value of the index register that the precursor works with in state
`s`: the register's content, except that with `FlagsProtectionMethod_light`
the value of `AX` is the one kept at `dataAddr + getRegStorageOffset()`. -/
def indexValue (tool : ToolData) (method : FlagsProtectionMethods) (operand : Operand)
    (s : MachineState) : Nat :=
  if operand.index.number = X86_REG_AX ∧ method = .FlagsProtectionMethod_light then
    loadBytes s.mem (add64 tool.instDataAddress tool.regStorageOffset) 8
  else s.regs operand.index.number

/-- `mov rax, [rip + 0x100]` at `0x400000`, 7 bytes long: base `rip`, no
index, displacement `0x100`; the instruction also touches `rax`. -/
def exampleRipLoad : MemoryInstruction :=
  ⟨0x400000, 7, some ⟨.UD_R_RIP, .UD_NONE, 0, 0x100⟩, [0]⟩

/-- `mov rax, [0x10]` at `0x400000`, 8 bytes long: no base, no index,
displacement `0x10`; the instruction also touches `rax`. -/
def exampleAbsoluteLoad : MemoryInstruction :=
  ⟨0x400000, 8, some ⟨.UD_NONE, .UD_NONE, 0, 0x10⟩, [0]⟩

/-- `mov rax, [0x601000]` at `0x400000`, 8 bytes long: no base, no index,
displacement `0x601000`; the instruction also touches `rax`. -/
def exampleDataLoad : MemoryInstruction :=
  ⟨0x400000, 8, some ⟨.UD_NONE, .UD_NONE, 0, 0x601000⟩, [0]⟩

/-- A state with every register and every byte of memory 0. -/
def zeroState : MachineState := ⟨fun _ => 0, fun _ => 0, none⟩

/-- `mov eax, [ebx + 0x10]` at `0x8048000`, 3 bytes long, in a 32-bit binary:
base `ebx` (register 3), no index, displacement `0x10`; the instruction also
touches `eax`. -/
def exampleMov32 : MemoryInstruction :=
  ⟨0x8048000, 3, some ⟨.gpr32 3, .UD_NONE, 0, 0x10⟩, [0]⟩

/-- A load with a program-counter base and displacement `0x100` at
`0x8048000`, 6 bytes long, handed to the 32-bit path. -/
def examplePcLoad32 : MemoryInstruction :=
  ⟨0x8048000, 6, some ⟨.UD_R_RIP, .UD_NONE, 0, 0x100⟩, [0]⟩

/-! ## The thread table of `DataManager` -/

/-- `ThreadHashShift`. -/
def ThreadHashShift : Nat := 12

/-- `ThreadHashAnd`. -/
def ThreadHashAnd : Nat := 0xffff

/-- `ThreadData`: a thread key and the reference to the thread's data. -/
structure ThreadData where
  id : Nat
  data : Nat
  deriving DecidableEq, Repr

/-- `DataManager::HashThread`, a `uint32_t`. -/
def HashThread (tid : Nat) : Nat := toU32 ((tid >>> ThreadHashShift) &&& ThreadHashAnd)

/-- The loop `while (td[actual].id != 0) actual = (actual + 1) % (ThreadHashAnd + 1)`
of `SetThreadData`, started at `actual`; `none` when it has not stopped after
`fuel` tests. -/
def probeEmpty (td : Nat → ThreadData) : Nat → Nat → Option Nat
  | 0, _ => none
  | fuel + 1, actual =>
    if (td actual).id ≠ 0 then probeEmpty td fuel (add32 actual 1 % (ThreadHashAnd + 1))
    else some actual

/-- The table after `td[actual].id = tid; td[actual].data = data`. -/
def setSlot (td : Nat → ThreadData) (actual tid data : Nat) : Nat → ThreadData :=
  fun i => if i = actual then ⟨tid, data⟩ else td i

/-- How a call of `SetThreadData` ends: the table it leaves, and whether the
final `assert(actual == h)` held. -/
structure SetThreadDataResult where
  table : Nat → ThreadData
  completed : Bool

/-- `DataManager::SetThreadData` on the table `td = threaddata[iid]`, with
`data` the value of `dataref(datamap[iid][tid])`; the three assertions on the
maps are taken to hold.  `none` when the loop has not stopped after `fuel`
tests. -/
def SetThreadData (fuel : Nat) (td : Nat → ThreadData) (tid data : Nat) :
    Option SetThreadDataResult :=
  let h := HashThread tid
  match probeEmpty td fuel h with
  | none => none
  | some actual => some ⟨setSlot td actual tid data, decide (actual = h)⟩

/-- A table whose only occupied slot is slot 5, held by thread `0x5000`. -/
def exampleTable : Nat → ThreadData :=
  fun i => if i = 5 then ⟨0x5000, 1⟩ else ⟨0, 0⟩

/-- The number of loop indices `i < availableRegs->size()` whose register
`unset - i` is available: the free registers the selection loop gets to test. -/
def scannedFree (unset : Nat) (instruction : MemoryInstruction) : Nat :=
  ((List.range (availableRegs instruction).size).filter
    (fun i => (availableRegs instruction).contains (sub32 unset i))).length

/-- `push r15` at `0x400000`, 2 bytes long: a memory operation with no explicit
memory operand, which touches `r15` and `rsp`. -/
def examplePush : MemoryInstruction := ⟨0x400000, 2, none, [15, 4]⟩

/-- The general-purpose register an instruction writes, if any. -/
def Inst64.writesReg : Inst64 → Option Nat
  | .generateMoveRegToMem _ _ => none
  | .generateMoveRegToReg _ dst => some dst
  | .generateMoveMemToReg _ reg => some reg
  | .generateMoveImmToReg _ reg => some reg
  | .generateRegAddImm reg _ => some reg
  | .generateRegImmMultReg _ _ dst => some dst
  | .generateRegAddReg2OpForm _ dst => some dst
  | .generateShiftLeftLogical _ reg => some reg
  | .generateShiftRightLogical _ reg => some reg
  | .generateMoveRegToRegaddrImm _ _ _ _ => none
  | .generateCompareImmReg _ _ => none
  | .generateBranchJL _ => none

/-- Whether an instruction stores to memory. -/
def Inst64.writesMem : Inst64 → Bool
  | .generateMoveRegToMem _ _ => true
  | .generateMoveRegToRegaddrImm _ _ _ _ => true
  | _ => false

/-- Modelled from the spec: `InstructionGenerator32` is not part of the
sources; every built instruction has the effect of the 32-bit x86 instruction
its generator is named after, on 32-bit registers (moves of 4 bytes,
arithmetic and shifts modulo `2^32`). -/
def exec32 (s : MachineState) : Inst32 → MachineState
  | .generateMoveRegToMem reg addr => { s with mem := storeBytes s.mem addr 4 (s.regs reg) }
  | .generateMoveRegToReg src dst => s.setReg dst (s.regs src)
  | .generateMoveMemToReg addr reg => s.setReg reg (loadBytes s.mem addr 4)
  | .generateMoveImmToReg imm reg => s.setReg reg (imm % U32)
  | .generateRegAddImm reg imm =>
    { s.setReg reg (add32 (s.regs reg) imm) with compared := none }
  | .generateRegImm1ByteMultReg src imm dst =>
    { s.setReg dst ((s.regs src * imm) % U32) with compared := none }
  | .generateRegAddReg2OpForm src dst =>
    { s.setReg dst (add32 (s.regs dst) (s.regs src)) with compared := none }
  | .generateShiftLeftLogical imm reg =>
    { s.setReg reg ((s.regs reg * 2 ^ imm) % U32) with compared := none }
  | .generateShiftRightLogical imm reg =>
    { s.setReg reg (s.regs reg / 2 ^ imm) with compared := none }
  | .generateMoveRegToRegaddrImm src addrReg imm =>
    { s with mem := (storeBytes s.mem (add32 (s.regs addrReg) imm) 4 (s.regs src)) }
  | .generateCompareImmReg imm reg => { s with compared := some (s.regs reg, imm) }
  | .generateBranchJL _ => s

/-- The value of a 64-bit pattern read as a signed integer. -/
def signed64 (x : Nat) : Int :=
  if x % U64 < 2 ^ 63 then (x % U64 : Int) else (x % U64 : Int) - (U64 : Int)

/-- Modelled from the spec: `InstructionGenerator::generateBranchJL` is not
part of the sources; the conditional jump "if less" is taken when the last
comparison found the register below the immediate, both read as signed 64-bit
values (and is not taken when the flags do not come from a comparison). -/
def branchJLTaken (s : MachineState) : Bool :=
  match s.compared with
  | some (reg, imm) => decide (signed64 reg < signed64 imm)
  | none => false

/-- The byte address of the buffer entry the precursor fills when it starts
in state `s`: reserved-data address plus `bufferStore` plus the cursor shifted
left by `logBase2(Size__BufferEntry)`, in 64-bit arithmetic. -/
def entryAddressIn (tool : ToolData) (bufferStore bufferPtrStore : Nat) (s : MachineState) :
    Nat :=
  add64 (add64 tool.instDataAddress bufferStore)
    (loadBytes s.mem (add64 tool.instDataAddress bufferPtrStore) 8 *
      2 ^ logBase2_Size__BufferEntry)

/-- A state in which register 13 holds 65536 and everything else is 0. -/
def cursor65536State : MachineState := ⟨fun r => if r = 13 then 65536 else 0, fun _ => 0, none⟩

/-- Tool data with the register storage at offset `0x200000`, behind a buffer
at offset 0 and its cursor at offset `0x100000`. -/
def exampleToolFarStorage : ToolData := ⟨0x600000, 0x200000, 64, 48, 0x10000⟩

/-- A state in which the 8-byte cursor at `0x700000` holds `0x20001` and every
register and every other byte of memory is 0. -/
def strayCursorState : MachineState :=
  ⟨fun _ => 0, storeBytes (fun _ => 0) 0x700000 8 0x20001, none⟩

/-! ## `CacheSimulation::instrument`: the reserved data -/

/-- Modelled from the spec: `reserveDataOffset(size)` is not part of the
sources; the reserved data region is a growing arena, and the call hands out
the offset reached so far and moves it on by `size`.  The result is the offset
handed out and the offset reached afterwards. -/
def reserveDataOffset (used size : Nat) : Nat × Nat := (used, add64 used size)

/-- What a call of `initializeReservedData` copies: a `uint32_t` value, or the
characters of a string buffer. -/
inductive InitialData where
  | word32 (value : Nat)
  | chars (text : List Char)
  deriving DecidableEq, Repr

/-- A call `initializeReservedData(address, size, data)`. -/
structure InitCall where
  address : Nat
  size : Nat
  data : InitialData
  deriving DecidableEq, Repr

/-- The characters `sprintf` writes for a `%u` argument: unsigned decimal. -/
def decimal (n : Nat) : List Char := Nat.toDigits 10 n

/-- `INST_SUFFIX` and the local `extension`: `"siminst"`. -/
def extension : List Char := ['s', 'i', 'm', 'i', 'n', 's', 't']

/-- The string that `sprintf(comment, "%s %u %s %u %u", appName, phaseId,
extension, getNumberOfExposedBasicBlocks(), dumpCode)` writes, with
`phaseId = 0` and `dumpCode = 0`. -/
def commentText (appName : List Char) (exposedBlocks : Nat) : List Char :=
  appName ++ [' '] ++ decimal 0 ++ [' '] ++ extension ++ [' '] ++ decimal exposedBlocks ++
    [' '] ++ decimal 0

/-- The `uint32_t commentSize`: `strlen(appName) + sizeof(uint32_t) +
strlen(extension) + sizeof(uint32_t) + sizeof(uint32_t) + 4`. -/
def commentSize (appName : List Char) : Nat :=
  toU32 (appName.length + 4 + extension.length + 4 + 4 + 4)

/-- The reserved-data set-up of `CacheSimulation::instrument` (lines 44-66):
the three offsets handed out and the calls of `initializeReservedData`, in
order. -/
structure InstrumentData where
  bufferStore : Nat
  buffPtrStore : Nat
  commentStore : Nat
  initCalls : List InitCall
  deriving DecidableEq, Repr

/-- Lines 44-66 of `CacheSimulation::instrument`, for reserved data at
`dataAddr` of which `used` bytes are handed out already; `none` is the
`PRINT_ERROR` for an executable without line information.
`isPowerOfTwo(Size__BufferEntry)` holds for 16. -/
def instrumentData (dataAddr used : Nat) (hasLineInformation : Bool) (appName : List Char)
    (exposedBlocks : Nat) : Option InstrumentData :=
  if !hasLineInformation then none
  else
    let r1 := reserveDataOffset used (BUFFER_ENTRIES * Size__BufferEntry)
    let bufferStore := r1.1
    let startValue := 1
    let call1 : InitCall := ⟨add64 dataAddr bufferStore, 4, .word32 startValue⟩
    let r2 := reserveDataOffset r1.2 8
    let buffPtrStore := r2.1
    let r3 := reserveDataOffset r2.2 (commentSize appName)
    let commentStore := r3.1
    let call2 : InitCall :=
      ⟨add64 dataAddr commentStore, commentSize appName,
        .chars (commentText appName exposedBlocks)⟩
    some ⟨bufferStore, buffPtrStore, commentStore, [call1, call2]⟩

/-! ## Instruction layout and address lookup in a text section -/

/-- The instructions that tile an object from byte offset `currByte` on, the
first one with index `idx`, when their lengths are `lens`: each one starts
where the one before it ends. -/
def layout (baseAddress : Nat) : Nat → Nat → List Nat → List X86Instruction
  | _, _, [] => []
  | currByte, idx, len :: rest =>
    ⟨idx, add64 baseAddress currByte, len⟩ :: layout baseAddress (currByte + len) (idx + 1) rest

/-- The loop of `getInstructionAtAddress` and of `getBasicBlockAtAddress` over
`sortedTextObjects`: the first object of type `PebilClassType_Function` with
`f->inRange(addr)` answers through `lookup`; `none` is `NULL`. -/
def lookupInFunctions {α : Type} (lookup : TextObject → Nat → Option α) (addr : Nat) :
    List TextObject → Option α
  | [] => none
  | o :: rest =>
    if o.isFunction then
      if TextObject.inRange o.getBaseAddress o.getSizeInBytes addr then lookup o addr
      else lookupInFunctions lookup addr rest
    else lookupInFunctions lookup addr rest

/-- `TextSection::getInstructionAtAddress`; `getInstruction f addr` stands for
`f->getInstructionAtAddress(addr)` of class `Function`, which is not part of
the sources. -/
def TextSection.getInstructionAtAddress {α : Type} (sh : SectionHeader)
    (sortedTextObjects : List TextObject) (getInstruction : TextObject → Nat → Option α)
    (addr : Nat) : Option α :=
  if !sh.inRange addr then none
  else lookupInFunctions getInstruction addr sortedTextObjects

/-- `TextSection::getBasicBlockAtAddress`; `getBasicBlock f addr` stands for
`f->getBasicBlockAtAddress(addr)` of class `Function`, which is not part of
the sources. -/
def TextSection.getBasicBlockAtAddress {β : Type} (sh : SectionHeader)
    (sortedTextObjects : List TextObject) (getBasicBlock : TextObject → Nat → Option β)
    (addr : Nat) : Option β :=
  if !sh.inRange addr then none
  else lookupInFunctions getBasicBlock addr sortedTextObjects

/-- Whether an instruction loads a register from memory
(`generateMoveMemToReg`). -/
def Inst64.isLoad : Inst64 → Bool
  | .generateMoveMemToReg _ _ => true
  | _ => false

/-- The loop `while (td[actual].id != tid) actual = (actual + 1) % (ThreadHashAnd + 1)`
of `RemoveThreadData`, started at `actual`; `none` when it has not stopped
after `fuel` tests. -/
def probeThread (td : Nat → ThreadData) (tid : Nat) : Nat → Nat → Option Nat
  | 0, _ => none
  | fuel + 1, actual =>
    if (td actual).id ≠ tid then probeThread td tid fuel (add32 actual 1 % (ThreadHashAnd + 1))
    else some actual

/-- `DataManager::RemoveThreadData` on the table `td = threaddata[iid]`: the
table after `td[actual].id = 0; td[actual].data = 0`; the three assertions on
the maps are taken to hold.  `none` when the loop has not stopped after `fuel`
tests. -/
def RemoveThreadData (fuel : Nat) (td : Nat → ThreadData) (tid : Nat) :
    Option (Nat → ThreadData) :=
  let h := HashThread tid
  match probeThread td tid fuel h with
  | none => none
  | some actual => some (fun i => if i = actual then ⟨0, 0⟩ else td i)

/-- A state in which the 8-byte cursor at `0x700000` holds 5 and every
register and every other byte of memory is 0. -/
def cursorFiveState : MachineState :=
  ⟨fun _ => 0, storeBytes (fun _ => 0) 0x700000 8 5, none⟩

/-! ## `CacheSimulation::instrument`: the probes -/

/-- `mov rdx, [rbx + rax*4 + 0x10]` at `0x400000`, 5 bytes long: base `rbx`
(register 3), index `rax` (register 0), scale 4, displacement `0x10`; the
instruction also touches `rdx` (register 2). -/
def exampleIndexAx : MemoryInstruction :=
  ⟨0x400000, 5, some ⟨.gpr64 3, .gpr64 0, 4, 0x10⟩, [2]⟩

/-- `mov rax, [rbx + rcx + 0x10]` at `0x400000`, 5 bytes long, with the
encoded scale 0: base `rbx` (register 3), index `rcx` (register 1),
displacement `0x10`; the instruction also touches `rax`. -/
def exampleMovUnscaled : MemoryInstruction :=
  ⟨0x400000, 5, some ⟨.gpr64 3, .gpr64 1, 0, 0x10⟩, [0]⟩

/-- A load at `0x400000`, 8 bytes long, whose operand has the program counter
as base, the index `rcx` (register 1) with scale 2 and the displacement
`0x100`; the instruction also touches `rax`. -/
def exampleRipIndexed : MemoryInstruction :=
  ⟨0x400000, 8, some ⟨.UD_R_RIP, .gpr64 1, 2, 0x100⟩, [0]⟩

/-! ## Results on `digestLinear` -/

theorem totalLength_append (a b : List X86Instruction) :
    totalLength (a ++ b) = totalLength a + totalLength b := by
  simp [totalLength]

/-- Loop invariant of `digestLoop` when the byte counter cannot wrap: with
enough fuel the loop ends, the appended lengths add up to the distance
covered, and an over-run is smaller than the last appended instruction. -/
theorem digestLoop_spec (decode : Nat → Nat → Nat) (base size : Nat)
    (hsize : size < U32)
    (hpos : ∀ i c, 1 ≤ decode i c)
    (hno : ∀ i c, c < size → c + decode i c < U32) :
    ∀ fuel c n acc, c ≤ size → size - c < fuel →
      ∃ c1 news, digestLoop decode base size fuel c n acc = some (c1, acc ++ news) ∧
        size ≤ c1 ∧ c1 < U32 ∧ c + totalLength news = c1 ∧
        (size < c1 → ∃ pre last, news = pre ++ [last] ∧ c1 < size + last.sizeInBytes) := by
  intro fuel
  induction fuel with
  | zero => intro c n acc _ h; omega
  | succ fuel ih =>
    intro c n acc hc hf
    by_cases hlt : c < size
    · have hd := hpos n c
      have hw := hno n c hlt
      have hstep : add32 c (decode n c) = c + decode n c := by
        unfold add32; exact Nat.mod_eq_of_lt hw
      by_cases hle : c + decode n c ≤ size
      · obtain ⟨c1, news, hrun, h1, h2, h3, h4⟩ :=
          ih (c + decode n c) (add32 n 1)
            (acc ++ [{ index := n, baseAddress := add64 base c, sizeInBytes := decode n c }])
            hle (by omega)
        refine ⟨c1, { index := n, baseAddress := add64 base c, sizeInBytes := decode n c } :: news,
          ?_, h1, h2, ?_, ?_⟩
        · simp only [digestLoop, hlt, if_true, hstep]
          rw [hrun]; simp
        · simp only [totalLength, List.map_cons, List.sum_cons] at h3 ⊢
          omega
        · intro hgt
          obtain ⟨pre, last, hn, hl⟩ := h4 hgt
          exact ⟨{ index := n, baseAddress := add64 base c, sizeInBytes := decode n c } :: pre,
            last, by simp [hn], hl⟩
      · obtain ⟨f, rfl⟩ : ∃ f, fuel = f + 1 := ⟨fuel - 1, by omega⟩
        refine ⟨c + decode n c,
          [{ index := n, baseAddress := add64 base c, sizeInBytes := decode n c }],
          ?_, by omega, by omega, ?_, ?_⟩
        · simp only [digestLoop, hlt, if_true, hstep]
          have : ¬ c + decode n c < size := by omega
          simp [this]
        · simp [totalLength]
        · intro _
          exact ⟨[], _, rfl, by simp; omega⟩
    · have hcs : c = size := by omega
      subst hcs
      exact ⟨c, [], by simp [digestLoop], le_refl _, hsize, by simp [totalLength],
        fun h => absurd h (lt_irrefl _)⟩

theorem sub32_eq (a b : Nat) (hb : b ≤ a) (ha : a < U32) : sub32 a b = a - b := by
  unfold sub32 U32 at *; omega

theorem shrinkBack_append (pre : List X86Instruction) (last : X86Instruction) (e : Nat) :
    shrinkBack (pre ++ [last]) e =
      some (pre ++ [{ last with sizeInBytes := sub32 last.sizeInBytes e }]) := by
  simp [shrinkBack]

/-- With a constant decoded length of 2 the byte counter of an object of
`2^32 - 1` bytes stays even, so it never reaches the object size: after
`0xFFFFFFFE` it wraps to 0. -/
theorem digestLoop_even_never_ends (base : Nat) :
    ∀ fuel c n acc, c % 2 = 0 → c < U32 →
      digestLoop (fun _ _ => 2) base 4294967295 fuel c n acc = none := by
  intro fuel
  induction fuel with
  | zero => intro c n acc _ _; rfl
  | succ fuel ih =>
    intro c n acc hev hc
    have hlt : c < 4294967295 := by unfold U32 at hc; omega
    simp only [digestLoop, hlt, if_true]
    apply ih
    · unfold add32 U32; omega
    · unfold add32 U32; omega

/-- Claim C1 (amended): when the 32-bit byte counter cannot wrap (every
instruction decoded at an offset below the object size ends below `2^32`) and
every decoded length is at least 1, `TextObject::digestLinear` returns, and the
lengths of the returned instructions, the last one truncated on an over-run,
add up to exactly the object size. -/
theorem digestLinear_total_length (decode : Nat → Nat → Nat)
    (baseAddress sizeInBytes fuel : Nat)
    (hsize : sizeInBytes < U32)
    (hpos : ∀ i c, 1 ≤ decode i c)
    (hno : ∀ i c, c < sizeInBytes → c + decode i c < U32)
    (hfuel : sizeInBytes < fuel) :
    ∃ insts, digestLinear decode baseAddress sizeInBytes fuel = some insts ∧
      totalLength insts = sizeInBytes := by
  obtain ⟨c1, news, hrun, h1, h2, h3, h4⟩ :=
    digestLoop_spec decode baseAddress sizeInBytes hsize hpos hno fuel 0 0 []
      (Nat.zero_le _) (by omega)
  simp only [List.nil_append] at hrun
  by_cases hgt : c1 > sizeInBytes
  · obtain ⟨pre, last, hn, hl⟩ := h4 hgt
    subst hn
    have hsum : totalLength pre + last.sizeInBytes = c1 := by
      simpa [totalLength_append, totalLength] using h3
    have hextra : sub32 c1 sizeInBytes = c1 - sizeInBytes := sub32_eq _ _ h1 h2
    have hback : sub32 c1 (c1 - sizeInBytes) = sizeInBytes := by
      rw [sub32_eq _ _ (by omega) h2]; omega
    have hlast : sub32 last.sizeInBytes (c1 - sizeInBytes)
        = last.sizeInBytes - (c1 - sizeInBytes) :=
      sub32_eq _ _ (by omega) (by omega)
    refine ⟨pre ++ [{ last with sizeInBytes := last.sizeInBytes - (c1 - sizeInBytes) }], ?_, ?_⟩
    · simp [digestLinear, hrun, hgt, hextra, shrinkBack_append, hback, hlast]
    · simp only [totalLength_append]
      simp only [totalLength, List.map_cons, List.map_nil, List.sum_cons, List.sum_nil]
      simp only [totalLength] at hsum
      omega
  · have heq : c1 = sizeInBytes := by omega
    subst heq
    refine ⟨news, ?_, by simpa using h3⟩
    simp [digestLinear, hrun]

/-- Witness for `digestLinear_total_length`: an object of 10 bytes decoded in
instructions of 4 bytes (the third one over-runs by 2 and is truncated). -/
theorem digestLinear_total_length_witness :
    ∃ insts, digestLinear (fun _ _ => 4) 4096 10 11 = some insts ∧
      totalLength insts = 10 :=
  digestLinear_total_length (fun _ _ => 4) 4096 10 11 (by decide)
    (fun _ _ => by simp) (fun _ c h => by simp only [U32]; omega) (by decide)

/-- Claim C1 (counterexample): for an object of `2^32 - 1` bytes whose
instructions are all decoded with length 2, `digestLinear` never returns,
whatever the fuel; and for the decoded lengths `0xFFFFFFFE, 3, 0xFFFFFFFE` it
returns three untruncated instructions whose lengths add up to `2^33 - 1`. -/
theorem digestLinear_total_length_counterexample :
    (¬ ∃ fuel insts, digestLinear (fun _ _ => 2) 0 4294967295 fuel = some insts) ∧
    (∃ insts,
      digestLinear (fun i _ => if i = 1 then 3 else 4294967294) 0 4294967295 4 = some insts ∧
      totalLength insts = 8589934591 ∧ totalLength insts ≠ 4294967295) := by
  constructor
  · rintro ⟨fuel, insts, h⟩
    have hnone := digestLoop_even_never_ends 0 fuel 0 0 [] (by decide) (by decide)
    simp [digestLinear, hnone] at h
  · refine ⟨[⟨0, 0, 4294967294⟩, ⟨1, 4294967294, 3⟩, ⟨2, 1, 4294967294⟩], ?_, ?_, ?_⟩
    · simp [digestLinear, digestLoop, add32, add64, U32, U64]
    · simp [totalLength]
    · simp [totalLength]

/-! ## Results on `discoverTextObjects` -/

theorem sortByValue_sorts : SortsByValue sortByValue := by
  intro l
  haveI : IsTotal Symbol (fun a b => a.st_value ≤ b.st_value) :=
    ⟨fun a b => Nat.le_total _ _⟩
  haveI : IsTrans Symbol (fun a b => a.st_value ≤ b.st_value) :=
    ⟨fun a b c h1 h2 => Nat.le_trans h1 h2⟩
  exact ⟨List.perm_insertionSort _ l, List.sorted_insertionSort _ l⟩

theorem removeAfter_sublist : ∀ (rest : List Symbol) (cur : Symbol),
    (removeAfter cur rest).Sublist (cur :: rest) := by
  intro rest
  induction rest with
  | nil => intro cur; simp [removeAfter]
  | cons nxt rest ih =>
    intro cur
    by_cases h : nxt.st_value = cur.st_value
    · simp only [removeAfter, h, if_true]
      exact (ih cur).trans ((List.sublist_cons_self nxt rest).cons₂ cur)
    · simp only [removeAfter, h, if_false]
      exact (ih nxt).cons₂ cur

theorem removeDuplicateValues_sublist (l : List Symbol) :
    (removeDuplicateValues l).Sublist l := by
  cases l with
  | nil => simp [removeDuplicateValues]
  | cons s rest => exact removeAfter_sublist rest s

theorem removeAfter_find (v : Nat) : ∀ (rest : List Symbol) (cur : Symbol),
    (removeAfter cur rest).find? (fun u => u.st_value == v)
      = (cur :: rest).find? (fun u => u.st_value == v) := by
  intro rest
  induction rest with
  | nil => intro cur; simp [removeAfter]
  | cons nxt rest ih =>
    intro cur
    by_cases h : nxt.st_value = cur.st_value
    · simp only [removeAfter, h, if_true]
      rw [ih cur]
      by_cases hc : cur.st_value = v
      · simp [List.find?_cons, hc]
      · have hcb : (cur.st_value == v) = false := by simpa using hc
        have hnb : (nxt.st_value == v) = false := by rw [h]; exact hcb
        simp [List.find?_cons, hcb, hnb]
    · simp only [removeAfter, h, if_false]
      by_cases hc : cur.st_value = v
      · simp [List.find?_cons, hc]
      · have hcb : (cur.st_value == v) = false := by simpa using hc
        rw [List.find?_cons, List.find?_cons, hcb]
        exact ih nxt

theorem removeAfter_strict : ∀ (rest : List Symbol) (cur : Symbol),
    (cur :: rest).Pairwise (fun a b => b.st_value ≤ a.st_value) →
    (removeAfter cur rest).Pairwise (fun a b => b.st_value < a.st_value) := by
  intro rest
  induction rest with
  | nil => intro cur _; simp [removeAfter]
  | cons nxt rest ih =>
    intro cur hp
    have hcur : ∀ t ∈ nxt :: rest, t.st_value ≤ cur.st_value := (List.pairwise_cons.1 hp).1
    have htail : (nxt :: rest).Pairwise (fun a b => b.st_value ≤ a.st_value) :=
      (List.pairwise_cons.1 hp).2
    by_cases h : nxt.st_value = cur.st_value
    · simp only [removeAfter, h, if_true]
      exact ih cur (hp.sublist ((List.sublist_cons_self nxt rest).cons₂ cur))
    · simp only [removeAfter, h, if_false]
      refine List.pairwise_cons.2 ⟨?_, ih nxt htail⟩
      intro t ht
      have hmem : t ∈ nxt :: rest := (removeAfter_sublist rest nxt).subset ht
      have hn : nxt.st_value ≤ cur.st_value := hcur nxt (List.mem_cons_self _ _)
      have ht2 : t.st_value ≤ nxt.st_value := by
        rcases List.mem_cons.1 hmem with rfl | hr
        · exact le_refl _
        · exact (List.pairwise_cons.1 htail).1 t hr
      omega

theorem removeAfter_values : ∀ (rest : List Symbol) (cur : Symbol),
    ∀ s ∈ cur :: rest, ∃ t ∈ removeAfter cur rest, t.st_value = s.st_value := by
  intro rest
  induction rest with
  | nil =>
    intro cur s hs
    simp only [List.mem_singleton] at hs
    subst hs
    exact ⟨s, by simp [removeAfter], rfl⟩
  | cons nxt rest ih =>
    intro cur s hs
    by_cases h : nxt.st_value = cur.st_value
    · simp only [removeAfter, h, if_true]
      rcases List.mem_cons.1 hs with rfl | hs2
      · exact ih s s (List.mem_cons_self _ _)
      · rcases List.mem_cons.1 hs2 with rfl | hs3
        · obtain ⟨t, ht, hv⟩ := ih cur cur (List.mem_cons_self _ _)
          exact ⟨t, ht, by omega⟩
        · exact ih cur s (List.mem_cons_of_mem _ hs3)
    · simp only [removeAfter, h, if_false]
      rcases List.mem_cons.1 hs with rfl | hs2
      · exact ⟨s, List.mem_cons_self _ _, rfl⟩
      · obtain ⟨t, ht, hv⟩ := ih nxt s hs2
        exact ⟨t, List.mem_cons_of_mem _ ht, hv⟩

theorem dedupSorted_sublist (l : List Symbol) : (dedupSorted l).Sublist l := by
  have h := (removeDuplicateValues_sublist l.reverse).reverse
  simpa [dedupSorted] using h

theorem dedupSorted_strict (l : List Symbol)
    (hs : l.Pairwise (fun a b => a.st_value ≤ b.st_value)) :
    (dedupSorted l).Pairwise (fun a b => a.st_value < b.st_value) := by
  unfold dedupSorted
  rw [List.pairwise_reverse]
  have hr : l.reverse.Pairwise (fun a b => b.st_value ≤ a.st_value) :=
    List.pairwise_reverse.2 hs
  cases hl : l.reverse with
  | nil => simp [removeDuplicateValues]
  | cons c rest =>
    rw [hl] at hr
    exact removeAfter_strict rest c hr

theorem dedupSorted_values (l : List Symbol) :
    ∀ s ∈ l, ∃ t ∈ dedupSorted l, t.st_value = s.st_value := by
  intro s hs
  unfold dedupSorted
  have hs2 : s ∈ l.reverse := List.mem_reverse.2 hs
  cases hl : l.reverse with
  | nil => rw [hl] at hs2; cases hs2
  | cons c rest =>
    rw [hl] at hs2
    obtain ⟨t, ht, hv⟩ := removeAfter_values rest c s hs2
    exact ⟨t, by simpa [removeDuplicateValues] using ht, hv⟩

theorem find_of_mem_distinct : ∀ (r : List Symbol),
    r.Pairwise (fun a b => b.st_value < a.st_value) → ∀ t ∈ r,
    r.find? (fun u => u.st_value == t.st_value) = some t := by
  intro r
  induction r with
  | nil => intro _ t ht; cases ht
  | cons a r ih =>
    intro hp t ht
    rcases List.mem_cons.1 ht with rfl | hr
    · simp [List.find?]
    · have hlt : t.st_value < a.st_value := (List.pairwise_cons.1 hp).1 t hr
      have hne : (a.st_value == t.st_value) = false := by
        have : ¬ a.st_value = t.st_value := by omega
        simpa using this
      rw [List.find?_cons, hne]
      exact ih (List.pairwise_cons.1 hp).2 t hr

/-- Claim C6 (amended): on the vector sorted by value, the duplicate removal
of `discoverTextObjects` keeps the order, leaves exactly one symbol per value
(the values of the result are strictly increasing and every value of the input
is still present), and the symbol kept for a value is the LAST symbol of the
sorted vector that has this value; a symbol whose value is unique is kept. -/
theorem dedupSorted_keeps_last (sorted : List Symbol)
    (hs : sorted.Pairwise (fun a b => a.st_value ≤ b.st_value)) :
    (dedupSorted sorted).Sublist sorted ∧
    (dedupSorted sorted).Pairwise (fun a b => a.st_value < b.st_value) ∧
    (∀ s ∈ sorted, ∃ t ∈ dedupSorted sorted, t.st_value = s.st_value) ∧
    (∀ t ∈ dedupSorted sorted,
      sorted.reverse.find? (fun u => u.st_value == t.st_value) = some t) ∧
    (∀ s ∈ sorted, (∀ u ∈ sorted, u.st_value = s.st_value → u = s) →
      s ∈ dedupSorted sorted) := by
  refine ⟨dedupSorted_sublist sorted, dedupSorted_strict sorted hs,
    dedupSorted_values sorted, ?_, ?_⟩
  · intro t ht
    have hr : sorted.reverse.Pairwise (fun a b => b.st_value ≤ a.st_value) :=
      List.pairwise_reverse.2 hs
    have ht2 : t ∈ removeDuplicateValues sorted.reverse := by
      simpa [dedupSorted] using ht
    cases hl : sorted.reverse with
    | nil => rw [hl] at ht2; simp [removeDuplicateValues] at ht2
    | cons c rest =>
      rw [hl] at ht2 hr
      have hfind := find_of_mem_distinct (removeAfter c rest)
        (removeAfter_strict rest c hr) t ht2
      rw [removeAfter_find] at hfind
      exact hfind
  · intro s hs1 huniq
    obtain ⟨t, ht, hv⟩ := dedupSorted_values sorted s hs1
    have hts : t = s := huniq t ((dedupSorted_sublist sorted).subset ht) hv
    rw [← hts]; exact ht

/-- Witness for `dedupSorted_keeps_last`: two symbols at `0x1000` followed by
one at `0x1010`. -/
theorem dedupSorted_keeps_last_witness :
    (dedupSorted [⟨0, 4096, 16, .function⟩, ⟨1, 4096, 32, .textObject⟩,
        ⟨2, 4112, 8, .function⟩]).Sublist
      [⟨0, 4096, 16, .function⟩, ⟨1, 4096, 32, .textObject⟩, ⟨2, 4112, 8, .function⟩] ∧
    (dedupSorted [⟨0, 4096, 16, .function⟩, ⟨1, 4096, 32, .textObject⟩,
        ⟨2, 4112, 8, .function⟩]).Pairwise (fun a b => a.st_value < b.st_value) ∧
    (∀ s ∈ ([⟨0, 4096, 16, .function⟩, ⟨1, 4096, 32, .textObject⟩,
        ⟨2, 4112, 8, .function⟩] : List Symbol),
      ∃ t ∈ dedupSorted [⟨0, 4096, 16, .function⟩, ⟨1, 4096, 32, .textObject⟩,
        ⟨2, 4112, 8, .function⟩], t.st_value = s.st_value) ∧
    (∀ t ∈ dedupSorted [⟨0, 4096, 16, .function⟩, ⟨1, 4096, 32, .textObject⟩,
        ⟨2, 4112, 8, .function⟩],
      ([⟨0, 4096, 16, .function⟩, ⟨1, 4096, 32, .textObject⟩,
        ⟨2, 4112, 8, .function⟩] : List Symbol).reverse.find?
          (fun u => u.st_value == t.st_value) = some t) ∧
    (∀ s ∈ ([⟨0, 4096, 16, .function⟩, ⟨1, 4096, 32, .textObject⟩,
        ⟨2, 4112, 8, .function⟩] : List Symbol),
      (∀ u ∈ ([⟨0, 4096, 16, .function⟩, ⟨1, 4096, 32, .textObject⟩,
        ⟨2, 4112, 8, .function⟩] : List Symbol), u.st_value = s.st_value → u = s) →
      s ∈ dedupSorted [⟨0, 4096, 16, .function⟩, ⟨1, 4096, 32, .textObject⟩,
        ⟨2, 4112, 8, .function⟩]) :=
  dedupSorted_keeps_last _ (by simp)

/-- Claim C6 (counterexample): of the two symbols at `0x1000`, first in the
sorted order is the function symbol named 0; the duplicate removal drops it
and keeps the second one, the text-object symbol named 1. -/
theorem dedupSorted_first_counterexample :
    dedupSorted [⟨0, 4096, 16, .function⟩, ⟨1, 4096, 32, .textObject⟩,
        ⟨2, 4112, 8, .function⟩]
      = [⟨1, 4096, 32, .textObject⟩, ⟨2, 4112, 8, .function⟩] ∧
    (⟨0, 4096, 16, .function⟩ : Symbol) ∉
      dedupSorted [⟨0, 4096, 16, .function⟩, ⟨1, 4096, 32, .textObject⟩,
        ⟨2, 4112, 8, .function⟩] := by
  decide

theorem mem_textSymbolsOf (sh : SectionHeader) (symbols : List Symbol) (s : Symbol)
    (h : s ∈ textSymbolsOf sh symbols) :
    (isFunctionSymbol sh s || isTextObjectSymbol sh s) = true := by
  unfold textSymbolsOf at h
  exact (List.mem_filter.1 h).2

theorem mem_collectTextSymbols (sh : SectionHeader) :
    ∀ (tables : List SymbolTable) (s : Symbol), s ∈ collectTextSymbols sh tables →
      (isFunctionSymbol sh s || isTextObjectSymbol sh s) = true := by
  intro tables
  induction tables with
  | nil => intro s h; cases h
  | cons t rest ih =>
    intro s h
    simp only [collectTextSymbols, List.mem_append] at h
    rcases h with h | h
    · cases hd : t.isDynamic with
      | true => simp [hd] at h
      | false =>
        simp only [hd, Bool.not_false, if_true] at h
        exact mem_textSymbolsOf sh _ s h
    · exact ih s h

theorem textSymbol_inRange (sh : SectionHeader) (s : Symbol)
    (h : (isFunctionSymbol sh s || isTextObjectSymbol sh s) = true) :
    sh.sh_addr ≤ s.st_value ∧ s.st_value < sh.sh_addr + sh.sh_size := by
  have hr : sh.inRange s.st_value = true := by
    simp only [isFunctionSymbol, isTextObjectSymbol, TextSection.inRange, Bool.or_eq_true,
      Bool.and_eq_true] at h
    rcases h with h | h <;> exact h.2
  simpa [SectionHeader.inRange] using hr

theorem mem_discoverTextObjects (sh : SectionHeader) (qsort : List Symbol → List Symbol)
    (tables : List SymbolTable) (hq : SortsByValue qsort) :
    ∀ s ∈ discoverTextObjects sh qsort tables, s ∈ collectTextSymbols sh tables := by
  intro s hs
  have h1 : s ∈ qsort (collectTextSymbols sh tables) :=
    (dedupSorted_sublist _).subset hs
  exact (hq _).1.subset h1

theorem discoverTextObjects_textSymbol (sh : SectionHeader)
    (qsort : List Symbol → List Symbol) (tables : List SymbolTable) (hq : SortsByValue qsort) :
    ∀ s ∈ discoverTextObjects sh qsort tables,
      (isFunctionSymbol sh s || isTextObjectSymbol sh s) = true :=
  fun s hs => mem_collectTextSymbols sh tables s (mem_discoverTextObjects sh qsort tables hq s hs)

theorem discoverTextObjects_strict (sh : SectionHeader) (qsort : List Symbol → List Symbol)
    (tables : List SymbolTable) (hq : SortsByValue qsort) :
    (discoverTextObjects sh qsort tables).Pairwise (fun a b => a.st_value < b.st_value) :=
  dedupSorted_strict _ (hq _).2

/-! ## Results on `disassemble` -/

theorem disassembleSymbols_cons_cons (sh : SectionHeader) (i : Nat) (cur next : Symbol)
    (rest : List Symbol) (objs : List TextObject)
    (h : disassembleSymbols sh i (cur :: next :: rest) = some objs) :
    ∃ tl, disassembleSymbols sh (i + 1) (next :: rest) = some tl ∧
      objs = objectFor sh i cur (innerSize sh cur next) :: tl := by
  unfold objectFor
  cases hf : isFunctionSymbol sh cur with
  | true =>
    simp only [disassembleSymbols, hf, if_true, Option.map_eq_some'] at h
    obtain ⟨tl, h1, h2⟩ := h
    exact ⟨tl, h1, by simp [h2]⟩
  | false =>
    cases ht : isTextObjectSymbol sh cur with
    | true =>
      simp only [disassembleSymbols, hf, ht, if_true, Bool.false_eq_true, if_false,
        Option.map_eq_some'] at h
      obtain ⟨tl, h1, h2⟩ := h
      exact ⟨tl, h1, by simp [h2]⟩
    | false => simp [disassembleSymbols, hf, ht] at h

theorem disassembleSymbols_single (sh : SectionHeader) (i : Nat) (last : Symbol) :
    disassembleSymbols sh i [last] = some [objectFor sh i last (lastSize sh last)] := by
  unfold objectFor
  by_cases hf : isFunctionSymbol sh last = true
  · simp [disassembleSymbols, hf]
  · simp [disassembleSymbols, hf]

/-- The `PRINT_ERROR` branch is not reached for text symbols of the section. -/
theorem disassembleSymbols_some (sh : SectionHeader) :
    ∀ (syms : List Symbol) (i : Nat),
      (∀ s ∈ syms, (isFunctionSymbol sh s || isTextObjectSymbol sh s) = true) →
      ∃ objs, disassembleSymbols sh i syms = some objs := by
  intro syms
  induction syms with
  | nil => intro i _; exact ⟨[], rfl⟩
  | cons cur tail ih =>
    intro i h
    cases tail with
    | nil => rw [disassembleSymbols_single]; exact ⟨_, rfl⟩
    | cons next rest =>
      obtain ⟨objs, ho⟩ := ih (i + 1) (fun s hs => h s (List.mem_cons_of_mem _ hs))
      have hc := h cur (List.mem_cons_self _ _)
      cases hf : isFunctionSymbol sh cur with
      | true =>
        simp only [disassembleSymbols, hf, if_true, ho, Option.map_some']
        exact ⟨_, rfl⟩
      | false =>
        have ht : isTextObjectSymbol sh cur = true := by simpa [hf] using hc
        simp only [disassembleSymbols, hf, ht, if_true, Bool.false_eq_true, if_false, ho,
          Option.map_some']
        exact ⟨_, rfl⟩

theorem disassembleSymbols_length (sh : SectionHeader) :
    ∀ (syms : List Symbol) (i : Nat) (objs : List TextObject),
      disassembleSymbols sh i syms = some objs → objs.length = syms.length := by
  intro syms
  induction syms with
  | nil => intro i objs h; simp [disassembleSymbols] at h; simp [← h]
  | cons cur tail ih =>
    intro i objs h
    cases tail with
    | nil =>
      rw [disassembleSymbols_single] at h
      simp at h; simp [← h]
    | cons next rest =>
      obtain ⟨tl, h1, h2⟩ := disassembleSymbols_cons_cons sh i cur next rest objs h
      have := ih (i + 1) tl h1
      simp [h2, this]

theorem objectFor_base (sh : SectionHeader) (i : Nat) (sym : Symbol) (sz : Nat) :
    (objectFor sh i sym sz).getBaseAddress = sym.st_value := by
  unfold objectFor; split <;> rfl

theorem objectFor_size (sh : SectionHeader) (i : Nat) (sym : Symbol) (sz : Nat) :
    (objectFor sh i sym sz).getSizeInBytes = if isFunctionSymbol sh sym then sz else toU32 sz := by
  unfold objectFor; split <;> rfl

theorem toU32_lt (x : Nat) : toU32 x < U32 := by
  unfold toU32 U32; omega

theorem toU32_of_lt (x : Nat) (h : x < U32) : toU32 x = x := by
  unfold toU32 U32 at *; omega

theorem innerSize_lt (sh : SectionHeader) (cur next : Symbol) : innerSize sh cur next < U32 := by
  unfold innerSize
  simp only
  split <;> exact toU32_lt _

theorem lastSize_lt (sh : SectionHeader) (last : Symbol) : lastSize sh last < U32 := by
  unfold lastSize
  simp only
  split <;> exact toU32_lt _

theorem disassembleSymbols_bases (sh : SectionHeader) :
    ∀ (syms : List Symbol) (i : Nat) (objs : List TextObject),
      disassembleSymbols sh i syms = some objs →
      objs.map TextObject.getBaseAddress = syms.map Symbol.st_value := by
  intro syms
  induction syms with
  | nil => intro i objs h; simp [disassembleSymbols] at h; simp [← h]
  | cons cur tail ih =>
    intro i objs h
    cases tail with
    | nil =>
      rw [disassembleSymbols_single] at h
      simp at h; simp [← h, objectFor_base]
    | cons next rest =>
      obtain ⟨tl, h1, h2⟩ := disassembleSymbols_cons_cons sh i cur next rest objs h
      have := ih (i + 1) tl h1
      simp [h2, this, objectFor_base]

theorem disassembleSymbols_at (sh : SectionHeader) :
    ∀ (syms : List Symbol) (i : Nat) (objs : List TextObject) (k : Nat) (sym : Symbol),
      disassembleSymbols sh i syms = some objs → syms[k]? = some sym →
      ∃ sz, objs[k]? = some (objectFor sh (i + k) sym sz) := by
  intro syms
  induction syms with
  | nil => intro i objs k sym _ hk; simp at hk
  | cons cur tail ih =>
    intro i objs k sym h hk
    cases tail with
    | nil =>
      rw [disassembleSymbols_single] at h
      cases k with
      | zero =>
        simp at hk h; subst hk; subst h
        exact ⟨lastSize sh cur, by simp⟩
      | succ k => simp at hk
    | cons next rest =>
      obtain ⟨tl, h1, h2⟩ := disassembleSymbols_cons_cons sh i cur next rest objs h
      subst h2
      cases k with
      | zero =>
        simp at hk; subst hk
        exact ⟨innerSize sh cur next, by simp⟩
      | succ k =>
        simp only [List.getElem?_cons_succ] at hk ⊢
        obtain ⟨sz, hsz⟩ := ih (i + 1) tl k sym h1 hk
        exact ⟨sz, by rw [hsz]; congr 2; omega⟩

theorem disassembleSymbols_inner (sh : SectionHeader) :
    ∀ (syms : List Symbol) (i : Nat) (objs : List TextObject) (k : Nat) (cur next : Symbol),
      disassembleSymbols sh i syms = some objs →
      syms[k]? = some cur → syms[k + 1]? = some next →
      objs[k]? = some (objectFor sh (i + k) cur (innerSize sh cur next)) := by
  intro syms
  induction syms with
  | nil => intro i objs k cur next _ hk; simp at hk
  | cons c tail ih =>
    intro i objs k cur next h hk hk1
    cases tail with
    | nil => simp at hk1
    | cons n rest =>
      obtain ⟨tl, h1, h2⟩ := disassembleSymbols_cons_cons sh i c n rest objs h
      subst h2
      cases k with
      | zero =>
        simp at hk hk1; subst hk; subst hk1
        simp
      | succ k =>
        simp only [List.getElem?_cons_succ] at hk ⊢
        have hk2 : (n :: rest)[k + 1]? = some next := by
          simpa [List.getElem?_cons_succ] using hk1
        rw [ih (i + 1) tl k cur next h1 hk hk2]
        congr 2; omega

theorem disassembleSymbols_last (sh : SectionHeader) :
    ∀ (syms : List Symbol) (i : Nat) (objs : List TextObject) (last : Symbol),
      disassembleSymbols sh i syms = some objs → syms.getLast? = some last →
      objs.getLast? =
        some (objectFor sh (i + (syms.length - 1)) last (lastSize sh last)) := by
  intro syms
  induction syms with
  | nil => intro i objs last _ hl; simp at hl
  | cons c tail ih =>
    intro i objs last h hl
    cases tail with
    | nil =>
      rw [disassembleSymbols_single] at h
      simp at hl h; subst hl; subst h
      simp
    | cons n rest =>
      obtain ⟨tl, h1, h2⟩ := disassembleSymbols_cons_cons sh i c n rest objs h
      subst h2
      have hl2 : (n :: rest).getLast? = some last := by
        simpa [List.getLast?_cons_cons] using hl
      have htl := ih (i + 1) tl last h1 hl2
      have hne : tl ≠ [] := by
        intro he; rw [he] at htl; simp at htl
      obtain ⟨t0, tr, rfl⟩ := List.exists_cons_of_ne_nil hne
      rw [List.getLast?_cons_cons, htl]
      congr 2
      simp only [List.length_cons]; omega

theorem disassemble_eq (sh : SectionHeader) (qsort : List Symbol → List Symbol)
    (tables : List SymbolTable) (hq : SortsByValue qsort)
    (hne : discoverTextObjects sh qsort tables ≠ []) :
    ∃ objs, disassembleSymbols sh 0 (discoverTextObjects sh qsort tables) = some objs ∧
      disassembleObjects sh qsort tables = some (objs, objs.length) := by
  obtain ⟨objs, ho⟩ := disassembleSymbols_some sh (discoverTextObjects sh qsort tables) 0
    (discoverTextObjects_textSymbol sh qsort tables hq)
  refine ⟨objs, ho, ?_⟩
  have hlen : (discoverTextObjects sh qsort tables).length ≠ 0 := by
    simpa [List.length_eq_zero] using hne
  simp [disassembleObjects, disassembleFrom, hlen, ho]

theorem disassemble_empty (sh : SectionHeader) (qsort : List Symbol → List Symbol)
    (tables : List SymbolTable) (h : discoverTextObjects sh qsort tables = []) :
    disassembleObjects sh qsort tables =
      some ([TextObject.FreeText 0 none sh.sh_addr (toU32 sh.sh_size) true], 1) := by
  simp [disassembleObjects, disassembleFrom, h, newFreeText]

/-- Claim C2 (amended): for every text section of non-zero size, the text
objects built by `disassemble` have strictly increasing base addresses and
every base lies in `[sh_addr, sh_addr + sh_size)`. -/
theorem disassemble_bases_sorted (sh : SectionHeader) (qsort : List Symbol → List Symbol)
    (tables : List SymbolTable) (hq : SortsByValue qsort) (hsize : 0 < sh.sh_size) :
    ∃ objs n, disassembleObjects sh qsort tables = some (objs, n) ∧
      objs.Pairwise (fun a b => a.getBaseAddress < b.getBaseAddress) ∧
      ∀ o ∈ objs, sh.sh_addr ≤ o.getBaseAddress ∧
        o.getBaseAddress < sh.sh_addr + sh.sh_size := by
  by_cases hne : discoverTextObjects sh qsort tables = []
  · refine ⟨_, _, disassemble_empty sh qsort tables hne, by simp, ?_⟩
    intro o ho
    simp only [List.mem_singleton] at ho
    subst ho
    simp only [TextObject.getBaseAddress]
    omega
  · obtain ⟨objs, ho, hd⟩ := disassemble_eq sh qsort tables hq hne
    have hb := disassembleSymbols_bases sh _ 0 objs ho
    refine ⟨objs, _, hd, ?_, ?_⟩
    · have hs := discoverTextObjects_strict sh qsort tables hq
      have h1 : (List.map Symbol.st_value (discoverTextObjects sh qsort tables)).Pairwise
          (fun a b => a < b) := List.pairwise_map.2 hs
      rw [← hb] at h1
      exact List.pairwise_map.1 h1
    · intro o hmem
      have h1 : o.getBaseAddress ∈ List.map Symbol.st_value
          (discoverTextObjects sh qsort tables) := by
        rw [← hb]; exact List.mem_map_of_mem _ hmem
      obtain ⟨sym, hsym, hv⟩ := List.mem_map.1 h1
      rw [← hv]
      exact textSymbol_inRange sh sym (discoverTextObjects_textSymbol sh qsort tables hq sym hsym)

/-- Witness for `disassemble_bases_sorted`: a section of 256 bytes at `0x1000`
with three text symbols, two of them at the same address. -/
theorem disassemble_bases_sorted_witness :
    ∃ objs n, disassembleObjects ⟨4096, 256⟩ sortByValue
        [⟨false, [⟨0, 4112, 16, .function⟩, ⟨1, 4096, 16, .function⟩,
          ⟨2, 4112, 0, .textObject⟩]⟩] = some (objs, n) ∧
      objs.Pairwise (fun a b => a.getBaseAddress < b.getBaseAddress) ∧
      ∀ o ∈ objs, (4096 : Nat) ≤ o.getBaseAddress ∧ o.getBaseAddress < 4096 + 256 :=
  disassemble_bases_sorted ⟨4096, 256⟩ sortByValue _ sortByValue_sorts (by decide)

/-- Claim C2 (counterexample): for an empty text section at `0x1000` without
text symbols, `disassemble` builds one `FreeText` based at `0x1000`, which is
not in `[0x1000, 0x1000 + 0)`. -/
theorem disassemble_bases_sorted_counterexample :
    disassembleObjects ⟨4096, 0⟩ sortByValue [] =
      some ([TextObject.FreeText 0 none 4096 0 true], 1) ∧
    ¬ ((4096 : Nat) ≤ (TextObject.FreeText 0 none 4096 0 true).getBaseAddress ∧
      (TextObject.FreeText 0 none 4096 0 true).getBaseAddress < 4096 + 0) := by
  decide

/-- Claim C8 (amended): for a non-empty symbol list returned by
`discoverTextObjects`, `disassemble` creates one text object per symbol; the
`i`-th object has index `i`, the `i`-th symbol as its symbol and that symbol's
value as its base; it is a `Function` when the symbol is a function symbol of
the section and otherwise a `FreeText` with `usesInstructions = false`.  When
these objects pass `verify()`, `disassemble` returns their number and leaves
them in `sortedTextObjects`; when they do not, the run stops in `verify()`
and nothing is returned. -/
theorem disassemble_one_object_per_symbol (sh : SectionHeader)
    (qsort : List Symbol → List Symbol) (tables : List SymbolTable)
    (hq : SortsByValue qsort) (hne : discoverTextObjects sh qsort tables ≠ []) :
    ∃ objs, disassembleObjects sh qsort tables =
        some (objs, (discoverTextObjects sh qsort tables).length) ∧
      objs.length = (discoverTextObjects sh qsort tables).length ∧
      (∀ i sym, (discoverTextObjects sh qsort tables)[i]? = some sym →
        ∃ o, objs[i]? = some o ∧ o.getIndex = i ∧ o.getSymbol = some sym ∧
          o.getBaseAddress = sym.st_value ∧
          (isFunctionSymbol sh sym = true →
            ∃ sz, o = TextObject.Function i sym sym.st_value sz) ∧
          (isFunctionSymbol sh sym = false →
            ∃ sz, o = TextObject.FreeText i (some sym) sym.st_value sz false)) ∧
      (verify sh objs = true →
        disassemble sh qsort tables =
          some (objs, (discoverTextObjects sh qsort tables).length)) ∧
      (verify sh objs = false → disassemble sh qsort tables = none) := by
  obtain ⟨objs, ho, hd⟩ := disassemble_eq sh qsort tables hq hne
  have hlen := disassembleSymbols_length sh _ 0 objs ho
  refine ⟨objs, by rw [hd, hlen], hlen, ?_, ?_, ?_⟩
  · intro i sym hi
    obtain ⟨sz, hsz⟩ := disassembleSymbols_at sh _ 0 objs i sym ho hi
    rw [Nat.zero_add] at hsz
    refine ⟨_, hsz, ?_⟩
    cases hf : isFunctionSymbol sh sym with
    | true =>
      have ho : objectFor sh i sym sz = TextObject.Function i sym sym.st_value sz := by
        simp [objectFor, hf, newFunction]
      rw [ho]
      exact ⟨rfl, rfl, rfl, fun _ => ⟨sz, rfl⟩, fun h => by cases h⟩
    | false =>
      have ho : objectFor sh i sym sz
          = TextObject.FreeText i (some sym) sym.st_value (toU32 sz) false := by
        simp [objectFor, hf, newFreeText]
      rw [ho]
      exact ⟨rfl, rfl, rfl, fun h => absurd h Bool.false_ne_true, fun _ => ⟨toU32 sz, rfl⟩⟩
  · intro hv
    simp only [disassemble, hd, hv, if_true, hlen]
  · intro hv
    simp only [disassemble, hd, hv, Bool.false_eq_true, if_false]

/-- Witness for `disassemble_one_object_per_symbol`: a function symbol at
`0x1000` and a text-object symbol at `0x1010` in a section of 256 bytes. -/
theorem disassemble_one_object_per_symbol_witness :
    ∃ objs, disassembleObjects ⟨4096, 256⟩ sortByValue
        [⟨false, [⟨1, 4112, 0, .textObject⟩, ⟨0, 4096, 16, .function⟩]⟩] =
        some (objs, (discoverTextObjects ⟨4096, 256⟩ sortByValue
          [⟨false, [⟨1, 4112, 0, .textObject⟩, ⟨0, 4096, 16, .function⟩]⟩]).length) ∧
      objs.length = (discoverTextObjects ⟨4096, 256⟩ sortByValue
          [⟨false, [⟨1, 4112, 0, .textObject⟩, ⟨0, 4096, 16, .function⟩]⟩]).length ∧
      (∀ i sym, (discoverTextObjects ⟨4096, 256⟩ sortByValue
          [⟨false, [⟨1, 4112, 0, .textObject⟩, ⟨0, 4096, 16, .function⟩]⟩])[i]? = some sym →
        ∃ o, objs[i]? = some o ∧ o.getIndex = i ∧ o.getSymbol = some sym ∧
          o.getBaseAddress = sym.st_value ∧
          (isFunctionSymbol ⟨4096, 256⟩ sym = true →
            ∃ sz, o = TextObject.Function i sym sym.st_value sz) ∧
          (isFunctionSymbol ⟨4096, 256⟩ sym = false →
            ∃ sz, o = TextObject.FreeText i (some sym) sym.st_value sz false)) ∧
      (verify ⟨4096, 256⟩ objs = true →
        disassemble ⟨4096, 256⟩ sortByValue
          [⟨false, [⟨1, 4112, 0, .textObject⟩, ⟨0, 4096, 16, .function⟩]⟩] =
          some (objs, (discoverTextObjects ⟨4096, 256⟩ sortByValue
            [⟨false, [⟨1, 4112, 0, .textObject⟩, ⟨0, 4096, 16, .function⟩]⟩]).length)) ∧
      (verify ⟨4096, 256⟩ objs = false →
        disassemble ⟨4096, 256⟩ sortByValue
          [⟨false, [⟨1, 4112, 0, .textObject⟩, ⟨0, 4096, 16, .function⟩]⟩] = none) :=
  disassemble_one_object_per_symbol ⟨4096, 256⟩ sortByValue _ sortByValue_sorts (by decide)

/-- Claim C8 (counterexample): (a) for the single function symbol at `0x1010`
in the section of 256 bytes at `0x1000`, the symbol list has length 1 and one
`Function` is built, but it does not start at `sh_addr`: `verify()` reports
the error and `disassemble` does not return 1; (b) for the single function
symbol at `0x1000` with `st_size = 512` the object reaches beyond the section
end, and `disassemble` does not return either; (c) for the two symbols of the
witness the objects pass `verify()` and `disassemble` returns 2. -/
theorem disassemble_one_object_per_symbol_counterexample :
    ((discoverTextObjects ⟨4096, 256⟩ sortByValue
        [⟨false, [⟨0, 4112, 16, .function⟩]⟩]).length = 1 ∧
      disassembleObjects ⟨4096, 256⟩ sortByValue [⟨false, [⟨0, 4112, 16, .function⟩]⟩] =
        some ([TextObject.Function 0 ⟨0, 4112, 16, .function⟩ 4112 240], 1) ∧
      verify ⟨4096, 256⟩ [TextObject.Function 0 ⟨0, 4112, 16, .function⟩ 4112 240] = false ∧
      disassemble ⟨4096, 256⟩ sortByValue [⟨false, [⟨0, 4112, 16, .function⟩]⟩] = none) ∧
    ((discoverTextObjects ⟨4096, 256⟩ sortByValue
        [⟨false, [⟨0, 4096, 512, .function⟩]⟩]).length = 1 ∧
      disassembleObjects ⟨4096, 256⟩ sortByValue [⟨false, [⟨0, 4096, 512, .function⟩]⟩] =
        some ([TextObject.Function 0 ⟨0, 4096, 512, .function⟩ 4096 512], 1) ∧
      verify ⟨4096, 256⟩ [TextObject.Function 0 ⟨0, 4096, 512, .function⟩ 4096 512] = false ∧
      disassemble ⟨4096, 256⟩ sortByValue [⟨false, [⟨0, 4096, 512, .function⟩]⟩] = none) ∧
    disassemble ⟨4096, 256⟩ sortByValue
        [⟨false, [⟨1, 4112, 0, .textObject⟩, ⟨0, 4096, 16, .function⟩]⟩] =
      some ([TextObject.Function 0 ⟨0, 4096, 16, .function⟩ 4096 16,
        TextObject.FreeText 1 (some ⟨1, 4112, 0, .textObject⟩) 4112 240 false], 2) := by
  decide

theorem innerSize_eq (sh : SectionHeader) (cur next : Symbol)
    (hle : cur.st_value ≤ next.st_value)
    (hdist : next.st_value - cur.st_value < U32) (hsize : cur.st_size < U32) :
    innerSize sh cur next =
      if cur.st_size < sh.sh_size then max cur.st_size (next.st_value - cur.st_value)
      else next.st_value - cur.st_value := by
  have h1 : toU32 (sub64 next.st_value cur.st_value) = next.st_value - cur.st_value := by
    unfold toU32 sub64 U32 U64 at *; omega
  have h2 : toU32 cur.st_size = cur.st_size := toU32_of_lt _ hsize
  unfold innerSize
  simp only [h1, h2]
  split_ifs <;> omega

theorem lastSize_eq (sh : SectionHeader) (last : Symbol)
    (hle : last.st_value ≤ sh.sh_addr + sh.sh_size) (hv : last.st_value < U64)
    (hsize : last.st_size < U32)
    (hdist : sh.sh_addr + sh.sh_size - last.st_value < U32) :
    lastSize sh last = max last.st_size (sh.sh_addr + sh.sh_size - last.st_value) := by
  have h1 : toU32 (sub64 (add64 sh.sh_addr sh.sh_size) last.st_value)
      = sh.sh_addr + sh.sh_size - last.st_value := by
    unfold toU32 sub64 add64 U32 U64 at *; omega
  have h2 : toU32 last.st_size = last.st_size := toU32_of_lt _ hsize
  unfold lastSize
  simp only [h1, h2]
  split_ifs <;> omega

theorem objectFor_size_of_lt (sh : SectionHeader) (i : Nat) (sym : Symbol) (sz : Nat)
    (h : sz < U32) : (objectFor sh i sym sz).getSizeInBytes = sz := by
  rw [objectFor_size, toU32_of_lt _ h]; simp

/-- Claim C4 (amended): for adjacent symbols `cur`, `next` of the list returned
by `discoverTextObjects` whose distance and whose `st_size` fit the 32-bit size,
the object built for `cur` has size `max(st_size, next.st_value - st_value)`
when `st_size < sh_size`, and `next.st_value - st_value` when
`st_size ≥ sh_size`. -/
theorem disassemble_inner_size (sh : SectionHeader) (qsort : List Symbol → List Symbol)
    (tables : List SymbolTable) (hq : SortsByValue qsort) (k : Nat) (cur next : Symbol)
    (hcur : (discoverTextObjects sh qsort tables)[k]? = some cur)
    (hnext : (discoverTextObjects sh qsort tables)[k + 1]? = some next)
    (hdist : next.st_value - cur.st_value < U32) (hsize : cur.st_size < U32) :
    ∃ objs n o, disassembleObjects sh qsort tables = some (objs, n) ∧ objs[k]? = some o ∧
      o.getSizeInBytes =
        if cur.st_size < sh.sh_size then max cur.st_size (next.st_value - cur.st_value)
        else next.st_value - cur.st_value := by
  have hne : discoverTextObjects sh qsort tables ≠ [] := by
    intro he; rw [he] at hcur; simp at hcur
  obtain ⟨objs, ho, hd⟩ := disassemble_eq sh qsort tables hq hne
  have hk := disassembleSymbols_inner sh _ 0 objs k cur next ho hcur hnext
  have hlt : cur.st_value < next.st_value := by
    obtain ⟨h1, e1⟩ := List.getElem?_eq_some.1 hcur
    obtain ⟨h2, e2⟩ := List.getElem?_eq_some.1 hnext
    have hp := List.pairwise_iff_getElem.1 (discoverTextObjects_strict sh qsort tables hq)
      k (k + 1) h1 h2 (Nat.lt_succ_self k)
    rw [e1, e2] at hp
    exact hp
  refine ⟨objs, _, _, hd, hk, ?_⟩
  rw [objectFor_size_of_lt _ _ _ _ (innerSize_lt sh cur next)]
  exact innerSize_eq sh cur next (Nat.le_of_lt hlt) hdist hsize

/-- Witness for `disassemble_inner_size`: a function of 16 bytes whose symbol
reports 24 bytes, followed by a function at `0x1010`. -/
theorem disassemble_inner_size_witness :
    ∃ objs n o, disassembleObjects ⟨4096, 256⟩ sortByValue
        [⟨false, [⟨0, 4096, 24, .function⟩, ⟨1, 4112, 16, .function⟩]⟩] = some (objs, n) ∧
      objs[0]? = some o ∧
      o.getSizeInBytes = if (24 : Nat) < 256 then max 24 (4112 - 4096) else 4112 - 4096 :=
  disassemble_inner_size ⟨4096, 256⟩ sortByValue
    [⟨false, [⟨0, 4096, 24, .function⟩, ⟨1, 4112, 16, .function⟩]⟩] sortByValue_sorts 0
    ⟨0, 4096, 24, .function⟩ ⟨1, 4112, 16, .function⟩ (by decide) (by decide)
    (by decide) (by decide)

/-- Claim C4 (counterexample): in a section of 256 bytes a symbol at `0x1000`
with `st_size = 512`, followed by a symbol at `0x1010`, gets an object of 16
bytes, not `max(512, 16)`; and in a section of `2^33` bytes two symbols `2^32`
bytes apart give the first object size 0, not `2^32`. -/
theorem disassemble_inner_size_counterexample :
    (disassembleObjects ⟨4096, 256⟩ sortByValue
        [⟨false, [⟨0, 4096, 512, .function⟩, ⟨1, 4112, 16, .function⟩]⟩] =
      some ([TextObject.Function 0 ⟨0, 4096, 512, .function⟩ 4096 16,
        TextObject.Function 1 ⟨1, 4112, 16, .function⟩ 4112 240], 2) ∧
      (16 : Nat) ≠ max 512 (4112 - 4096)) ∧
    (disassembleObjects ⟨0, 8589934592⟩ sortByValue
        [⟨false, [⟨0, 0, 0, .function⟩, ⟨1, 4294967296, 0, .function⟩]⟩] =
      some ([TextObject.Function 0 ⟨0, 0, 0, .function⟩ 0 0,
        TextObject.Function 1 ⟨1, 4294967296, 0, .function⟩ 4294967296 0], 2) ∧
      (0 : Nat) ≠ max 0 (4294967296 - 0)) := by
  decide

/-- Claim C5 (amended): for the last symbol of the list returned by
`discoverTextObjects`, when `st_size` and the distance to the section end fit
the 32-bit size, the object built for it has size
`max(st_size, (sh_addr + sh_size) - st_value)`. -/
theorem disassemble_last_size (sh : SectionHeader) (qsort : List Symbol → List Symbol)
    (tables : List SymbolTable) (hq : SortsByValue qsort) (last : Symbol)
    (hlast : (discoverTextObjects sh qsort tables).getLast? = some last)
    (hv : last.st_value < U64) (hsize : last.st_size < U32)
    (hdist : sh.sh_addr + sh.sh_size - last.st_value < U32) :
    ∃ objs n o, disassembleObjects sh qsort tables = some (objs, n) ∧ objs.getLast? = some o ∧
      o.getSizeInBytes = max last.st_size (sh.sh_addr + sh.sh_size - last.st_value) := by
  have hne : discoverTextObjects sh qsort tables ≠ [] := by
    intro he; rw [he] at hlast; simp at hlast
  obtain ⟨objs, ho, hd⟩ := disassemble_eq sh qsort tables hq hne
  have hl := disassembleSymbols_last sh _ 0 objs last ho hlast
  have hmem : last ∈ discoverTextObjects sh qsort tables := List.mem_of_getLast?_eq_some hlast
  have hr := textSymbol_inRange sh last
    (discoverTextObjects_textSymbol sh qsort tables hq last hmem)
  refine ⟨objs, _, _, hd, hl, ?_⟩
  rw [objectFor_size_of_lt _ _ _ _ (lastSize_lt sh last)]
  exact lastSize_eq sh last (by omega) hv hsize hdist

/-- Witness for `disassemble_last_size`: the last symbol, at `0x1010`, reports
16 bytes and the section ends 240 bytes after it. -/
theorem disassemble_last_size_witness :
    ∃ objs n o, disassembleObjects ⟨4096, 256⟩ sortByValue
        [⟨false, [⟨0, 4096, 24, .function⟩, ⟨1, 4112, 16, .function⟩]⟩] = some (objs, n) ∧
      objs.getLast? = some o ∧ o.getSizeInBytes = max 16 (4096 + 256 - 4112) :=
  disassemble_last_size ⟨4096, 256⟩ sortByValue
    [⟨false, [⟨0, 4096, 24, .function⟩, ⟨1, 4112, 16, .function⟩]⟩] sortByValue_sorts
    ⟨1, 4112, 16, .function⟩ (by decide) (by decide) (by decide) (by decide)

/-- Claim C5 (counterexample): a last symbol with `st_size = 2^32` in a section
of 256 bytes gets an object of size 0, not `max(2^32, 256)`; and the only
symbol of a section of `2^32` bytes gets an object of size 0, not `2^32`. -/
theorem disassemble_last_size_counterexample :
    (disassembleObjects ⟨4096, 256⟩ sortByValue [⟨false, [⟨0, 4096, 4294967296, .function⟩]⟩] =
      some ([TextObject.Function 0 ⟨0, 4096, 4294967296, .function⟩ 4096 0], 1) ∧
      (0 : Nat) ≠ max 4294967296 (4096 + 256 - 4096)) ∧
    (disassembleObjects ⟨0, 4294967296⟩ sortByValue [⟨false, [⟨0, 0, 0, .function⟩]⟩] =
      some ([TextObject.Function 0 ⟨0, 0, 0, .function⟩ 0 0], 1) ∧
      (0 : Nat) ≠ max 0 (0 + 4294967296 - 0)) := by
  decide

/-! ## Results on `verify` -/

theorem verifyBounds_of (sh : SectionHeader) (hfit : sh.sh_addr + sh.sh_size ≤ U64) :
    ∀ objs : List TextObject,
      (∀ o ∈ objs, sh.sh_addr ≤ o.getBaseAddress ∧
        o.getBaseAddress < sh.sh_addr + sh.sh_size ∧
        o.getBaseAddress + o.getSizeInBytes ≤ sh.sh_addr + sh.sh_size) →
      verifyBounds sh objs = true := by
  intro objs
  induction objs with
  | nil => intro _; rfl
  | cons o rest ih =>
    intro h
    obtain ⟨h1, h2, h3⟩ := h o (List.mem_cons_self _ _)
    have hin : sh.inRange o.getBaseAddress = true := by
      simp only [SectionHeader.inRange, decide_eq_true_eq]; omega
    have hout : sh.inRange (add64 o.getBaseAddress o.getSizeInBytes) = true ∨
        add64 o.getBaseAddress o.getSizeInBytes = add64 sh.sh_addr sh.sh_size := by
      simp only [SectionHeader.inRange, decide_eq_true_eq]
      unfold add64 U64 at *
      omega
    have hrest := ih (fun o ho => h o (List.mem_cons_of_mem _ ho))
    rcases hout with hout | hout
    · simp [verifyBounds, hin, hout, hrest]
    · simp [verifyBounds, hin, hout, hrest]

theorem verifySorted_of : ∀ objs : List TextObject,
    objs.Pairwise (fun a b => a.getBaseAddress < b.getBaseAddress) →
    verifySorted objs = true := by
  intro objs
  induction objs with
  | nil => intro _; rfl
  | cons a rest ih =>
    intro hp
    cases rest with
    | nil => rfl
    | cons b rest =>
      have hab : a.getBaseAddress < b.getBaseAddress :=
        (List.pairwise_cons.1 hp).1 b (List.mem_cons_self _ _)
      have hnot : ¬ a.getBaseAddress > b.getBaseAddress := by omega
      simp only [verifySorted, hnot, if_false]
      exact ih (List.pairwise_cons.1 hp).2

theorem innerSize_le (sh : SectionHeader) (cur next : Symbol)
    (hle : cur.st_value ≤ next.st_value) :
    innerSize sh cur next ≤ max (next.st_value - cur.st_value) cur.st_size := by
  unfold innerSize toU32 sub64 U32 U64
  simp only
  split_ifs <;> omega

theorem lastSize_le (sh : SectionHeader) (last : Symbol)
    (hfit : sh.sh_addr + sh.sh_size ≤ U64)
    (hle : last.st_value ≤ sh.sh_addr + sh.sh_size) :
    lastSize sh last ≤ max (sh.sh_addr + sh.sh_size - last.st_value) last.st_size := by
  unfold lastSize toU32 sub64 add64 U32 U64 at *
  simp only
  split_ifs <;> omega

theorem objectFor_size_le (sh : SectionHeader) (i : Nat) (sym : Symbol) (sz : Nat) :
    (objectFor sh i sym sz).getSizeInBytes ≤ sz := by
  rw [objectFor_size]
  split
  · exact le_refl _
  · unfold toU32 U32; omega

/-- Every object built from strictly sorted text symbols whose extents stay
inside the section starts inside the section and ends no later than the
section end. -/
theorem disassembleSymbols_extent (sh : SectionHeader)
    (hfit : sh.sh_addr + sh.sh_size ≤ U64) :
    ∀ (syms : List Symbol) (i : Nat) (objs : List TextObject),
      disassembleSymbols sh i syms = some objs →
      syms.Pairwise (fun a b => a.st_value < b.st_value) →
      (∀ s ∈ syms, sh.sh_addr ≤ s.st_value ∧ s.st_value < sh.sh_addr + sh.sh_size) →
      (∀ s ∈ syms, s.st_value + s.st_size ≤ sh.sh_addr + sh.sh_size) →
      ∀ o ∈ objs, sh.sh_addr ≤ o.getBaseAddress ∧
        o.getBaseAddress < sh.sh_addr + sh.sh_size ∧
        o.getBaseAddress + o.getSizeInBytes ≤ sh.sh_addr + sh.sh_size := by
  intro syms
  induction syms with
  | nil => intro i objs h _ _ _ o ho; simp [disassembleSymbols] at h; subst h; cases ho
  | cons cur tail ih =>
    intro i objs h hp hr he o ho
    have hcr := hr cur (List.mem_cons_self _ _)
    have hce := he cur (List.mem_cons_self _ _)
    cases tail with
    | nil =>
      rw [disassembleSymbols_single] at h
      simp only [Option.some.injEq] at h
      subst h
      simp only [List.mem_singleton] at ho
      subst ho
      have hs := objectFor_size_le sh i cur (lastSize sh cur)
      have hl := lastSize_le sh cur hfit (by omega)
      rw [objectFor_base]
      omega
    | cons next rest =>
      obtain ⟨tl, h1, h2⟩ := disassembleSymbols_cons_cons sh i cur next rest objs h
      subst h2
      rcases List.mem_cons.1 ho with rfl | hmem
      · have hnr := hr next (List.mem_cons_of_mem _ (List.mem_cons_self _ _))
        have hlt : cur.st_value < next.st_value :=
          (List.pairwise_cons.1 hp).1 next (List.mem_cons_self _ _)
        have hs := objectFor_size_le sh i cur (innerSize sh cur next)
        have hl := innerSize_le sh cur next (Nat.le_of_lt hlt)
        rw [objectFor_base]
        omega
      · exact ih (i + 1) tl h1 (List.pairwise_cons.1 hp).2
          (fun s hs => hr s (List.mem_cons_of_mem _ hs))
          (fun s hs => he s (List.mem_cons_of_mem _ hs)) o hmem

theorem verify_of (sh : SectionHeader) (hfit : sh.sh_addr + sh.sh_size ≤ U64)
    (objs : List TextObject)
    (hb : ∀ o ∈ objs, sh.sh_addr ≤ o.getBaseAddress ∧
      o.getBaseAddress < sh.sh_addr + sh.sh_size ∧
      o.getBaseAddress + o.getSizeInBytes ≤ sh.sh_addr + sh.sh_size)
    (hs : objs.Pairwise (fun a b => a.getBaseAddress < b.getBaseAddress))
    (hf : ∀ o, objs.head? = some o → o.getBaseAddress = sh.sh_addr) :
    verify sh objs = true := by
  have h1 := verifyBounds_of sh hfit objs hb
  have h2 := verifySorted_of objs hs
  have h3 : verifyFirst sh objs = true := by
    cases objs with
    | nil => rfl
    | cons o rest => simp [verifyFirst, hf o rfl]
  simp [verify, h1, h2, h3]

theorem discoverTextObjects_head (sh : SectionHeader) (qsort : List Symbol → List Symbol)
    (tables : List SymbolTable) (hq : SortsByValue qsort)
    (hfirst : ∃ t ∈ collectTextSymbols sh tables, t.st_value = sh.sh_addr)
    (h : Symbol) (tl : List Symbol) (hd : discoverTextObjects sh qsort tables = h :: tl) :
    h.st_value = sh.sh_addr := by
  obtain ⟨t, ht, hv⟩ := hfirst
  have ht2 : t ∈ qsort (collectTextSymbols sh tables) := (hq _).1.symm.subset ht
  obtain ⟨u, hu, huv⟩ := dedupSorted_values _ t ht2
  have hu2 : u ∈ h :: tl := by rw [← hd]; exact hu
  have hstrict := discoverTextObjects_strict sh qsort tables hq
  rw [hd] at hstrict
  have hr := textSymbol_inRange sh h
    (discoverTextObjects_textSymbol sh qsort tables hq h (by rw [hd]; exact List.mem_cons_self _ _))
  rcases List.mem_cons.1 hu2 with rfl | hmem
  · omega
  · have := (List.pairwise_cons.1 hstrict).1 u hmem
    omega

/-- Claim C3 (amended): for a text section of non-zero size that lies within
the 64-bit address space, and text symbols of which (when there are any) one
has value `sh_addr` and none reaches beyond the section end
(`st_value + st_size ≤ sh_addr + sh_size`), the object list built by
`disassemble` passes `verify`. -/
theorem disassemble_verify (sh : SectionHeader) (qsort : List Symbol → List Symbol)
    (tables : List SymbolTable) (hq : SortsByValue qsort)
    (hsize : 0 < sh.sh_size) (hfit : sh.sh_addr + sh.sh_size ≤ U64)
    (hfirst : collectTextSymbols sh tables ≠ [] →
      ∃ t ∈ collectTextSymbols sh tables, t.st_value = sh.sh_addr)
    (hext : ∀ s ∈ collectTextSymbols sh tables,
      s.st_value + s.st_size ≤ sh.sh_addr + sh.sh_size) :
    ∃ objs n, disassembleObjects sh qsort tables = some (objs, n) ∧ verify sh objs = true := by
  by_cases hne : discoverTextObjects sh qsort tables = []
  · refine ⟨_, _, disassemble_empty sh qsort tables hne, ?_⟩
    apply verify_of sh hfit
    · intro o ho
      simp only [List.mem_singleton] at ho
      subst ho
      simp only [TextObject.getBaseAddress, TextObject.getSizeInBytes]
      unfold toU32 U32
      omega
    · simp
    · intro o ho
      simp only [List.head?_cons, Option.some.injEq] at ho
      subst ho
      rfl
  · obtain ⟨objs, ho, hd⟩ := disassemble_eq sh qsort tables hq hne
    have hb := disassembleSymbols_bases sh _ 0 objs ho
    have hstrict := discoverTextObjects_strict sh qsort tables hq
    refine ⟨objs, _, hd, ?_⟩
    apply verify_of sh hfit
    · exact disassembleSymbols_extent sh hfit _ 0 objs ho hstrict
        (fun s hs => textSymbol_inRange sh s
          (discoverTextObjects_textSymbol sh qsort tables hq s hs))
        (fun s hs => hext s (mem_discoverTextObjects sh qsort tables hq s hs))
    · have h1 : (List.map Symbol.st_value (discoverTextObjects sh qsort tables)).Pairwise
          (fun a b => a < b) := List.pairwise_map.2 hstrict
      rw [← hb] at h1
      exact List.pairwise_map.1 h1
    · intro o hhead
      obtain ⟨h, tl, hsyms⟩ := List.exists_cons_of_ne_nil hne
      have hcne : collectTextSymbols sh tables ≠ [] := by
        intro he
        have hm := mem_discoverTextObjects sh qsort tables hq h
          (by rw [hsyms]; exact List.mem_cons_self _ _)
        rw [he] at hm
        cases hm
      have hhv := discoverTextObjects_head sh qsort tables hq (hfirst hcne) h tl hsyms
      rw [hsyms] at hb
      cases objs with
      | nil => simp at hhead
      | cons o1 rest =>
        simp only [List.head?_cons, Option.some.injEq] at hhead
        subst hhead
        simp only [List.map_cons, List.cons.injEq] at hb
        omega

/-- Witness for `disassemble_verify`: two functions that tile a section of 256
bytes at `0x1000`. -/
theorem disassemble_verify_witness :
    ∃ objs n, disassembleObjects ⟨4096, 256⟩ sortByValue
        [⟨false, [⟨0, 4096, 16, .function⟩, ⟨1, 4112, 240, .function⟩]⟩] = some (objs, n) ∧
      verify ⟨4096, 256⟩ objs = true :=
  disassemble_verify ⟨4096, 256⟩ sortByValue
    [⟨false, [⟨0, 4096, 16, .function⟩, ⟨1, 4112, 240, .function⟩]⟩] sortByValue_sorts
    (by decide) (by decide) (fun _ => ⟨⟨0, 4096, 16, .function⟩, by decide, rfl⟩)
    (by decide)

/-- Claim C3 (counterexample): `verify` returns false on the objects
`disassemble` builds (a) when the lowest text symbol is not at `sh_addr`,
(b) when a symbol's `st_size` reaches beyond the section end, (c) for an empty
section without symbols, and (d) for a section without symbols that wraps
around the end of the address space. -/
theorem disassemble_verify_counterexample :
    (disassembleObjects ⟨4096, 256⟩ sortByValue [⟨false, [⟨0, 4112, 16, .function⟩]⟩] =
      some ([TextObject.Function 0 ⟨0, 4112, 16, .function⟩ 4112 240], 1) ∧
      verify ⟨4096, 256⟩ [TextObject.Function 0 ⟨0, 4112, 16, .function⟩ 4112 240] = false) ∧
    (disassembleObjects ⟨4096, 256⟩ sortByValue [⟨false, [⟨0, 4096, 512, .function⟩]⟩] =
      some ([TextObject.Function 0 ⟨0, 4096, 512, .function⟩ 4096 512], 1) ∧
      verify ⟨4096, 256⟩ [TextObject.Function 0 ⟨0, 4096, 512, .function⟩ 4096 512] = false) ∧
    (disassembleObjects ⟨4096, 0⟩ sortByValue [⟨false, []⟩] =
      some ([TextObject.FreeText 0 none 4096 0 true], 1) ∧
      verify ⟨4096, 0⟩ [TextObject.FreeText 0 none 4096 0 true] = false) ∧
    (disassembleObjects ⟨18446744073709551615, 4294967298⟩ sortByValue [⟨false, []⟩] =
      some ([TextObject.FreeText 0 none 18446744073709551615 2 true], 1) ∧
      verify ⟨18446744073709551615, 4294967298⟩
        [TextObject.FreeText 0 none 18446744073709551615 2 true] = false) := by
  decide

/-- Claim C7 (amended): when `discoverTextObjects` finds no text symbol,
`disassemble` builds exactly one text object, a `FreeText` with index 0, no
symbol, base `sh_addr`, `usesInstructions = true` and size `sh_size` truncated
to the 32-bit size parameter (so size `sh_size` whenever `sh_size < 2^32`).
When this object passes `verify()`, as it does for every section of non-zero
size that lies within the 64-bit address space, `disassemble` returns 1 and
leaves that object; when it does not, as for an empty section, the run stops
in `verify()` and nothing is returned. -/
theorem disassemble_no_symbols (sh : SectionHeader) (qsort : List Symbol → List Symbol)
    (tables : List SymbolTable) (h : discoverTextObjects sh qsort tables = []) :
    ∃ sz, disassembleObjects sh qsort tables =
        some ([TextObject.FreeText 0 none sh.sh_addr sz true], 1) ∧
      sz = sh.sh_size % 4294967296 ∧ (sh.sh_size < 4294967296 → sz = sh.sh_size) ∧
      disassemble sh qsort tables =
        (if verify sh [TextObject.FreeText 0 none sh.sh_addr sz true] = true then
          some ([TextObject.FreeText 0 none sh.sh_addr sz true], 1)
        else none) ∧
      (0 < sh.sh_size → sh.sh_addr + sh.sh_size ≤ U64 →
        disassemble sh qsort tables =
          some ([TextObject.FreeText 0 none sh.sh_addr sz true], 1)) ∧
      (sh.sh_size = 0 → disassemble sh qsort tables = none) := by
  have hobjs := disassemble_empty sh qsort tables h
  have hdis : disassemble sh qsort tables =
      (if verify sh [TextObject.FreeText 0 none sh.sh_addr (toU32 sh.sh_size) true] = true then
        some ([TextObject.FreeText 0 none sh.sh_addr (toU32 sh.sh_size) true], 1)
      else none) := by
    simp only [disassemble, hobjs]
  refine ⟨toU32 sh.sh_size, hobjs, rfl, fun hlt => toU32_of_lt _ hlt, hdis, ?_, ?_⟩
  · intro hsize hfit
    have hv : verify sh [TextObject.FreeText 0 none sh.sh_addr (toU32 sh.sh_size) true] =
        true := by
      apply verify_of sh hfit
      · intro o ho
        simp only [List.mem_singleton] at ho
        subst ho
        simp only [TextObject.getBaseAddress, TextObject.getSizeInBytes]
        unfold toU32 U32
        omega
      · simp
      · intro o ho
        simp only [List.head?_cons, Option.some.injEq] at ho
        subst ho
        rfl
    rw [hdis, if_pos hv]
  · intro hzero
    have hv : verify sh [TextObject.FreeText 0 none sh.sh_addr (toU32 sh.sh_size) true] =
        false := by
      simp [verify, verifyBounds, SectionHeader.inRange, TextObject.getBaseAddress, hzero]
    rw [hdis, hv]
    rfl

/-- Witness for `disassemble_no_symbols`: a `.plt`-like section of 256 bytes
whose only symbols are in a dynamic symbol table. -/
theorem disassemble_no_symbols_witness :
    ∃ sz, disassembleObjects ⟨4096, 256⟩ sortByValue [⟨true, [⟨0, 4096, 16, .function⟩]⟩] =
        some ([TextObject.FreeText 0 none 4096 sz true], 1) ∧
      sz = 256 % 4294967296 ∧ ((256 : Nat) < 4294967296 → sz = 256) ∧
      disassemble ⟨4096, 256⟩ sortByValue [⟨true, [⟨0, 4096, 16, .function⟩]⟩] =
        (if verify ⟨4096, 256⟩ [TextObject.FreeText 0 none 4096 sz true] = true then
          some ([TextObject.FreeText 0 none 4096 sz true], 1)
        else none) ∧
      ((0 : Nat) < 256 → 4096 + 256 ≤ U64 →
        disassemble ⟨4096, 256⟩ sortByValue [⟨true, [⟨0, 4096, 16, .function⟩]⟩] =
          some ([TextObject.FreeText 0 none 4096 sz true], 1)) ∧
      ((256 : Nat) = 0 →
        disassemble ⟨4096, 256⟩ sortByValue [⟨true, [⟨0, 4096, 16, .function⟩]⟩] = none) :=
  disassemble_no_symbols ⟨4096, 256⟩ sortByValue [⟨true, [⟨0, 4096, 16, .function⟩]⟩]
    (by decide)

/-- Claim C7 (counterexample): (a) for a section of `2^32` bytes without text
symbols the single `FreeText` has size 0, not `sh_size`, and `disassemble`
returns 1 with it; (b) for an empty section without text symbols the
`FreeText` at `sh_addr` fails the range test of `verify()`, and `disassemble`
does not return; (c) nor does it return for the section of `2^32 + 2` bytes at
`2^64 - 1`, which reaches beyond the 64-bit address space. -/
theorem disassemble_no_symbols_counterexample :
    (disassemble ⟨4096, 4294967296⟩ sortByValue [] =
        some ([TextObject.FreeText 0 none 4096 0 true], 1) ∧
      (TextObject.FreeText 0 none 4096 0 true).getSizeInBytes ≠ 4294967296) ∧
    (discoverTextObjects ⟨4096, 0⟩ sortByValue [] = [] ∧
      disassembleObjects ⟨4096, 0⟩ sortByValue [] =
        some ([TextObject.FreeText 0 none 4096 0 true], 1) ∧
      verify ⟨4096, 0⟩ [TextObject.FreeText 0 none 4096 0 true] = false ∧
      disassemble ⟨4096, 0⟩ sortByValue [] = none) ∧
    (discoverTextObjects ⟨18446744073709551615, 4294967298⟩ sortByValue [] = [] ∧
      disassembleObjects ⟨18446744073709551615, 4294967298⟩ sortByValue [] =
        some ([TextObject.FreeText 0 none 18446744073709551615 2 true], 1) ∧
      verify ⟨18446744073709551615, 4294967298⟩
        [TextObject.FreeText 0 none 18446744073709551615 2 true] = false ∧
      disassemble ⟨18446744073709551615, 4294967298⟩ sortByValue [] = none) := by
  decide

/-- Claim C9 (amended): for a text section of non-zero size within the 64-bit
address space for which no text symbol is found, the single `FreeText` built
by `disassemble` passes `verify`, and the list holds no `Function` object. -/
theorem disassemble_no_symbols_verify (sh : SectionHeader)
    (qsort : List Symbol → List Symbol) (tables : List SymbolTable)
    (h : discoverTextObjects sh qsort tables = [])
    (hsize : 0 < sh.sh_size) (hfit : sh.sh_addr + sh.sh_size ≤ U64) :
    ∃ objs n, disassembleObjects sh qsort tables = some (objs, n) ∧ verify sh objs = true ∧
      objs.length = 1 ∧ ∀ o ∈ objs, o.isFunction = false := by
  refine ⟨_, _, disassemble_empty sh qsort tables h, ?_, rfl, ?_⟩
  · apply verify_of sh hfit
    · intro o ho
      simp only [List.mem_singleton] at ho
      subst ho
      simp only [TextObject.getBaseAddress, TextObject.getSizeInBytes]
      unfold toU32 U32
      omega
    · simp
    · intro o ho
      simp only [List.head?_cons, Option.some.injEq] at ho
      subst ho
      rfl
  · intro o ho
    simp only [List.mem_singleton] at ho
    subst ho
    rfl

/-- Witness for `disassemble_no_symbols_verify`: a `.plt`-like section of 256
bytes at `0x1000` in a file whose symbol table has no symbol in it. -/
theorem disassemble_no_symbols_verify_witness :
    ∃ objs n, disassembleObjects ⟨4096, 256⟩ sortByValue
        [⟨false, [⟨0, 8192, 16, .function⟩]⟩] = some (objs, n) ∧
      verify ⟨4096, 256⟩ objs = true ∧ objs.length = 1 ∧ ∀ o ∈ objs, o.isFunction = false :=
  disassemble_no_symbols_verify ⟨4096, 256⟩ sortByValue
    [⟨false, [⟨0, 8192, 16, .function⟩]⟩] (by decide) (by decide) (by decide)

/-- Claim C9 (counterexample): for an empty text section without text symbols
the single `FreeText` starts at `sh_addr`, which is not in range of the
section, and `verify` returns false; it also returns false for a section of
`2^32 + 2` bytes at `2^64 - 1`, whose `FreeText` has the truncated size 2. -/
theorem disassemble_no_symbols_verify_counterexample :
    (disassembleObjects ⟨4096, 0⟩ sortByValue [] =
      some ([TextObject.FreeText 0 none 4096 0 true], 1) ∧
      verify ⟨4096, 0⟩ [TextObject.FreeText 0 none 4096 0 true] = false) ∧
    (disassembleObjects ⟨18446744073709551615, 4294967298⟩ sortByValue [] =
      some ([TextObject.FreeText 0 none 18446744073709551615 2 true], 1) ∧
      verify ⟨18446744073709551615, 4294967298⟩
        [TextObject.FreeText 0 none 18446744073709551615 2 true] = false) := by
  decide

/-! ## Results on `TextObject::inRange` -/

/-- Claim C10 (amended): when `baseAddress + sizeInBytes` does not wrap around
`2^64`, `TextObject::inRange(addr)` returns true if and only if
`baseAddress ≤ addr < baseAddress + sizeInBytes`. -/
theorem TextObject_inRange_iff (baseAddress sizeInBytes addr : Nat)
    (hnowrap : baseAddress + sizeInBytes < U64) :
    TextObject.inRange baseAddress sizeInBytes addr = true ↔
      baseAddress ≤ addr ∧ addr < baseAddress + sizeInBytes := by
  unfold TextObject.inRange add64
  rw [Nat.mod_eq_of_lt hnowrap]
  simp

/-- Witness for `TextObject_inRange_iff`: an object of 16 bytes at `0x1000`
and its last byte. -/
theorem TextObject_inRange_iff_witness :
    TextObject.inRange 4096 16 4111 = true ↔ (4096 : Nat) ≤ 4111 ∧ 4111 < 4096 + 16 :=
  TextObject_inRange_iff 4096 16 4111 (by decide)

/-- Claim C10 (counterexample): for the 64-bit base `2^64 - 1`, the 32-bit size
2 and the 64-bit address `2^64 - 1`, the address satisfies
`base ≤ addr < base + size`, yet `inRange` returns false because the sum wraps
to 1. -/
theorem TextObject_inRange_counterexample :
    TextObject.inRange 18446744073709551615 2 18446744073709551615 = false ∧
    ((18446744073709551615 : Nat) ≤ 18446744073709551615 ∧
      18446744073709551615 < 18446744073709551615 + 2) := by
  decide

/-! ## Results on `TextSection::dump` -/

theorem objectFor_symval (sh : SectionHeader) (i : Nat) (sym : Symbol) (sz : Nat) :
    (objectFor sh i sym sz).getSymbolValue = sym.st_value := by
  unfold objectFor; split <;> rfl

theorem disassembleSymbols_head (sh : SectionHeader) (i : Nat) (s : Symbol)
    (rest : List Symbol) (objs : List TextObject)
    (h : disassembleSymbols sh i (s :: rest) = some objs) :
    ∃ sz tl, objs = objectFor sh i s sz :: tl := by
  cases rest with
  | nil =>
    rw [disassembleSymbols_single] at h
    exact ⟨lastSize sh s, [], by simpa using h.symm⟩
  | cons next rest =>
    obtain ⟨tl, _, h2⟩ := disassembleSymbols_cons_cons sh i s next rest objs h
    exact ⟨innerSize sh s next, tl, h2⟩

theorem lastSize_le_of_u64 (sh : SectionHeader) (last : Symbol)
    (haddr : sh.sh_addr < U64) (hsize : sh.sh_size < U64) (hv : last.st_value < U64)
    (hle : last.st_value ≤ sh.sh_addr + sh.sh_size) :
    lastSize sh last ≤ max (sh.sh_addr + sh.sh_size - last.st_value) last.st_size := by
  unfold lastSize toU32 sub64 add64 U32 U64 at *
  simp only
  split_ifs <;> omega

/-- Variant of `disassembleSymbols_extent` for 64-bit field values in place of
a section that ends below `2^64`. -/
theorem disassembleSymbols_extent_of_u64 (sh : SectionHeader)
    (haddr : sh.sh_addr < U64) (hsize : sh.sh_size < U64) :
    ∀ (syms : List Symbol) (i : Nat) (objs : List TextObject),
      disassembleSymbols sh i syms = some objs →
      syms.Pairwise (fun a b => a.st_value < b.st_value) →
      (∀ s ∈ syms, sh.sh_addr ≤ s.st_value ∧ s.st_value < sh.sh_addr + sh.sh_size) →
      (∀ s ∈ syms, s.st_value < U64) →
      (∀ s ∈ syms, s.st_value + s.st_size ≤ sh.sh_addr + sh.sh_size) →
      ∀ o ∈ objs, sh.sh_addr ≤ o.getBaseAddress ∧
        o.getBaseAddress + o.getSizeInBytes ≤ sh.sh_addr + sh.sh_size := by
  intro syms
  induction syms with
  | nil => intro i objs h _ _ _ _ o ho; simp [disassembleSymbols] at h; subst h; cases ho
  | cons cur tail ih =>
    intro i objs h hp hr hv he o ho
    have hcr := hr cur (List.mem_cons_self _ _)
    have hce := he cur (List.mem_cons_self _ _)
    cases tail with
    | nil =>
      rw [disassembleSymbols_single] at h
      simp only [Option.some.injEq] at h
      subst h
      simp only [List.mem_singleton] at ho
      subst ho
      have hs := objectFor_size_le sh i cur (lastSize sh cur)
      have hl := lastSize_le_of_u64 sh cur haddr hsize (hv cur (List.mem_cons_self _ _))
        (by omega)
      rw [objectFor_base]
      omega
    | cons next rest =>
      obtain ⟨tl, h1, h2⟩ := disassembleSymbols_cons_cons sh i cur next rest objs h
      subst h2
      rcases List.mem_cons.1 ho with rfl | hmem
      · have hnr := hr next (List.mem_cons_of_mem _ (List.mem_cons_self _ _))
        have hlt : cur.st_value < next.st_value :=
          (List.pairwise_cons.1 hp).1 next (List.mem_cons_self _ _)
        have hs := objectFor_size_le sh i cur (innerSize sh cur next)
        have hl := innerSize_le sh cur next (Nat.le_of_lt hlt)
        rw [objectFor_base]
        omega
      · exact ih (i + 1) tl h1 (List.pairwise_cons.1 hp).2
          (fun s hs => hr s (List.mem_cons_of_mem _ hs))
          (fun s hs => hv s (List.mem_cons_of_mem _ hs))
          (fun s hs => he s (List.mem_cons_of_mem _ hs)) o hmem

theorem symbolDistance_eq (cur next : Nat) (hle : cur ≤ next)
    (hd : next - cur < U32) : toU32 (sub64 next cur) = next - cur := by
  unfold toU32 sub64 U32 U64 at *; omega

/-- Frame of the object loop of `dump`: when every object built from `syms`
ends inside the section and `currByte` is at most the distance of the first
symbol from the section start, no position outside
`[offset, offset + sh_size)` is written. -/
theorem dumpObjects_frame (sh : SectionHeader)
    (objDump : TextObject → Nat → (Nat → Nat) → (Nat → Nat))
    (hframe : ∀ o off out p, ¬ (off ≤ p ∧ p < off + o.getSizeInBytes) →
      objDump o off out p = out p)
    (offset : Nat) (hoff : offset + sh.sh_size < U32) :
    ∀ (syms : List Symbol) (i : Nat) (objs : List TextObject) (c : Nat) (out : Nat → Nat),
      disassembleSymbols sh i syms = some objs →
      syms.Pairwise (fun a b => a.st_value < b.st_value) →
      (∀ o ∈ objs, sh.sh_addr ≤ o.getBaseAddress ∧
        o.getBaseAddress + o.getSizeInBytes ≤ sh.sh_addr + sh.sh_size) →
      (∀ s, syms.head? = some s → c ≤ s.st_value - sh.sh_addr) →
      ∀ p, ¬ (offset ≤ p ∧ p < offset + sh.sh_size) →
        dumpObjects objDump offset objs c out p = out p := by
  intro syms
  induction syms with
  | nil =>
    intro i objs c out h _ _ _ p _
    simp [disassembleSymbols] at h; subst h; rfl
  | cons cur tail ih =>
    intro i objs c out h hp hb hc p hout
    have hcc := hc cur rfl
    cases tail with
    | nil =>
      rw [disassembleSymbols_single] at h
      simp only [Option.some.injEq] at h
      subst h
      have hbo := hb _ (List.mem_singleton_self _)
      rw [objectFor_base] at hbo
      have hadd : add32 offset c = offset + c := by
        unfold add32 U32 at *; omega
      simp only [dumpObjects, hadd]
      apply hframe
      omega
    | cons next rest =>
      obtain ⟨tl, h1, h2⟩ := disassembleSymbols_cons_cons sh i cur next rest objs h
      obtain ⟨sz, tl2, htl⟩ := disassembleSymbols_head sh (i + 1) next rest tl h1
      subst h2
      have hbo := hb _ (List.mem_cons_self _ _)
      rw [objectFor_base] at hbo
      have hbn := hb (objectFor sh (i + 1) next sz)
        (by rw [htl]; exact List.mem_cons_of_mem _ (List.mem_cons_self _ _))
      rw [objectFor_base] at hbn
      have hlt : cur.st_value < next.st_value :=
        (List.pairwise_cons.1 hp).1 next (List.mem_cons_self _ _)
      have hdist := symbolDistance_eq cur.st_value next.st_value (Nat.le_of_lt hlt)
        (by unfold U32 at *; omega)
      have hadd : add32 offset c = offset + c := by
        unfold add32 U32 at *; omega
      have hadd2 : add32 c (next.st_value - cur.st_value) = c + (next.st_value - cur.st_value) := by
        unfold add32 U32 at *; omega
      have hstep : dumpObjects objDump offset (objectFor sh i cur (innerSize sh cur next) :: tl)
          c out = dumpObjects objDump offset tl (c + (next.st_value - cur.st_value))
            (objDump (objectFor sh i cur (innerSize sh cur next)) (offset + c) out) := by
        rw [htl]
        simp only [dumpObjects, objectFor_symval, hdist, hadd, hadd2]
      rw [hstep]
      rw [ih (i + 1) tl (c + (next.st_value - cur.st_value)) _ h1 (List.pairwise_cons.1 hp).2
        (fun o ho => hb o (List.mem_cons_of_mem _ ho))
        (fun s hs => by simp only [List.head?_cons, Option.some.injEq] at hs; subst hs; omega)
        p hout]
      apply hframe
      omega

theorem copyBytes_frame (buff : Nat → Nat) (size offset : Nat) (out : Nat → Nat) (p : Nat)
    (h : ¬ (offset ≤ p ∧ p < offset + size)) : copyBytes buff size offset out p = out p := by
  simp [copyBytes, h]

/-- Claim C11 (amended): for a text section built by `disassemble` from text
symbols none of which reaches beyond the section end
(`st_value + st_size ≤ sh_addr + sh_size`), and an offset whose end
`offset + sh_size` stays below `2^32`, `TextSection::dump(out, offset)` changes
no byte of the output outside `[offset, offset + sizeInBytes)`, given that each
text object's own dump writes only the `sizeInBytes` bytes starting at the
offset it is handed.  `sh_addr` and the symbol values are 64-bit fields. -/
theorem dump_frame (sh : SectionHeader) (qsort : List Symbol → List Symbol)
    (tables : List SymbolTable) (hq : SortsByValue qsort)
    (objDump : TextObject → Nat → (Nat → Nat) → (Nat → Nat))
    (hframe : ∀ o off out p, ¬ (off ≤ p ∧ p < off + o.getSizeInBytes) →
      objDump o off out p = out p)
    (hext : ∀ s ∈ collectTextSymbols sh tables,
      s.st_value + s.st_size ≤ sh.sh_addr + sh.sh_size)
    (haddr : sh.sh_addr < U64)
    (hval : ∀ s ∈ collectTextSymbols sh tables, s.st_value < U64)
    (offset : Nat) (hoff : offset + sh.sh_size < U32) :
    ∃ objs n, disassembleObjects sh qsort tables = some (objs, n) ∧
      ∀ out p, ¬ (offset ≤ p ∧ p < offset + TextSection.getSizeInBytes sh) →
        TextSection.dump sh objs objDump out offset p = out p := by
  have hsz : sh.sh_size < U32 := by omega
  by_cases hne : discoverTextObjects sh qsort tables = []
  · refine ⟨_, _, disassemble_empty sh qsort tables hne, ?_⟩
    intro out p hp
    simp only [TextSection.getSizeInBytes] at hp
    have hadd : add32 offset 0 = offset := by unfold add32 U32 at *; omega
    simp only [TextSection.dump, dumpObjects, hadd, TextSection.getSizeInBytes]
    rw [hframe _ _ _ _ (by
      simp only [TextObject.getSizeInBytes, toU32_of_lt _ hsz]; exact hp)]
    exact copyBytes_frame _ _ _ _ _ hp
  · obtain ⟨objs, ho, hd⟩ := disassemble_eq sh qsort tables hq hne
    have hstrict := discoverTextObjects_strict sh qsort tables hq
    have hb := disassembleSymbols_extent_of_u64 sh haddr (by unfold U32 U64 at *; omega)
      _ 0 objs ho hstrict
      (fun s hs => textSymbol_inRange sh s
        (discoverTextObjects_textSymbol sh qsort tables hq s hs))
      (fun s hs => hval s (mem_discoverTextObjects sh qsort tables hq s hs))
      (fun s hs => hext s (mem_discoverTextObjects sh qsort tables hq s hs))
    refine ⟨objs, _, hd, ?_⟩
    intro out p hp
    simp only [TextSection.getSizeInBytes] at hp
    simp only [TextSection.dump, TextSection.getSizeInBytes]
    rw [dumpObjects_frame sh objDump hframe offset hoff _ 0 objs 0 _ ho hstrict hb
      (fun s _ => Nat.zero_le _) p hp]
    exact copyBytes_frame _ _ _ _ _ hp

/-- Witness for `dump_frame`: two functions tiling a section of 256 bytes,
dumped at file offset 512 by a dump that writes each object's own bytes. -/
theorem dump_frame_witness :
    ∃ objs n, disassembleObjects ⟨4096, 256⟩ sortByValue
        [⟨false, [⟨0, 4096, 16, .function⟩, ⟨1, 4112, 240, .function⟩]⟩] = some (objs, n) ∧
      ∀ out p, ¬ (512 ≤ p ∧ p < 512 + TextSection.getSizeInBytes ⟨4096, 256⟩) →
        TextSection.dump ⟨4096, 256⟩ objs (dumpOriginal (fun a => a % 256)) out 512 p = out p :=
  dump_frame ⟨4096, 256⟩ sortByValue
    [⟨false, [⟨0, 4096, 16, .function⟩, ⟨1, 4112, 240, .function⟩]⟩] sortByValue_sorts
    (dumpOriginal (fun a => a % 256))
    (fun o off out p h => by simp [dumpOriginal, h])
    (by decide) (by decide) (by decide) 512 (by decide)

/-- Claim C11 (counterexample): with an object dump that writes exactly the
object's `sizeInBytes` bytes, (a) a section of 256 bytes whose only symbol
reports 512 bytes is dumped at offset 0 over 512 bytes, so the byte at position
300 changes; (b) at offset `2^32 - 16` the second object of a section is
dumped at `offset + 16` wrapped to position 0, so the byte at position 5
changes. -/
theorem dump_frame_counterexample :
    (disassembleObjects ⟨4096, 256⟩ sortByValue [⟨false, [⟨0, 4096, 512, .function⟩]⟩] =
        some ([TextObject.Function 0 ⟨0, 4096, 512, .function⟩ 4096 512], 1) ∧
      ¬ (0 ≤ 300 ∧ 300 < 0 + TextSection.getSizeInBytes ⟨4096, 256⟩) ∧
      TextSection.dump ⟨4096, 256⟩ [TextObject.Function 0 ⟨0, 4096, 512, .function⟩ 4096 512]
        (dumpOriginal (fun a => a % 256)) (fun _ => 0) 0 300 = 44 ∧
      (fun _ : Nat => 0) 300 ≠ 44) ∧
    (disassembleObjects ⟨4096, 256⟩ sortByValue
        [⟨false, [⟨0, 4096, 16, .function⟩, ⟨1, 4112, 16, .function⟩]⟩] =
        some ([TextObject.Function 0 ⟨0, 4096, 16, .function⟩ 4096 16,
          TextObject.Function 1 ⟨1, 4112, 16, .function⟩ 4112 240], 2) ∧
      ¬ (4294967280 ≤ 5 ∧ 5 < 4294967280 + TextSection.getSizeInBytes ⟨4096, 256⟩) ∧
      TextSection.dump ⟨4096, 256⟩
        [TextObject.Function 0 ⟨0, 4096, 16, .function⟩ 4096 16,
          TextObject.Function 1 ⟨1, 4112, 16, .function⟩ 4112 240]
        (dumpOriginal (fun a => a % 256)) (fun _ => 0) 4294967280 5 = 21 ∧
      (fun _ : Nat => 0) 5 ≠ 21) := by
  decide

theorem innerSize_ge (sh : SectionHeader) (cur next : Symbol)
    (hle : cur.st_value ≤ next.st_value)
    (hdist : next.st_value - cur.st_value < U32) (hsize : cur.st_size < U32) :
    next.st_value - cur.st_value ≤ innerSize sh cur next := by
  rw [innerSize_eq sh cur next hle hdist hsize]
  split_ifs <;> omega

theorem lastSize_ge (sh : SectionHeader) (last : Symbol)
    (hle : last.st_value ≤ sh.sh_addr + sh.sh_size) (hv : last.st_value < U64)
    (hsize : last.st_size < U32)
    (hdist : sh.sh_addr + sh.sh_size - last.st_value < U32) :
    sh.sh_addr + sh.sh_size - last.st_value ≤ lastSize sh last := by
  rw [lastSize_eq sh last hle hv hsize hdist]
  omega

/-- Round trip of the object loop of `dump`: when `currByte` is the distance of
the first symbol of `syms` from the section start and every object dumps the
original bytes of its own range, every written position holds the original
byte, and the positions from `offset + currByte` to the section end are all
written. -/
theorem dumpObjects_orig (sh : SectionHeader) (orig : Nat → Nat)
    (objDump : TextObject → Nat → (Nat → Nat) → (Nat → Nat))
    (hdump : ∀ o off out p, objDump o off out p = dumpOriginal orig o off out p)
    (offset : Nat) (hoff : offset + sh.sh_size < U32) :
    ∀ (syms : List Symbol) (i : Nat) (objs : List TextObject) (c : Nat) (out : Nat → Nat),
      disassembleSymbols sh i syms = some objs →
      syms.Pairwise (fun a b => a.st_value < b.st_value) →
      (∀ s ∈ syms, sh.sh_addr ≤ s.st_value ∧ s.st_value < sh.sh_addr + sh.sh_size) →
      (∀ s ∈ syms, s.st_value < U64) →
      (∀ s ∈ syms, s.st_size < U32) →
      (∀ s, syms.head? = some s → c = s.st_value - sh.sh_addr) →
      (∀ p, dumpObjects objDump offset objs c out p = out p ∨
        (offset + c ≤ p ∧
          dumpObjects objDump offset objs c out p = orig (sh.sh_addr + (p - offset)))) ∧
      (syms ≠ [] → ∀ p, offset + c ≤ p → p < offset + sh.sh_size →
        dumpObjects objDump offset objs c out p = orig (sh.sh_addr + (p - offset))) := by
  intro syms
  induction syms with
  | nil =>
    intro i objs c out h _ _ _ _ _
    simp [disassembleSymbols] at h; subst h
    exact ⟨fun p => Or.inl rfl, fun hne => absurd rfl hne⟩
  | cons cur tail ih =>
    intro i objs c out h hp hr hv hs hc
    have hcc := hc cur rfl
    have hcr := hr cur (List.mem_cons_self _ _)
    have hcv := hv cur (List.mem_cons_self _ _)
    have hcs := hs cur (List.mem_cons_self _ _)
    have hadd : add32 offset c = offset + c := by
      unfold add32 U32 at *; omega
    cases tail with
    | nil =>
      rw [disassembleSymbols_single] at h
      simp only [Option.some.injEq] at h
      subst h
      have hsz : (objectFor sh i cur (lastSize sh cur)).getSizeInBytes = lastSize sh cur :=
        objectFor_size_of_lt _ _ _ _ (lastSize_lt sh cur)
      have hge := lastSize_ge sh cur (by omega) hcv hcs (by unfold U32 at *; omega)
      have hval : ∀ p, dumpObjects objDump offset [objectFor sh i cur (lastSize sh cur)] c out p
          = if offset + c ≤ p ∧ p < offset + c + lastSize sh cur
            then orig (cur.st_value + (p - (offset + c))) else out p := by
        intro p
        simp only [dumpObjects, hadd, hdump, dumpOriginal, hsz, objectFor_base]
      constructor
      · intro p
        rw [hval p]
        by_cases hin : offset + c ≤ p ∧ p < offset + c + lastSize sh cur
        · right
          refine ⟨hin.1, ?_⟩
          rw [if_pos hin]
          congr 1; omega
        · left; rw [if_neg hin]
      · intro _ p hp1 hp2
        rw [hval p, if_pos ⟨hp1, by omega⟩]
        congr 1; omega
    | cons next rest =>
      obtain ⟨tl, h1, h2⟩ := disassembleSymbols_cons_cons sh i cur next rest objs h
      obtain ⟨sz, tl2, htl⟩ := disassembleSymbols_head sh (i + 1) next rest tl h1
      subst h2
      have hnr := hr next (List.mem_cons_of_mem _ (List.mem_cons_self _ _))
      have hlt : cur.st_value < next.st_value :=
        (List.pairwise_cons.1 hp).1 next (List.mem_cons_self _ _)
      have hd32 : next.st_value - cur.st_value < U32 := by unfold U32 at *; omega
      have hdist := symbolDistance_eq cur.st_value next.st_value (Nat.le_of_lt hlt) hd32
      have hadd2 : add32 c (next.st_value - cur.st_value)
          = c + (next.st_value - cur.st_value) := by
        unfold add32 U32 at *; omega
      have hsz : (objectFor sh i cur (innerSize sh cur next)).getSizeInBytes
          = innerSize sh cur next :=
        objectFor_size_of_lt _ _ _ _ (innerSize_lt sh cur next)
      have hge := innerSize_ge sh cur next (Nat.le_of_lt hlt) hd32 hcs
      have hstep : dumpObjects objDump offset
          (objectFor sh i cur (innerSize sh cur next) :: tl) c out
          = dumpObjects objDump offset tl (c + (next.st_value - cur.st_value))
            (objDump (objectFor sh i cur (innerSize sh cur next)) (offset + c) out) := by
        rw [htl]
        simp only [dumpObjects, objectFor_symval, hdist, hadd, hadd2]
      have hout1 : ∀ p, objDump (objectFor sh i cur (innerSize sh cur next)) (offset + c) out p
          = if offset + c ≤ p ∧ p < offset + c + innerSize sh cur next
            then orig (cur.st_value + (p - (offset + c))) else out p := by
        intro p
        simp only [hdump, dumpOriginal, hsz, objectFor_base]
      obtain ⟨iha, ihb⟩ := ih (i + 1) tl (c + (next.st_value - cur.st_value))
        (objDump (objectFor sh i cur (innerSize sh cur next)) (offset + c) out)
        h1 (List.pairwise_cons.1 hp).2
        (fun s hs1 => hr s (List.mem_cons_of_mem _ hs1))
        (fun s hs1 => hv s (List.mem_cons_of_mem _ hs1))
        (fun s hs1 => hs s (List.mem_cons_of_mem _ hs1))
        (fun s hs1 => by
          simp only [List.head?_cons, Option.some.injEq] at hs1; subst hs1; omega)
      rw [hstep]
      constructor
      · intro p
        rcases iha p with h3 | ⟨h3, h4⟩
        · rw [h3, hout1 p]
          by_cases hin : offset + c ≤ p ∧ p < offset + c + innerSize sh cur next
          · right
            refine ⟨hin.1, ?_⟩
            rw [if_pos hin]
            congr 1; omega
          · left; rw [if_neg hin]
        · right
          exact ⟨by omega, h4⟩
      · intro _ p hp1 hp2
        by_cases hfar : offset + (c + (next.st_value - cur.st_value)) ≤ p
        · exact ihb (List.cons_ne_nil _ _) p hfar hp2
        · rcases iha p with h3 | ⟨h3, _⟩
          · rw [h3, hout1 p, if_pos ⟨hp1, by omega⟩]
            congr 1; omega
          · omega

/-- Claim C12 (amended): for a section decomposed by `disassemble` whose lowest
text symbol (when there is any) has value `sh_addr`, whose symbols have an
`st_size` below `2^32`, and an offset whose end `offset + sh_size` stays below
`2^32`: if each text object dumps the original bytes of its own address range,
then after `TextSection::dump(out, offset)` the output bytes in
`[offset, offset + sh_size)` are the section's original bytes.  The symbol
values are 64-bit fields. -/
theorem dump_round_trip (sh : SectionHeader) (qsort : List Symbol → List Symbol)
    (tables : List SymbolTable) (hq : SortsByValue qsort) (orig : Nat → Nat)
    (objDump : TextObject → Nat → (Nat → Nat) → (Nat → Nat))
    (hdump : ∀ o off out p, objDump o off out p = dumpOriginal orig o off out p)
    (hfirst : collectTextSymbols sh tables ≠ [] →
      ∃ t ∈ collectTextSymbols sh tables, t.st_value = sh.sh_addr)
    (hval : ∀ s ∈ collectTextSymbols sh tables, s.st_value < U64)
    (hst : ∀ s ∈ collectTextSymbols sh tables, s.st_size < U32)
    (offset : Nat) (hoff : offset + sh.sh_size < U32) :
    ∃ objs n, disassembleObjects sh qsort tables = some (objs, n) ∧
      ∀ out p, offset ≤ p → p < offset + sh.sh_size →
        TextSection.dump sh objs objDump out offset p = orig (sh.sh_addr + (p - offset)) := by
  have hsz : sh.sh_size < U32 := by omega
  by_cases hne : discoverTextObjects sh qsort tables = []
  · refine ⟨_, _, disassemble_empty sh qsort tables hne, ?_⟩
    intro out p hp1 hp2
    have hadd : add32 offset 0 = offset := by unfold add32 U32 at *; omega
    simp only [TextSection.dump, dumpObjects, hadd, hdump, dumpOriginal,
      TextObject.getSizeInBytes, TextObject.getBaseAddress, toU32_of_lt _ hsz]
    rw [if_pos ⟨hp1, hp2⟩]
  · obtain ⟨objs, ho, hd⟩ := disassemble_eq sh qsort tables hq hne
    have hstrict := discoverTextObjects_strict sh qsort tables hq
    obtain ⟨h, tl, hsyms⟩ := List.exists_cons_of_ne_nil hne
    have hcne : collectTextSymbols sh tables ≠ [] := by
      intro he
      have hm := mem_discoverTextObjects sh qsort tables hq h
        (by rw [hsyms]; exact List.mem_cons_self _ _)
      rw [he] at hm
      cases hm
    have hhv := discoverTextObjects_head sh qsort tables hq (hfirst hcne) h tl hsyms
    refine ⟨objs, _, hd, ?_⟩
    intro out p hp1 hp2
    have hres := (dumpObjects_orig sh orig objDump hdump offset hoff _ 0 objs 0
      (copyBytes (fun _ => 0) (TextSection.getSizeInBytes sh) offset out)
      ho hstrict
      (fun s hs => textSymbol_inRange sh s
        (discoverTextObjects_textSymbol sh qsort tables hq s hs))
      (fun s hs => hval s (mem_discoverTextObjects sh qsort tables hq s hs))
      (fun s hs => hst s (mem_discoverTextObjects sh qsort tables hq s hs))
      (fun s hs => by
        rw [hsyms] at hs
        simp only [List.head?_cons, Option.some.injEq] at hs
        subst hs; omega)).2 hne p (by omega) hp2
    simpa [TextSection.dump] using hres

/-- Witness for `dump_round_trip`: two functions tiling a section of 256 bytes,
dumped at file offset 512. -/
theorem dump_round_trip_witness :
    ∃ objs n, disassembleObjects ⟨4096, 256⟩ sortByValue
        [⟨false, [⟨0, 4096, 16, .function⟩, ⟨1, 4112, 240, .function⟩]⟩] = some (objs, n) ∧
      ∀ out p, 512 ≤ p → p < 512 + 256 →
        TextSection.dump ⟨4096, 256⟩ objs (dumpOriginal (fun a => a % 256)) out 512 p
          = (fun a => a % 256) (4096 + (p - 512)) :=
  dump_round_trip ⟨4096, 256⟩ sortByValue
    [⟨false, [⟨0, 4096, 16, .function⟩, ⟨1, 4112, 240, .function⟩]⟩] sortByValue_sorts
    (fun a => a % 256) (dumpOriginal (fun a => a % 256)) (fun _ _ _ _ => rfl)
    (fun _ => ⟨⟨0, 4096, 16, .function⟩, by decide, rfl⟩)
    (by decide) (by decide) 512 (by decide)

/-- Claim C12 (counterexample): with every object dumping the original bytes
of its own range (the byte at address `a` being `a % 256`) into a zeroed
output, (a) when the only symbol is at `0x1010` the first output byte is the
byte of `0x1010`, not of `sh_addr = 0x1000`; (b) a last symbol with
`st_size = 2^32` gives an object of size 0, so position 1 keeps the zero fill;
(c) at offset `2^32 - 16` the second object is dumped at position 0 and
position `offset + 16` keeps the zero fill. -/
theorem dump_round_trip_counterexample :
    (disassembleObjects ⟨4096, 256⟩ sortByValue [⟨false, [⟨0, 4112, 16, .function⟩]⟩] =
        some ([TextObject.Function 0 ⟨0, 4112, 16, .function⟩ 4112 240], 1) ∧
      TextSection.dump ⟨4096, 256⟩ [TextObject.Function 0 ⟨0, 4112, 16, .function⟩ 4112 240]
        (dumpOriginal (fun a => a % 256)) (fun _ => 0) 0 0 = 16 ∧
      (fun a : Nat => a % 256) (4096 + (0 - 0)) = 0) ∧
    (disassembleObjects ⟨4096, 256⟩ sortByValue [⟨false, [⟨0, 4096, 4294967296, .function⟩]⟩] =
        some ([TextObject.Function 0 ⟨0, 4096, 4294967296, .function⟩ 4096 0], 1) ∧
      TextSection.dump ⟨4096, 256⟩
        [TextObject.Function 0 ⟨0, 4096, 4294967296, .function⟩ 4096 0]
        (dumpOriginal (fun a => a % 256)) (fun _ => 0) 0 1 = 0 ∧
      (fun a : Nat => a % 256) (4096 + (1 - 0)) = 1) ∧
    (disassembleObjects ⟨4096, 256⟩ sortByValue
        [⟨false, [⟨0, 4096, 16, .function⟩, ⟨1, 4112, 16, .function⟩]⟩] =
        some ([TextObject.Function 0 ⟨0, 4096, 16, .function⟩ 4096 16,
          TextObject.Function 1 ⟨1, 4112, 16, .function⟩ 4112 240], 2) ∧
      TextSection.dump ⟨4096, 256⟩
        [TextObject.Function 0 ⟨0, 4096, 16, .function⟩ 4096 16,
          TextObject.Function 1 ⟨1, 4112, 16, .function⟩ 4112 240]
        (dumpOriginal (fun a => a % 256)) (fun _ => 0) 4294967280 4294967296 = 0 ∧
      (fun a : Nat => a % 256) (4096 + (4294967296 - 4294967280)) = 16) := by
  decide

/-! ## Results on relocations -/

/-- Claim C13 (the code at the failing input): for the `Elf64_Rel` info field
`0x0000000500000007` the class `Relocation64` reaches `__SHOULD_NOT_ARRIVE` in
both `getSymbol()` and `getType()`, while its sibling `RelocationAddend64`
returns the symbol index 5 and the type 7, and the 32-bit classes return
`r_info >> 8` and `r_info & 0xff`. -/
theorem Relocation64_getSymbol_not_overridden :
    Relocation.getSymbol .Relocation64 0x0000000500000007 = none ∧
    Relocation.getType .Relocation64 0x0000000500000007 = none ∧
    Relocation.getSymbol .RelocationAddend64 0x0000000500000007 = some 5 ∧
    Relocation.getType .RelocationAddend64 0x0000000500000007 = some 7 ∧
    Relocation.getSymbol .Relocation32 0x00000507 = some 5 ∧
    Relocation.getType .Relocation32 0x00000507 = some 7 ∧
    Relocation.getSymbol .RelocationAddend32 0x00000507 = some 5 ∧
    Relocation.getType .RelocationAddend32 0x00000507 = some 7 := by
  decide

/-! ## Results on the temp-register selection -/

theorem BitSet.insert_maxVal (s : BitSet) (n : Nat) : (s.insert n).maxVal = s.maxVal := by
  unfold BitSet.insert; split <;> rfl

theorem BitSet.insert_bits (s : BitSet) (n k : Nat) :
    (s.insert n).bits k = true ↔ s.bits k = true ∨ (k = n ∧ n < s.maxVal) := by
  unfold BitSet.insert
  split
  · rename_i h; simp [h]; tauto
  · rename_i h; simp [h]

theorem BitSet.foldl_insert_maxVal : ∀ (l : List Nat) (s : BitSet),
    (l.foldl BitSet.insert s).maxVal = s.maxVal := by
  intro l
  induction l with
  | nil => intro s; rfl
  | cons a l ih => intro s; simp only [List.foldl_cons, ih, BitSet.insert_maxVal]

theorem BitSet.foldl_insert_bits : ∀ (l : List Nat) (s : BitSet) (k : Nat),
    (l.foldl BitSet.insert s).bits k = true ↔
      s.bits k = true ∨ (k ∈ l ∧ k < s.maxVal) := by
  intro l
  induction l with
  | nil => intro s k; simp
  | cons a l ih =>
    intro s k
    simp only [List.foldl_cons, ih, BitSet.insert_bits, BitSet.insert_maxVal, List.mem_cons]
    constructor
    · rintro ((h | ⟨rfl, h⟩) | ⟨h1, h2⟩)
      · exact Or.inl h
      · exact Or.inr ⟨Or.inl rfl, h⟩
      · exact Or.inr ⟨Or.inr h1, h2⟩
    · rintro (h | ⟨rfl | h1, h2⟩)
      · exact Or.inl (Or.inl h)
      · exact Or.inl (Or.inr ⟨rfl, h2⟩)
      · exact Or.inr ⟨h1, h2⟩

theorem availableRegs_maxVal (instruction : MemoryInstruction) :
    (availableRegs instruction).maxVal = 16 := by
  unfold availableRegs
  simp only [BitSet.complement]
  split
  · simp [touchedRegisters, BitSet.foldl_insert_maxVal, BitSet.insert_maxVal, BitSet.empty,
      X86_64BIT_GPRS]
  · simp [BitSet.insert_maxVal, BitSet.empty, X86_64BIT_GPRS]

/-- A register that is available after the complement is one of the 16
general-purpose registers, is not the stack pointer, and for an explicit memory
operand is neither a register of the operand nor another touched register. -/
theorem availableRegs_contains (instruction : MemoryInstruction) (t : Nat)
    (h : (availableRegs instruction).contains t = true) :
    t < 16 ∧ t ≠ X86_REG_SP ∧
      ∀ operand, instruction.memoryOperand = some operand →
        t ∉ operand.registers ∧ t ∉ instruction.touched := by
  have hm := availableRegs_maxVal instruction
  simp only [BitSet.contains, Bool.and_eq_true, decide_eq_true_eq, hm] at h
  obtain ⟨hlt, hbits⟩ := h
  refine ⟨hlt, ?_, ?_⟩
  · intro hsp
    subst hsp
    unfold availableRegs at hbits
    simp only [BitSet.complement] at hbits
    split at hbits
    · have : (touchedRegisters instruction
          ((BitSet.empty X86_64BIT_GPRS).insert X86_REG_SP)).bits X86_REG_SP = true := by
        unfold touchedRegisters
        rw [BitSet.foldl_insert_bits]
        left
        simp [BitSet.insert, BitSet.empty, X86_64BIT_GPRS, X86_REG_SP]
      simp [this] at hbits
    · simp [BitSet.insert, BitSet.empty, X86_64BIT_GPRS, X86_REG_SP] at hbits
  · intro operand hop
    unfold availableRegs at hbits
    simp only [BitSet.complement, hop, Option.isSome_some, if_true] at hbits
    have hnot : ¬ (touchedRegisters instruction
        ((BitSet.empty X86_64BIT_GPRS).insert X86_REG_SP)).bits t = true := by
      simpa using hbits
    unfold touchedRegisters at hnot
    rw [BitSet.foldl_insert_bits] at hnot
    simp only [hop, Option.map_some', Option.getD_some, List.mem_append, BitSet.insert_maxVal,
      BitSet.empty, X86_64BIT_GPRS, not_or, not_and] at hnot
    constructor
    · intro hmem; exact hnot.2 (Or.inl hmem) hlt
    · intro hmem; exact hnot.2 (Or.inr hmem) hlt

theorem sub32_injective (u j k : Nat) (hu : u < U32) (hj : j < U32) (hk : k < U32)
    (h : sub32 u j = sub32 u k) : j = k := by
  unfold sub32 U32 at *; omega

/-- Invariant of the selection loop after `n` iterations: a temp register that
no longer holds `unset` is available and was taken at an earlier index, the
registers are filled in the order 1, 2, 3, and the filled ones differ. -/
theorem pickTempReg_fold (unset : Nat) (available : BitSet) (hu : unset < U32) :
    ∀ n, n ≤ U32 →
      ∀ a b c, (List.range n).foldl (pickTempReg unset available) (unset, unset, unset)
          = (a, b, c) →
        (a ≠ unset → available.contains a = true ∧ ∃ j, j < n ∧ a = sub32 unset j) ∧
        (b ≠ unset → a ≠ unset ∧ available.contains b = true ∧
          (∃ j, j < n ∧ b = sub32 unset j) ∧ a ≠ b) ∧
        (c ≠ unset → b ≠ unset ∧ available.contains c = true ∧
          (∃ j, j < n ∧ c = sub32 unset j) ∧ c ≠ a ∧ c ≠ b) := by
  intro n
  induction n with
  | zero =>
    intro _ a b c h
    simp only [List.range_zero, List.foldl_nil, Prod.mk.injEq] at h
    obtain ⟨rfl, rfl, rfl⟩ := h
    exact ⟨fun h => absurd rfl h, fun h => absurd rfl h, fun h => absurd rfl h⟩
  | succ n ih =>
    intro hn a b c h
    rw [List.range_succ, List.foldl_append] at h
    simp only [List.foldl_cons, List.foldl_nil] at h
    obtain ⟨⟨a0, b0, c0⟩, h0⟩ : ∃ t, (List.range n).foldl (pickTempReg unset available)
        (unset, unset, unset) = t := ⟨_, rfl⟩
    rw [h0] at h
    obtain ⟨ia, ib, ic⟩ := ih (by omega) a0 b0 c0 h0
    have hnew : ∀ x, (∃ j, j < n ∧ x = sub32 unset j) → x ≠ sub32 unset n := by
      rintro x ⟨j, hj, rfl⟩ heq
      have := sub32_injective unset j n hu (by omega) (by omega) heq
      omega
    have hweak : ∀ x, (∃ j, j < n ∧ x = sub32 unset j) → ∃ j, j < n + 1 ∧ x = sub32 unset j := by
      rintro x ⟨j, hj, rfl⟩
      exact ⟨j, by omega, rfl⟩
    unfold pickTempReg at h
    simp only at h
    by_cases hc : available.contains (sub32 unset n) = true
    · simp only [hc, if_true] at h
      by_cases ha : a0 = unset
      · have hb : b0 = unset := by
          by_contra hb
          exact (ib hb).1 ha
        have hcc : c0 = unset := by
          by_contra hcc
          exact (ic hcc).1 hb
        simp only [ha, if_true, Prod.mk.injEq] at h
        obtain ⟨rfl, rfl, rfl⟩ := h
        subst hb; subst hcc
        exact ⟨fun _ => ⟨hc, n, by omega, rfl⟩, fun h => absurd rfl h, fun h => absurd rfl h⟩
      · by_cases hb : b0 = unset
        · have hcc : c0 = unset := by
            by_contra hcc
            exact (ic hcc).1 hb
          simp only [ha, hb, if_true, if_false, Prod.mk.injEq] at h
          obtain ⟨rfl, rfl, rfl⟩ := h
          subst hcc
          refine ⟨fun _ => ⟨(ia ha).1, hweak _ (ia ha).2⟩, ?_, fun h => absurd rfl h⟩
          intro _
          exact ⟨ha, hc, ⟨n, by omega, rfl⟩, hnew _ (ia ha).2⟩
        · by_cases hcc : c0 = unset
          · simp only [ha, hb, hcc, if_true, if_false, Prod.mk.injEq] at h
            obtain ⟨rfl, rfl, rfl⟩ := h
            refine ⟨fun _ => ⟨(ia ha).1, hweak _ (ia ha).2⟩, ?_, ?_⟩
            · intro _
              exact ⟨ha, (ib hb).2.1, hweak _ (ib hb).2.2.1, (ib hb).2.2.2⟩
            · intro _
              exact ⟨hb, hc, ⟨n, by omega, rfl⟩, (hnew _ (ia ha).2).symm,
                (hnew _ (ib hb).2.2.1).symm⟩
          · simp only [ha, hb, hcc, if_false, Prod.mk.injEq] at h
            obtain ⟨rfl, rfl, rfl⟩ := h
            exact ⟨fun _ => ⟨(ia ha).1, hweak _ (ia ha).2⟩,
              fun _ => ⟨ha, (ib hb).2.1, hweak _ (ib hb).2.2.1, (ib hb).2.2.2⟩,
              fun _ => ⟨hb, (ic hcc).2.1, hweak _ (ic hcc).2.2.1, (ic hcc).2.2.2.1,
                (ic hcc).2.2.2.2⟩⟩
    · simp only [hc, if_false, Prod.mk.injEq] at h
      obtain ⟨rfl, rfl, rfl⟩ := h
      exact ⟨fun ha => ⟨(ia ha).1, hweak _ (ia ha).2⟩,
        fun hb => ⟨(ib hb).1, (ib hb).2.1, hweak _ (ib hb).2.2.1, (ib hb).2.2.2⟩,
        fun hcc => ⟨(ic hcc).1, (ic hcc).2.1, hweak _ (ic hcc).2.2.1, (ic hcc).2.2.2.1,
          (ic hcc).2.2.2.2⟩⟩

theorem BitSet.size_le (s : BitSet) : s.size ≤ s.maxVal := by
  unfold BitSet.size
  calc ((List.range s.maxVal).filter s.bits).length
      ≤ (List.range s.maxVal).length := List.length_filter_le _ _
    _ = s.maxVal := List.length_range _

/-- The three selected temp registers are available and pairwise distinct. -/
theorem selectTempRegs_spec (unset : Nat) (hu : unset < U32) (instruction : MemoryInstruction)
    (t1 t2 t3 : Nat) (h : selectTempRegs unset instruction = some (t1, t2, t3)) :
    (availableRegs instruction).contains t1 = true ∧
    (availableRegs instruction).contains t2 = true ∧
    (availableRegs instruction).contains t3 = true ∧
    t1 ≠ t2 ∧ t1 ≠ t3 ∧ t2 ≠ t3 := by
  unfold selectTempRegs at h
  simp only at h
  split at h
  · rename_i hall
    simp only [Option.some.injEq] at h
    have hsize : (availableRegs instruction).size ≤ U32 := by
      have h1 := BitSet.size_le (availableRegs instruction)
      rw [availableRegs_maxVal] at h1
      unfold U32; omega
    obtain ⟨ia, ib, ic⟩ := pickTempReg_fold unset (availableRegs instruction) hu _ hsize
      t1 t2 t3 h
    rw [h] at hall
    obtain ⟨h1, h2, h3⟩ := hall
    exact ⟨(ia h1).1, (ib h2).2.1, (ic h3).2.1, (ib h2).2.2.2, (ic h3).2.2.2.1.symm,
      (ic h3).2.2.2.2.symm⟩
  · cases h

/-! ## Results on memory and execution -/

theorem loadBytes_congr (m1 m2 : Nat → Nat) : ∀ (n a : Nat),
    (∀ p, a ≤ p → p < a + n → m1 p = m2 p) → loadBytes m1 a n = loadBytes m2 a n := by
  intro n
  induction n with
  | zero => intro a _; rfl
  | succ n ih =>
    intro a h
    simp only [loadBytes]
    rw [h a (le_refl _) (by omega), ih (a + 1) (fun p h1 h2 => h p (by omega) (by omega))]

theorem loadBytes_storeBytes_disjoint (m : Nat → Nat) (a n v a2 n2 : Nat)
    (h : a2 + n2 ≤ a ∨ a + n ≤ a2) :
    loadBytes (storeBytes m a n v) a2 n2 = loadBytes m a2 n2 := by
  apply loadBytes_congr
  intro p h1 h2
  have : ¬ (a ≤ p ∧ p < a + n) := by omega
  simp [storeBytes, this]

theorem loadBytes_storeBytes_same (m : Nat → Nat) : ∀ (n a v : Nat),
    loadBytes (storeBytes m a n v) a n = v % 256 ^ n := by
  intro n
  induction n with
  | zero => intro a v; simp [loadBytes, Nat.mod_one]
  | succ n ih =>
    intro a v
    have hfirst : storeBytes m a (n + 1) v a = v % 256 := by
      simp [storeBytes]
    have hrest : loadBytes (storeBytes m a (n + 1) v) (a + 1) n
        = loadBytes (storeBytes m (a + 1) n (v / 256)) (a + 1) n := by
      apply loadBytes_congr
      intro p h1 h2
      have c1 : a ≤ p ∧ p < a + (n + 1) := by omega
      have c2 : a + 1 ≤ p ∧ p < a + 1 + n := by omega
      simp only [storeBytes, c1, c2, and_self, if_true]
      have hk : p - a = (p - (a + 1)) + 1 := by omega
      rw [hk, pow_succ', Nat.div_div_eq_div_mul]
    simp only [loadBytes]
    rw [hfirst, hrest, ih (a + 1) (v / 256), pow_succ', Nat.mod_mul]

theorem exec_nil (s : MachineState) : exec [] s = s := rfl

theorem exec_cons (x : Inst64) (l : List Inst64) (s : MachineState) :
    exec (x :: l) s = exec l (exec1 s x) := rfl

theorem exec_append (a b : List Inst64) (s : MachineState) :
    exec (a ++ b) s = exec b (exec a s) := by
  simp [exec, List.foldl_append]

theorem exec_saveTemps64_regs (tool : ToolData) (t1 t2 t3 : Nat) (s : MachineState) :
    (exec (saveTemps64 tool t1 t2 t3) s).regs = s.regs := by
  simp [saveTemps64, exec_cons, exec_nil, exec1]

theorem exec_entryAddress64_regs (tool : ToolData) (bufferStore bufferPtrStore t1 t2 t3 : Nat)
    (h12 : t1 ≠ t2) (h13 : t1 ≠ t3) (s : MachineState) :
    (exec (entryAddress64 tool bufferStore bufferPtrStore t2 t3) s).regs t1 = s.regs t1 := by
  simp [entryAddress64, exec_cons, exec_nil, exec1, MachineState.setReg, h12, h13]

/-! ## Results on `generateBufferedAddressCalculation64` -/

theorem generate64_eq (tool : ToolData) (instruction : MemoryInstruction)
    (bufferStore bufferPtrStore blockId memopId bufferSize : Nat)
    (method : FlagsProtectionMethods) (t1 t2 t3 baseReg lValue indexReg : Nat)
    (hsel : selectTempRegs X86_64BIT_GPRS instruction = some (t1, t2, t3))
    (hbase : baseAndValue64 tool instruction.memoryOperand = some (baseReg, lValue))
    (hidx : indexReg64 instruction.memoryOperand = some indexReg) :
    generateBufferedAddressCalculation64 tool instruction bufferStore bufferPtrStore blockId
        memopId bufferSize method =
      some (saveTemps64 tool t1 t2 t3 ++
        addressCalc64 tool instruction method baseReg lValue indexReg t1 t2 ++
        entryAddress64 tool bufferStore bufferPtrStore t2 t3 ++
        fillEntry64 blockId memopId t1 t2 ++
        incPointer64 tool bufferPtrStore bufferSize t3 ++
        restoreTemps64 tool t1 t2 t3 ++
        [Inst64.generateBranchJL tool.Size__64_bit_inst_function_call_support]) := by
  simp only [generateBufferedAddressCalculation64, hsel, hbase, hidx]

theorem generate64_inv (tool : ToolData) (instruction : MemoryInstruction)
    (bufferStore bufferPtrStore blockId memopId bufferSize : Nat)
    (method : FlagsProtectionMethods) (insts : List Inst64)
    (h : generateBufferedAddressCalculation64 tool instruction bufferStore bufferPtrStore blockId
        memopId bufferSize method = some insts) :
    ∃ t1 t2 t3 baseReg lValue indexReg,
      selectTempRegs X86_64BIT_GPRS instruction = some (t1, t2, t3) ∧
      baseAndValue64 tool instruction.memoryOperand = some (baseReg, lValue) ∧
      indexReg64 instruction.memoryOperand = some indexReg ∧
      insts = saveTemps64 tool t1 t2 t3 ++
        addressCalc64 tool instruction method baseReg lValue indexReg t1 t2 ++
        entryAddress64 tool bufferStore bufferPtrStore t2 t3 ++
        fillEntry64 blockId memopId t1 t2 ++
        incPointer64 tool bufferPtrStore bufferSize t3 ++
        restoreTemps64 tool t1 t2 t3 ++
        [Inst64.generateBranchJL tool.Size__64_bit_inst_function_call_support] := by
  unfold generateBufferedAddressCalculation64 at h
  cases hs : selectTempRegs X86_64BIT_GPRS instruction with
  | none => simp [hs] at h
  | some t =>
    obtain ⟨t1, t2, t3⟩ := t
    cases hb : baseAndValue64 tool instruction.memoryOperand with
    | none => simp [hs, hb] at h
    | some bv =>
      obtain ⟨baseReg, lValue⟩ := bv
      cases hi : indexReg64 instruction.memoryOperand with
      | none => simp [hs, hb, hi] at h
      | some indexReg =>
        simp only [hs, hb, hi, Option.some.injEq] at h
        exact ⟨t1, t2, t3, baseReg, lValue, indexReg, rfl, rfl, rfl, h.symm⟩

/-- C14 (amended): for a 64-bit memory operation whose explicit memory operand
has a general-purpose base register and a general-purpose index register (any
scale, any displacement), and for which three temp registers are found,
`generateBufferedAddressCalculation64` with `FlagsProtectionMethod_full`
returns a precursor of exactly 25 instructions. -/
theorem precursor64_length (tool : ToolData) (instruction : MemoryInstruction) (operand : Operand)
    (b i bufferStore bufferPtrStore blockId memopId bufferSize : Nat)
    (hsel : (selectTempRegs X86_64BIT_GPRS instruction).isSome = true)
    (hop : instruction.memoryOperand = some operand)
    (hb : operand.base = UdReg.gpr64 b) (hb16 : b < 16)
    (hi : operand.index = UdReg.gpr64 i) (hi16 : i < 16) :
    ∃ insts, generateBufferedAddressCalculation64 tool instruction bufferStore bufferPtrStore
        blockId memopId bufferSize .FlagsProtectionMethod_full = some insts ∧
      insts.length = 25 := by
  obtain ⟨⟨t1, t2, t3⟩, hs⟩ := Option.isSome_iff_exists.mp hsel
  have hbv : baseAndValue64 tool instruction.memoryOperand = some (b, operand.value) := by
    simp [hop, baseAndValue64, hb, IS_64BIT_GPR, hb16, UdReg.number]
  have hix : indexReg64 instruction.memoryOperand = some i := by
    simp [hop, indexReg64, hi, IS_64BIT_GPR, hi16, UdReg.number]
  refine ⟨_, generate64_eq tool instruction bufferStore bufferPtrStore blockId memopId
    bufferSize _ t1 t2 t3 b operand.value i hs hbv hix, ?_⟩
  simp [saveTemps64, addressCalc64, hop, hb, hi, IS_PC_REG, entryAddress64, fillEntry64,
    incPointer64, restoreTemps64]

/-- The amended C14 at `mov rax, [rbx + rcx*4 + 0x10]`. -/
theorem precursor64_length_witness :
    ∃ insts, generateBufferedAddressCalculation64 exampleTool exampleMov 0 0x100000 7 9
        BUFFER_ENTRIES .FlagsProtectionMethod_full = some insts ∧ insts.length = 25 :=
  precursor64_length exampleTool exampleMov ⟨.gpr64 3, .gpr64 1, 4, 0x10⟩ 3 1 0 0x100000 7 9
    BUFFER_ENTRIES (by decide) rfl rfl (by decide) rfl (by decide)

/-- C14 as stated fails: for `mov rax, [rbx + rcx*4 + 0x10]` the precursor has
25 instructions, not 22. -/
theorem precursor64_length_counterexample :
    (generateBufferedAddressCalculation64 exampleTool exampleMov 0 0x100000 7 9
        BUFFER_ENTRIES .FlagsProtectionMethod_full).map List.length = some 25 ∧
    (generateBufferedAddressCalculation64 exampleTool exampleMov 0 0x100000 7 9
        BUFFER_ENTRIES .FlagsProtectionMethod_full).map List.length ≠ some 22 := by
  decide

theorem addressCalc64_noStore (tool : ToolData) (instruction : MemoryInstruction)
    (method : FlagsProtectionMethods) (baseReg lValue indexReg t1 t2 : Nat) :
    (addressCalc64 tool instruction method baseReg lValue indexReg t1 t2).all
      (fun x => !x.isEntryStore) = true := by
  unfold addressCalc64
  cases instruction.memoryOperand with
  | none => rfl
  | some operand =>
    simp only [List.all_append]
    split_ifs <;> simp [Inst64.isEntryStore]

theorem add64_of_lt (a b : Nat) (h : a + b < U64) : add64 a b = a + b := by
  unfold add64
  exact Nat.mod_eq_of_lt h

theorem exec_fillEntry64_mem (blockId memopId t1 t2 : Nat) (h12 : t1 ≠ t2) (s : MachineState) :
    (exec (fillEntry64 blockId memopId t1 t2) s).mem =
      storeBytes (storeBytes (storeBytes s.mem (add64 (s.regs t2) 8) 8 (s.regs t1))
        (add64 (s.regs t2) 0) 4 (blockId % U64)) (add64 (s.regs t2) 4) 4 (memopId % U64) := by
  have h21 : t2 ≠ t1 := fun h => h12 h.symm
  simp [fillEntry64, exec_cons, exec_nil, exec1, MachineState.setReg, h21]

/-- C15: whenever the 64-bit precursor is produced, it is
`pre ++ [store, move-immediate, store, move-immediate, store] ++ post` where no
instruction of `pre` or `post` is a store through an address register, and the
three stores are: `tempReg1` (the effective address) 8 bytes wide at
`[tempReg2 + 8]`, then `tempReg1` holding the immediate `blockId` 4 bytes wide
at `[tempReg2 + 0]`, then `tempReg1` holding the immediate `memopId` 4 bytes
wide at `[tempReg2 + 4]`.  Executed from any state whose `tempReg2` holds an
entry address `E` with `E + 16` inside the address space, the five
instructions leave the low 32 bits of `blockId` at `E`, of `memopId` at
`E + 4`, the 64-bit value of `tempReg1` at `E + 8`, and change no byte outside
`E .. E + 15`. -/
theorem entry_stores64 (tool : ToolData) (instruction : MemoryInstruction)
    (bufferStore bufferPtrStore blockId memopId bufferSize : Nat)
    (method : FlagsProtectionMethods) (t1 t2 t3 : Nat)
    (hsel : selectTempRegs X86_64BIT_GPRS instruction = some (t1, t2, t3))
    (hgen : (generateBufferedAddressCalculation64 tool instruction bufferStore bufferPtrStore
      blockId memopId bufferSize method).isSome = true) :
    ∃ pre post,
      generateBufferedAddressCalculation64 tool instruction bufferStore bufferPtrStore
          blockId memopId bufferSize method =
        some (pre ++
          [Inst64.generateMoveRegToRegaddrImm t1 t2 8 true,
           Inst64.generateMoveImmToReg blockId t1,
           Inst64.generateMoveRegToRegaddrImm t1 t2 0 false,
           Inst64.generateMoveImmToReg memopId t1,
           Inst64.generateMoveRegToRegaddrImm t1 t2 4 false] ++ post) ∧
      (∀ x ∈ pre ++ post, x.isEntryStore = false) ∧
      ∀ s : MachineState, s.regs t2 + 16 ≤ U64 →
        loadBytes (exec [Inst64.generateMoveRegToRegaddrImm t1 t2 8 true,
           Inst64.generateMoveImmToReg blockId t1,
           Inst64.generateMoveRegToRegaddrImm t1 t2 0 false,
           Inst64.generateMoveImmToReg memopId t1,
           Inst64.generateMoveRegToRegaddrImm t1 t2 4 false] s).mem (s.regs t2) 4
          = blockId % U32 ∧
        loadBytes (exec [Inst64.generateMoveRegToRegaddrImm t1 t2 8 true,
           Inst64.generateMoveImmToReg blockId t1,
           Inst64.generateMoveRegToRegaddrImm t1 t2 0 false,
           Inst64.generateMoveImmToReg memopId t1,
           Inst64.generateMoveRegToRegaddrImm t1 t2 4 false] s).mem (s.regs t2 + 4) 4
          = memopId % U32 ∧
        loadBytes (exec [Inst64.generateMoveRegToRegaddrImm t1 t2 8 true,
           Inst64.generateMoveImmToReg blockId t1,
           Inst64.generateMoveRegToRegaddrImm t1 t2 0 false,
           Inst64.generateMoveImmToReg memopId t1,
           Inst64.generateMoveRegToRegaddrImm t1 t2 4 false] s).mem (s.regs t2 + 8) 8
          = s.regs t1 % U64 ∧
        ∀ p, p < s.regs t2 ∨ s.regs t2 + 16 ≤ p →
          (exec [Inst64.generateMoveRegToRegaddrImm t1 t2 8 true,
           Inst64.generateMoveImmToReg blockId t1,
           Inst64.generateMoveRegToRegaddrImm t1 t2 0 false,
           Inst64.generateMoveImmToReg memopId t1,
           Inst64.generateMoveRegToRegaddrImm t1 t2 4 false] s).mem p = s.mem p := by
  obtain ⟨insts, hi⟩ := Option.isSome_iff_exists.mp hgen
  obtain ⟨u1, u2, u3, baseReg, lValue, indexReg, hs, _, _, heq⟩ :=
    generate64_inv tool instruction bufferStore bufferPtrStore blockId memopId bufferSize
      method insts hi
  rw [hsel] at hs
  simp only [Option.some.injEq, Prod.mk.injEq] at hs
  obtain ⟨e1, e2, e3⟩ := hs
  subst e1 e2 e3
  have hdist := selectTempRegs_spec X86_64BIT_GPRS (by decide) instruction t1 t2 t3 hsel
  have h12 : t1 ≠ t2 := hdist.2.2.2.1
  refine ⟨saveTemps64 tool t1 t2 t3 ++
      addressCalc64 tool instruction method baseReg lValue indexReg t1 t2 ++
      entryAddress64 tool bufferStore bufferPtrStore t2 t3,
    incPointer64 tool bufferPtrStore bufferSize t3 ++ restoreTemps64 tool t1 t2 t3 ++
      [Inst64.generateBranchJL tool.Size__64_bit_inst_function_call_support], ?_, ?_, ?_⟩
  · rw [hi, heq]
    simp [fillEntry64]
  · have hall := addressCalc64_noStore tool instruction method baseReg lValue indexReg t1 t2
    rw [List.all_eq_true] at hall
    intro x hx
    simp only [List.mem_append] at hx
    rcases hx with ((hx | hx) | hx) | (hx | hx) | hx
    · simp [saveTemps64] at hx
      rcases hx with hx | hx | hx <;> subst hx <;> rfl
    · simpa using hall x hx
    · simp [entryAddress64] at hx
      rcases hx with hx | hx | hx | hx | hx <;> subst hx <;> rfl
    · simp [incPointer64] at hx
      rcases hx with hx | hx | hx <;> subst hx <;> rfl
    · simp [restoreTemps64] at hx
      rcases hx with hx | hx | hx <;> subst hx <;> rfl
    · simp at hx
      subst hx
      rfl
  · intro s hE
    have hm := exec_fillEntry64_mem blockId memopId t1 t2 h12 s
    simp only [fillEntry64] at hm
    rw [hm]
    have a8 : add64 (s.regs t2) 8 = s.regs t2 + 8 := add64_of_lt _ _ (by omega)
    have a0 : add64 (s.regs t2) 0 = s.regs t2 := add64_of_lt _ _ (by omega)
    have a4 : add64 (s.regs t2) 4 = s.regs t2 + 4 := add64_of_lt _ _ (by omega)
    rw [a8, a0, a4]
    refine ⟨?_, ?_, ?_, ?_⟩
    · rw [loadBytes_storeBytes_disjoint _ _ _ _ _ _ (by omega), loadBytes_storeBytes_same]
      unfold U64 U32
      omega
    · rw [loadBytes_storeBytes_same]
      unfold U64 U32
      omega
    · rw [loadBytes_storeBytes_disjoint _ _ _ _ _ _ (by omega),
        loadBytes_storeBytes_disjoint _ _ _ _ _ _ (by omega), loadBytes_storeBytes_same]
      unfold U64
      norm_num
    · intro p hp
      have c1 : ¬ (s.regs t2 + 4 ≤ p ∧ p < s.regs t2 + 4 + 4) := by omega
      have c2 : ¬ (s.regs t2 ≤ p ∧ p < s.regs t2 + 4) := by omega
      have c3 : ¬ (s.regs t2 + 8 ≤ p ∧ p < s.regs t2 + 8 + 8) := by omega
      simp only [storeBytes, c1, c2, c3, if_false]

/-- Witness for `entry_stores64`: `mov rax, [rbx + rcx*4 + 0x10]` with temp
registers 15, 14, 13, block 7 and memory operation 9. -/
theorem entry_stores64_witness :
    ∃ pre post,
      generateBufferedAddressCalculation64 exampleTool exampleMov 0 0x100000 7 9 BUFFER_ENTRIES
          .FlagsProtectionMethod_full =
        some (pre ++
          [Inst64.generateMoveRegToRegaddrImm 15 14 8 true,
           Inst64.generateMoveImmToReg 7 15,
           Inst64.generateMoveRegToRegaddrImm 15 14 0 false,
           Inst64.generateMoveImmToReg 9 15,
           Inst64.generateMoveRegToRegaddrImm 15 14 4 false] ++ post) ∧
      (∀ x ∈ pre ++ post, x.isEntryStore = false) ∧
      ∀ s : MachineState, s.regs 14 + 16 ≤ U64 →
        loadBytes (exec [Inst64.generateMoveRegToRegaddrImm 15 14 8 true,
           Inst64.generateMoveImmToReg 7 15,
           Inst64.generateMoveRegToRegaddrImm 15 14 0 false,
           Inst64.generateMoveImmToReg 9 15,
           Inst64.generateMoveRegToRegaddrImm 15 14 4 false] s).mem (s.regs 14) 4
          = 7 % U32 ∧
        loadBytes (exec [Inst64.generateMoveRegToRegaddrImm 15 14 8 true,
           Inst64.generateMoveImmToReg 7 15,
           Inst64.generateMoveRegToRegaddrImm 15 14 0 false,
           Inst64.generateMoveImmToReg 9 15,
           Inst64.generateMoveRegToRegaddrImm 15 14 4 false] s).mem (s.regs 14 + 4) 4
          = 9 % U32 ∧
        loadBytes (exec [Inst64.generateMoveRegToRegaddrImm 15 14 8 true,
           Inst64.generateMoveImmToReg 7 15,
           Inst64.generateMoveRegToRegaddrImm 15 14 0 false,
           Inst64.generateMoveImmToReg 9 15,
           Inst64.generateMoveRegToRegaddrImm 15 14 4 false] s).mem (s.regs 14 + 8) 8
          = s.regs 15 % U64 ∧
        ∀ p, p < s.regs 14 ∨ s.regs 14 + 16 ≤ p →
          (exec [Inst64.generateMoveRegToRegaddrImm 15 14 8 true,
           Inst64.generateMoveImmToReg 7 15,
           Inst64.generateMoveRegToRegaddrImm 15 14 0 false,
           Inst64.generateMoveImmToReg 9 15,
           Inst64.generateMoveRegToRegaddrImm 15 14 4 false] s).mem p = s.mem p :=
  entry_stores64 exampleTool exampleMov 0 0x100000 7 9 BUFFER_ENTRIES
    .FlagsProtectionMethod_full 15 14 13 (by decide) (by decide)

theorem exec_addressCalc64_gpr (tool : ToolData) (instruction : MemoryInstruction)
    (operand : Operand) (b lValue indexReg t1 t2 : Nat)
    (hop : instruction.memoryOperand = some operand)
    (hbase : operand.base = UdReg.gpr64 b)
    (hidx : operand.index ≠ UdReg.UD_NONE → indexReg = operand.index.number)
    (h12 : t1 ≠ t2) (hi1 : operand.index ≠ UdReg.UD_NONE → operand.index.number ≠ t1)
    (s : MachineState) :
    (exec (addressCalc64 tool instruction .FlagsProtectionMethod_full b lValue indexReg t1 t2)
      s).regs t1 = (s.regs b + indexTerm operand s + lValue) % U64 := by
  have h21 : t2 ≠ t1 := fun h => h12 h.symm
  by_cases hin : operand.index = UdReg.UD_NONE
  · simp [addressCalc64, hop, hbase, hin, IS_PC_REG, exec_cons, exec_nil, exec1,
      MachineState.setReg, indexTerm, add64]
  · have e := hidx hin
    have n1 := hi1 hin
    subst e
    simp [addressCalc64, hop, hbase, hin, IS_PC_REG, exec_cons, exec_nil, exec1,
      MachineState.setReg, indexTerm, add64, h21, n1, h12]
    generalize s.regs operand.index.number * effectiveScale operand = z
    unfold U64
    omega

/-- C17: with `FlagsProtectionMethod_full`, for an explicit memory operand
with a general-purpose base register `b` for which the 64-bit precursor is
produced, the precursor is `pre ++ store :: post` where `store` is the 8-byte
store of `tempReg1` at `[tempReg2 + 8]` (the entry's address field), no
instruction of `pre` is a store through an address register, and executing
`pre` from any state `s` leaves in `tempReg1` the value
`(val(b) + val(i) * (scale == 0 ? 1 : scale) + d) mod 2^64`, `scale` being the
encoded scale as the `uint8_t` the code reads and the index term absent when
there is no index; this value is what `store` writes. -/
theorem effective_address64 (tool : ToolData) (instruction : MemoryInstruction)
    (operand : Operand) (b bufferStore bufferPtrStore blockId memopId bufferSize : Nat)
    (t1 t2 t3 : Nat)
    (hsel : selectTempRegs X86_64BIT_GPRS instruction = some (t1, t2, t3))
    (hop : instruction.memoryOperand = some operand)
    (hbase : operand.base = UdReg.gpr64 b)
    (hgen : (generateBufferedAddressCalculation64 tool instruction bufferStore bufferPtrStore
      blockId memopId bufferSize .FlagsProtectionMethod_full).isSome = true) :
    ∃ pre post,
      generateBufferedAddressCalculation64 tool instruction bufferStore bufferPtrStore
          blockId memopId bufferSize .FlagsProtectionMethod_full =
        some (pre ++ Inst64.generateMoveRegToRegaddrImm t1 t2 8 true :: post) ∧
      (∀ x ∈ pre, x.isEntryStore = false) ∧
      ∀ s : MachineState,
        (exec pre s).regs t1 =
          (s.regs b +
            (if operand.index ≠ UdReg.UD_NONE then
              s.regs operand.index.number *
                (if operand.scale % 256 = 0 then 1 else operand.scale % 256)
            else 0) + operand.value) % U64 ∧
        (exec (pre ++ [Inst64.generateMoveRegToRegaddrImm t1 t2 8 true]) s).mem =
          storeBytes (exec pre s).mem (add64 ((exec pre s).regs t2) 8) 8
            ((s.regs b +
              (if operand.index ≠ UdReg.UD_NONE then
                s.regs operand.index.number *
                  (if operand.scale % 256 = 0 then 1 else operand.scale % 256)
              else 0) + operand.value) % U64) := by
  obtain ⟨insts, hi⟩ := Option.isSome_iff_exists.mp hgen
  obtain ⟨u1, u2, u3, baseReg, lValue, indexReg, hs, hbv, hix, heq⟩ :=
    generate64_inv tool instruction bufferStore bufferPtrStore blockId memopId bufferSize
      _ insts hi
  rw [hsel] at hs
  simp only [Option.some.injEq, Prod.mk.injEq] at hs
  obtain ⟨e1, e2, e3⟩ := hs
  subst e1 e2 e3
  have hdist := selectTempRegs_spec X86_64BIT_GPRS (by decide) instruction t1 t2 t3 hsel
  have h12 : t1 ≠ t2 := hdist.2.2.2.1
  have h13 : t1 ≠ t3 := hdist.2.2.2.2.1
  have hreg := ((availableRegs_contains instruction t1 hdist.1).2.2 operand hop).1
  -- the base block
  have hb16 : b < 16 := by
    by_contra hc
    simp [hop, baseAndValue64, hbase, IS_64BIT_GPR, IS_PC_REG, hc] at hbv
  have hbv2 : baseReg = b ∧ lValue = operand.value := by
    simp [hop, baseAndValue64, hbase, IS_64BIT_GPR, IS_PC_REG, hb16, UdReg.number] at hbv
    exact ⟨hbv.1.symm, hbv.2.symm⟩
  obtain ⟨eb, ev⟩ := hbv2
  subst eb ev
  -- the index block
  have hidx : operand.index ≠ UdReg.UD_NONE → indexReg = operand.index.number := by
    intro hin
    simp only [hop, indexReg64, hin, ne_eq, not_false_eq_true, if_true] at hix
    split_ifs at hix
    simpa using hix.symm
  have hi1 : operand.index ≠ UdReg.UD_NONE → operand.index.number ≠ t1 := by
    intro hin hc
    simp only [hop, indexReg64, hin, ne_eq, not_false_eq_true, if_true] at hix
    split_ifs at hix with h64
    apply hreg
    cases hio : operand.index with
    | gpr64 r =>
      simp [Operand.registers, hio, hbase]
      right
      simpa [hio, UdReg.number] using hc.symm
    | UD_NONE => exact absurd hio hin
    | gpr32 r => simp [hio, IS_64BIT_GPR] at h64
    | UD_R_RIP => simp [hio, IS_64BIT_GPR] at h64
    | other => simp [hio, IS_64BIT_GPR] at h64
  refine ⟨saveTemps64 tool t1 t2 t3 ++
      addressCalc64 tool instruction .FlagsProtectionMethod_full baseReg operand.value indexReg
        t1 t2 ++
      entryAddress64 tool bufferStore bufferPtrStore t2 t3,
    [Inst64.generateMoveImmToReg blockId t1,
      Inst64.generateMoveRegToRegaddrImm t1 t2 0 false,
      Inst64.generateMoveImmToReg memopId t1,
      Inst64.generateMoveRegToRegaddrImm t1 t2 4 false] ++
    (incPointer64 tool bufferPtrStore bufferSize t3 ++ restoreTemps64 tool t1 t2 t3 ++
      [Inst64.generateBranchJL tool.Size__64_bit_inst_function_call_support]), ?_, ?_, ?_⟩
  · rw [hi, heq]
    simp [fillEntry64]
  · have hall := addressCalc64_noStore tool instruction .FlagsProtectionMethod_full baseReg
      operand.value indexReg t1 t2
    rw [List.all_eq_true] at hall
    intro x hx
    simp only [List.mem_append] at hx
    rcases hx with (hx | hx) | hx
    · simp [saveTemps64] at hx
      rcases hx with hx | hx | hx <;> subst hx <;> rfl
    · simpa using hall x hx
    · simp [entryAddress64] at hx
      rcases hx with hx | hx | hx | hx | hx <;> subst hx <;> rfl
  · intro s
    have hval : (exec (saveTemps64 tool t1 t2 t3 ++
        addressCalc64 tool instruction .FlagsProtectionMethod_full baseReg operand.value
          indexReg t1 t2 ++
        entryAddress64 tool bufferStore bufferPtrStore t2 t3) s).regs t1 =
        (s.regs baseReg + indexTerm operand s + operand.value) % U64 := by
      rw [exec_append, exec_append, exec_entryAddress64_regs _ _ _ _ _ _ h12 h13,
        exec_addressCalc64_gpr tool instruction operand baseReg operand.value indexReg t1 t2
          hop hbase hidx h12 hi1]
      simp only [indexTerm, exec_saveTemps64_regs]
    have hterm : indexTerm operand s =
        (if operand.index ≠ UdReg.UD_NONE then
          s.regs operand.index.number *
            (if operand.scale % 256 = 0 then 1 else operand.scale % 256)
        else 0) := rfl
    rw [hterm] at hval
    refine ⟨hval, ?_⟩
    rw [exec_append, exec_cons, exec_nil]
    simp only [exec1, if_true]
    rw [hval]

/-- Witness for `effective_address64`: for `mov rax, [rbx + rcx*4 + 0x10]`,
with temp registers 15, 14, 13, the recorded address is
`(val(rbx) + val(rcx) * 4 + 0x10) mod 2^64`; for `mov rax, [rbx + rcx + 0x10]`
with the encoded scale 0 it is `(val(rbx) + val(rcx) * 1 + 0x10) mod 2^64`. -/
theorem effective_address64_witness :
    (∃ pre post,
      generateBufferedAddressCalculation64 exampleTool exampleMov 0 0x100000 7 9 BUFFER_ENTRIES
          .FlagsProtectionMethod_full =
        some (pre ++ Inst64.generateMoveRegToRegaddrImm 15 14 8 true :: post) ∧
      (∀ x ∈ pre, x.isEntryStore = false) ∧
      ∀ s : MachineState,
        (exec pre s).regs 15 = (s.regs 3 + s.regs 1 * 4 + 0x10) % U64 ∧
        (exec (pre ++ [Inst64.generateMoveRegToRegaddrImm 15 14 8 true]) s).mem =
          storeBytes (exec pre s).mem (add64 ((exec pre s).regs 14) 8) 8
            ((s.regs 3 + s.regs 1 * 4 + 0x10) % U64)) ∧
    (∃ pre post,
      generateBufferedAddressCalculation64 exampleTool exampleMovUnscaled 0 0x100000 7 9
          BUFFER_ENTRIES .FlagsProtectionMethod_full =
        some (pre ++ Inst64.generateMoveRegToRegaddrImm 15 14 8 true :: post) ∧
      (∀ x ∈ pre, x.isEntryStore = false) ∧
      ∀ s : MachineState,
        (exec pre s).regs 15 = (s.regs 3 + s.regs 1 * 1 + 0x10) % U64 ∧
        (exec (pre ++ [Inst64.generateMoveRegToRegaddrImm 15 14 8 true]) s).mem =
          storeBytes (exec pre s).mem (add64 ((exec pre s).regs 14) 8) 8
            ((s.regs 3 + s.regs 1 * 1 + 0x10) % U64)) :=
  ⟨effective_address64 exampleTool exampleMov ⟨.gpr64 3, .gpr64 1, 4, 0x10⟩ 3 0 0x100000 7 9
      BUFFER_ENTRIES 15 14 13 (by decide) rfl rfl (by decide),
    effective_address64 exampleTool exampleMovUnscaled ⟨.gpr64 3, .gpr64 1, 0, 0x10⟩ 3 0
      0x100000 7 9 BUFFER_ENTRIES 15 14 13 (by decide) rfl rfl (by decide)⟩

theorem exec_addressCalc64_pc (tool : ToolData) (instruction : MemoryInstruction)
    (operand : Operand) (method : FlagsProtectionMethods) (lValue indexReg t1 t2 : Nat)
    (hop : instruction.memoryOperand = some operand)
    (hbase : operand.base = UdReg.UD_R_RIP)
    (hidx : operand.index ≠ UdReg.UD_NONE → indexReg = operand.index.number)
    (h12 : t1 ≠ t2) (hi1 : operand.index ≠ UdReg.UD_NONE → operand.index.number ≠ t1)
    (s : MachineState) :
    (exec (addressCalc64 tool instruction method 0 lValue indexReg t1 t2) s).regs t1 =
      (instruction.programAddress + instruction.sizeInBytes + lValue +
        (if operand.index ≠ UdReg.UD_NONE then
          indexValue tool method operand s * effectiveScale operand else 0)) % U64 := by
  have h21 : t2 ≠ t1 := fun h => h12 h.symm
  by_cases hin : operand.index = UdReg.UD_NONE
  · cases method <;>
      simp [addressCalc64, hop, hbase, hin, IS_PC_REG, exec_cons, exec_nil, exec1,
        MachineState.setReg, add64, X86_REG_AX]
  · have e := hidx hin
    have n1 := hi1 hin
    subst e
    by_cases hax : operand.index.number = 0
    · cases method
      · simp [addressCalc64, hop, hbase, hin, IS_PC_REG, exec_cons, exec_nil, exec1,
          MachineState.setReg, add64, X86_REG_AX, h21, n1, h12, indexValue, hax]
      · simp [addressCalc64, hop, hbase, hin, IS_PC_REG, exec_cons, exec_nil, exec1,
          MachineState.setReg, add64, X86_REG_AX, h21, n1, h12, indexValue, hax]
    · cases method <;>
        simp [addressCalc64, hop, hbase, hin, IS_PC_REG, exec_cons, exec_nil, exec1,
          MachineState.setReg, add64, X86_REG_AX, h21, n1, h12, indexValue, hax]

theorem indexValue_saveTemps64 (tool : ToolData) (method : FlagsProtectionMethods)
    (operand : Operand) (t1 t2 t3 : Nat)
    (hslots : method = .FlagsProtectionMethod_light →
      add64 tool.instDataAddress tool.regStorageOffset + 40 ≤ U64)
    (s : MachineState) :
    indexValue tool method operand (exec (saveTemps64 tool t1 t2 t3) s) =
      indexValue tool method operand s := by
  unfold indexValue
  rw [exec_saveTemps64_regs]
  split_ifs with hc
  · have hA := hslots hc.2
    have hm : (exec (saveTemps64 tool t1 t2 t3) s).mem =
        storeBytes (storeBytes (storeBytes s.mem (regStorageSlot tool 2) 8 (s.regs t1))
          (regStorageSlot tool 3) 8 (s.regs t2)) (regStorageSlot tool 4) 8 (s.regs t3) := by
      simp [saveTemps64, exec_cons, exec_nil, exec1]
    have s2 : regStorageSlot tool 2 = add64 tool.instDataAddress tool.regStorageOffset + 16 :=
      add64_of_lt _ _ (by omega)
    have s3 : regStorageSlot tool 3 = add64 tool.instDataAddress tool.regStorageOffset + 24 :=
      add64_of_lt _ _ (by omega)
    have s4 : regStorageSlot tool 4 = add64 tool.instDataAddress tool.regStorageOffset + 32 :=
      add64_of_lt _ _ (by omega)
    rw [hm, s2, s3, s4, loadBytes_storeBytes_disjoint _ _ _ _ _ _ (by omega),
      loadBytes_storeBytes_disjoint _ _ _ _ _ _ (by omega),
      loadBytes_storeBytes_disjoint _ _ _ _ _ _ (by omega)]
  · rfl

theorem pre64_noStore (tool : ToolData) (instruction : MemoryInstruction)
    (method : FlagsProtectionMethods)
    (baseReg lValue indexReg bufferStore bufferPtrStore t1 t2 t3 : Nat) :
    ∀ x ∈ saveTemps64 tool t1 t2 t3 ++
        addressCalc64 tool instruction method baseReg lValue indexReg t1 t2 ++
        entryAddress64 tool bufferStore bufferPtrStore t2 t3, x.isEntryStore = false := by
  have hall := addressCalc64_noStore tool instruction method baseReg lValue indexReg t1 t2
  rw [List.all_eq_true] at hall
  intro x hx
  simp only [List.mem_append] at hx
  rcases hx with (hx | hx) | hx
  · simp [saveTemps64] at hx
    rcases hx with hx | hx | hx <;> subst hx <;> rfl
  · simpa using hall x hx
  · simp [entryAddress64] at hx
    rcases hx with hx | hx | hx | hx | hx <;> subst hx <;> rfl

theorem index64_of_some (operand : Operand) (indexReg : Nat)
    (hix : indexReg64 (some operand) = some indexReg) (hin : operand.index ≠ UdReg.UD_NONE) :
    indexReg = operand.index.number ∧ operand.index.number ∈ operand.registers := by
  simp only [indexReg64, hin, ne_eq, not_false_eq_true, if_true] at hix
  split_ifs at hix with h64
  refine ⟨by simpa using hix.symm, ?_⟩
  cases hio : operand.index with
  | gpr64 r =>
    simp only [Operand.registers, hio, UdReg.number, List.mem_append]
    right
    simp
  | UD_NONE => exact absurd hio hin
  | gpr32 r => simp [hio, IS_64BIT_GPR] at h64
  | UD_R_RIP => simp [hio, IS_64BIT_GPR] at h64
  | other => simp [hio, IS_64BIT_GPR] at h64

/-- C18: in the 64-bit path, for a memory operand whose base is the program
counter and for which the precursor is produced, the precursor is
`pre ++ store :: post` with `store` the 8-byte store of `tempReg1` into the
entry's address field and no store through an address register in `pre`, and
executing `pre` from any state leaves in `tempReg1` the 64-bit value
`insn.addr + insn.length + d` plus, when there is an index, the index value
times `(scale == 0 ? 1 : scale)`, `scale` being the encoded scale as the
`uint8_t` the code reads; so two states with the same memory and the same
index register give the same value, whatever the other registers hold.  (With
`FlagsProtectionMethod_light` the value of an `AX` index is read from the
register storage, which is taken to lie inside the address space.) -/
theorem pc_relative_address64 (tool : ToolData) (instruction : MemoryInstruction)
    (operand : Operand) (bufferStore bufferPtrStore blockId memopId bufferSize : Nat)
    (method : FlagsProtectionMethods) (t1 t2 t3 : Nat)
    (hsel : selectTempRegs X86_64BIT_GPRS instruction = some (t1, t2, t3))
    (hop : instruction.memoryOperand = some operand)
    (hbase : operand.base = UdReg.UD_R_RIP)
    (hgen : (generateBufferedAddressCalculation64 tool instruction bufferStore bufferPtrStore
      blockId memopId bufferSize method).isSome = true)
    (hslots : method = .FlagsProtectionMethod_light →
      add64 tool.instDataAddress tool.regStorageOffset + 40 ≤ U64) :
    ∃ pre post,
      generateBufferedAddressCalculation64 tool instruction bufferStore bufferPtrStore
          blockId memopId bufferSize method =
        some (pre ++ Inst64.generateMoveRegToRegaddrImm t1 t2 8 true :: post) ∧
      (∀ x ∈ pre, x.isEntryStore = false) ∧
      (∀ s : MachineState,
        (exec pre s).regs t1 =
          (instruction.programAddress + instruction.sizeInBytes + operand.value +
            (if operand.index ≠ UdReg.UD_NONE then
              indexValue tool method operand s *
                (if operand.scale % 256 = 0 then 1 else operand.scale % 256)
            else 0)) % U64) ∧
      (∀ s r : MachineState, s.mem = r.mem →
        (operand.index ≠ UdReg.UD_NONE →
          s.regs operand.index.number = r.regs operand.index.number) →
        (exec pre s).regs t1 = (exec pre r).regs t1) := by
  obtain ⟨insts, hi⟩ := Option.isSome_iff_exists.mp hgen
  obtain ⟨u1, u2, u3, baseReg, lValue, indexReg, hs, hbv, hix, heq⟩ :=
    generate64_inv tool instruction bufferStore bufferPtrStore blockId memopId bufferSize
      _ insts hi
  rw [hsel] at hs
  simp only [Option.some.injEq, Prod.mk.injEq] at hs
  obtain ⟨e1, e2, e3⟩ := hs
  subst e1 e2 e3
  have hdist := selectTempRegs_spec X86_64BIT_GPRS (by decide) instruction t1 t2 t3 hsel
  have h12 : t1 ≠ t2 := hdist.2.2.2.1
  have h13 : t1 ≠ t3 := hdist.2.2.2.2.1
  have hreg := ((availableRegs_contains instruction t1 hdist.1).2.2 operand hop).1
  have hbv2 : baseReg = 0 ∧ lValue = operand.value := by
    simp [hop, baseAndValue64, hbase, IS_64BIT_GPR, IS_PC_REG] at hbv
    exact ⟨hbv.1.symm, hbv.2.symm⟩
  obtain ⟨eb, ev⟩ := hbv2
  subst eb ev
  rw [hop] at hix
  have hidx : operand.index ≠ UdReg.UD_NONE → indexReg = operand.index.number :=
    fun hin => (index64_of_some operand indexReg hix hin).1
  have hi1 : operand.index ≠ UdReg.UD_NONE → operand.index.number ≠ t1 :=
    fun hin hc => hreg (hc ▸ (index64_of_some operand indexReg hix hin).2)
  have hval : ∀ s : MachineState, (exec (saveTemps64 tool t1 t2 t3 ++
      addressCalc64 tool instruction method 0 operand.value indexReg t1 t2 ++
      entryAddress64 tool bufferStore bufferPtrStore t2 t3) s).regs t1 =
      (instruction.programAddress + instruction.sizeInBytes + operand.value +
        (if operand.index ≠ UdReg.UD_NONE then
          indexValue tool method operand s * effectiveScale operand else 0)) % U64 := by
    intro s
    rw [exec_append, exec_append, exec_entryAddress64_regs _ _ _ _ _ _ h12 h13,
      exec_addressCalc64_pc tool instruction operand method operand.value indexReg t1 t2
        hop hbase hidx h12 hi1, indexValue_saveTemps64 tool method operand t1 t2 t3 hslots]
  have hscale : effectiveScale operand =
      (if operand.scale % 256 = 0 then 1 else operand.scale % 256) := rfl
  rw [hscale] at hval
  refine ⟨saveTemps64 tool t1 t2 t3 ++
      addressCalc64 tool instruction method 0 operand.value indexReg t1 t2 ++
      entryAddress64 tool bufferStore bufferPtrStore t2 t3,
    [Inst64.generateMoveImmToReg blockId t1,
      Inst64.generateMoveRegToRegaddrImm t1 t2 0 false,
      Inst64.generateMoveImmToReg memopId t1,
      Inst64.generateMoveRegToRegaddrImm t1 t2 4 false] ++
    (incPointer64 tool bufferPtrStore bufferSize t3 ++ restoreTemps64 tool t1 t2 t3 ++
      [Inst64.generateBranchJL tool.Size__64_bit_inst_function_call_support]), ?_,
    pre64_noStore tool instruction method 0 operand.value indexReg bufferStore bufferPtrStore
      t1 t2 t3, hval, ?_⟩
  · rw [hi, heq]
    simp [fillEntry64]
  · intro s r hmem hreg2
    rw [hval s, hval r]
    by_cases hin : operand.index = UdReg.UD_NONE
    · simp [hin]
    · simp only [indexValue, hmem, hreg2 hin]

/-- Witness for `pc_relative_address64`: a load at `0x400000`, 8 bytes long,
whose operand has the program counter as base, the index `rcx` with scale 2
and the displacement `0x100`, with `FlagsProtectionMethod_light`; the recorded
address is `(0x400000 + 8 + 0x100 + val(rcx) * 2) mod 2^64`. -/
theorem pc_relative_address64_witness :
    ∃ pre post,
      generateBufferedAddressCalculation64 exampleTool exampleRipIndexed 0 0x100000 7 9
          BUFFER_ENTRIES .FlagsProtectionMethod_light =
        some (pre ++ Inst64.generateMoveRegToRegaddrImm 15 14 8 true :: post) ∧
      (∀ x ∈ pre, x.isEntryStore = false) ∧
      (∀ s : MachineState,
        (exec pre s).regs 15 = (0x400000 + 8 + 0x100 + s.regs 1 * 2) % U64) ∧
      (∀ s r : MachineState, s.mem = r.mem →
        (UdReg.gpr64 1 ≠ UdReg.UD_NONE → s.regs 1 = r.regs 1) →
        (exec pre s).regs 15 = (exec pre r).regs 15) :=
  pc_relative_address64 exampleTool exampleRipIndexed ⟨.UD_R_RIP, .gpr64 1, 2, 0x100⟩ 0
    0x100000 7 9 BUFFER_ENTRIES .FlagsProtectionMethod_light 15 14 13 (by decide) rfl rfl
    (by decide) (fun _ => by decide)

/-- C20 (amended): in the 64-bit path, for an explicit memory operand with no
base register for which the precursor is produced, the spills are followed by
the index move (when there is an index), then by a move-immediate into
`tempReg1` whose immediate is the operand's displacement, except that it is 0
when there is no index and the displacement is below `MIN_CONST_MEMADDR`;
then come the scale and add (when there is an index) and the buffer part.
With no index, `tempReg1` holds that immediate at the first buffer store. -/
theorem no_base_address64 (tool : ToolData) (instruction : MemoryInstruction)
    (operand : Operand) (bufferStore bufferPtrStore blockId memopId bufferSize : Nat)
    (method : FlagsProtectionMethods) (t1 t2 t3 : Nat)
    (hsel : selectTempRegs X86_64BIT_GPRS instruction = some (t1, t2, t3))
    (hop : instruction.memoryOperand = some operand)
    (hbase : operand.base = UdReg.UD_NONE)
    (hgen : (generateBufferedAddressCalculation64 tool instruction bufferStore bufferPtrStore
      blockId memopId bufferSize method).isSome = true) :
    generateBufferedAddressCalculation64 tool instruction bufferStore bufferPtrStore
        blockId memopId bufferSize method =
      some (saveTemps64 tool t1 t2 t3 ++
        (if operand.index ≠ UdReg.UD_NONE then
          [Inst64.generateMoveRegToReg operand.index.number t2] ++
          (if operand.index.number = X86_REG_AX ∧ method = .FlagsProtectionMethod_light then
            [Inst64.generateMoveMemToReg (add64 tool.instDataAddress tool.regStorageOffset) t2]
          else [])
        else []) ++
        [Inst64.generateMoveImmToReg
          (if operand.index = UdReg.UD_NONE ∧ operand.value < tool.MIN_CONST_MEMADDR then 0
            else operand.value) t1] ++
        (if operand.index ≠ UdReg.UD_NONE then
          [Inst64.generateRegImmMultReg t2 (effectiveScale operand) t2,
           Inst64.generateRegAddReg2OpForm t2 t1]
        else []) ++
        entryAddress64 tool bufferStore bufferPtrStore t2 t3 ++
        fillEntry64 blockId memopId t1 t2 ++
        incPointer64 tool bufferPtrStore bufferSize t3 ++
        restoreTemps64 tool t1 t2 t3 ++
        [Inst64.generateBranchJL tool.Size__64_bit_inst_function_call_support]) ∧
    (operand.index = UdReg.UD_NONE → ∀ s : MachineState,
      (exec (saveTemps64 tool t1 t2 t3 ++
        [Inst64.generateMoveImmToReg
          (if operand.value < tool.MIN_CONST_MEMADDR then 0 else operand.value) t1] ++
        entryAddress64 tool bufferStore bufferPtrStore t2 t3) s).regs t1 =
      (if operand.value < tool.MIN_CONST_MEMADDR then 0 else operand.value) % U64) := by
  obtain ⟨insts, hi⟩ := Option.isSome_iff_exists.mp hgen
  obtain ⟨u1, u2, u3, baseReg, lValue, indexReg, hs, hbv, hix, heq⟩ :=
    generate64_inv tool instruction bufferStore bufferPtrStore blockId memopId bufferSize
      _ insts hi
  rw [hsel] at hs
  simp only [Option.some.injEq, Prod.mk.injEq] at hs
  obtain ⟨e1, e2, e3⟩ := hs
  subst e1 e2 e3
  have hdist := selectTempRegs_spec X86_64BIT_GPRS (by decide) instruction t1 t2 t3 hsel
  have h12 : t1 ≠ t2 := hdist.2.2.2.1
  have h13 : t1 ≠ t3 := hdist.2.2.2.2.1
  rw [hop] at hix hbv
  have hlv : lValue = (if operand.index = UdReg.UD_NONE ∧
      operand.value < tool.MIN_CONST_MEMADDR then 0 else operand.value) := by
    simp only [baseAndValue64, hbase, ne_eq, not_true_eq_false, if_false] at hbv
    split_ifs at hbv with hin hlt
    · simp only [Option.some.injEq, Prod.mk.injEq] at hbv
      rw [if_pos ⟨hin, hlt⟩]
      exact hbv.2.symm
    · simp only [Option.some.injEq, Prod.mk.injEq] at hbv
      rw [if_neg (fun h => hlt h.2)]
      exact hbv.2.symm
    · simp only [Option.some.injEq, Prod.mk.injEq] at hbv
      rw [if_neg (fun h => hin h.1)]
      exact hbv.2.symm
  refine ⟨?_, ?_⟩
  · rw [hi, heq]
    by_cases hin : operand.index = UdReg.UD_NONE
    · simp [addressCalc64, hop, hbase, hin, IS_PC_REG, hlv]
    · have e := (index64_of_some operand indexReg hix hin).1
      simp [addressCalc64, hop, hbase, hin, IS_PC_REG, hlv, e]
  · intro _ s
    rw [exec_append, exec_entryAddress64_regs _ _ _ _ _ _ h12 h13, exec_append, exec_cons,
      exec_nil]
    simp [exec1, MachineState.setReg]

/-- Witness for `no_base_address64`: `mov rax, [0x601000]`, whose displacement
is not below `MIN_CONST_MEMADDR = 0x10000` and reaches `tempReg1` unchanged. -/
theorem no_base_address64_witness :
    generateBufferedAddressCalculation64 exampleTool exampleDataLoad 0 0x100000 7 9
        BUFFER_ENTRIES .FlagsProtectionMethod_full =
      some (saveTemps64 exampleTool 15 14 13 ++
        (if Operand.index ⟨.UD_NONE, .UD_NONE, 0, 0x601000⟩ ≠ UdReg.UD_NONE then
          [Inst64.generateMoveRegToReg (Operand.index ⟨.UD_NONE, .UD_NONE, 0, 0x601000⟩).number 14] ++
          (if (Operand.index ⟨.UD_NONE, .UD_NONE, 0, 0x601000⟩).number = X86_REG_AX ∧
              FlagsProtectionMethods.FlagsProtectionMethod_full = .FlagsProtectionMethod_light then
            [Inst64.generateMoveMemToReg
              (add64 exampleTool.instDataAddress exampleTool.regStorageOffset) 14]
          else [])
        else []) ++
        [Inst64.generateMoveImmToReg
          (if Operand.index ⟨.UD_NONE, .UD_NONE, 0, 0x601000⟩ = UdReg.UD_NONE ∧
              Operand.value ⟨.UD_NONE, .UD_NONE, 0, 0x601000⟩ < exampleTool.MIN_CONST_MEMADDR then 0
            else Operand.value ⟨.UD_NONE, .UD_NONE, 0, 0x601000⟩) 15] ++
        (if Operand.index ⟨.UD_NONE, .UD_NONE, 0, 0x601000⟩ ≠ UdReg.UD_NONE then
          [Inst64.generateRegImmMultReg 14 (effectiveScale ⟨.UD_NONE, .UD_NONE, 0, 0x601000⟩) 14,
           Inst64.generateRegAddReg2OpForm 14 15]
        else []) ++
        entryAddress64 exampleTool 0 0x100000 14 13 ++
        fillEntry64 7 9 15 14 ++
        incPointer64 exampleTool 0x100000 BUFFER_ENTRIES 13 ++
        restoreTemps64 exampleTool 15 14 13 ++
        [Inst64.generateBranchJL exampleTool.Size__64_bit_inst_function_call_support]) ∧
    (Operand.index ⟨.UD_NONE, .UD_NONE, 0, 0x601000⟩ = UdReg.UD_NONE → ∀ s : MachineState,
      (exec (saveTemps64 exampleTool 15 14 13 ++
        [Inst64.generateMoveImmToReg
          (if Operand.value ⟨.UD_NONE, .UD_NONE, 0, 0x601000⟩ < exampleTool.MIN_CONST_MEMADDR then 0
            else Operand.value ⟨.UD_NONE, .UD_NONE, 0, 0x601000⟩) 15] ++
        entryAddress64 exampleTool 0 0x100000 14 13) s).regs 15 =
      (if Operand.value ⟨.UD_NONE, .UD_NONE, 0, 0x601000⟩ < exampleTool.MIN_CONST_MEMADDR then 0
        else Operand.value ⟨.UD_NONE, .UD_NONE, 0, 0x601000⟩) % U64) :=
  no_base_address64 exampleTool exampleDataLoad ⟨.UD_NONE, .UD_NONE, 0, 0x601000⟩ 0 0x100000 7 9
    BUFFER_ENTRIES .FlagsProtectionMethod_full 15 14 13 (by decide) rfl rfl (by decide)

/-- C20 as stated fails: for `mov rax, [0x10]` (no base, no index,
displacement `0x10`, with `MIN_CONST_MEMADDR = 0x10000`) the fourth instruction
of the precursor is the move-immediate of 0 into `tempReg1` (register 15), no
move-immediate of `0x10` into it is emitted, and after the nine instructions
before the first buffer store `tempReg1` holds 0, not `0x10`. -/
theorem no_base_address64_counterexample :
    (generateBufferedAddressCalculation64 exampleTool exampleAbsoluteLoad 0 0x100000 7 9
        BUFFER_ENTRIES .FlagsProtectionMethod_full).map (fun l => l[3]?) =
      some (some (Inst64.generateMoveImmToReg 0 15)) ∧
    (generateBufferedAddressCalculation64 exampleTool exampleAbsoluteLoad 0 0x100000 7 9
        BUFFER_ENTRIES .FlagsProtectionMethod_full).map
      (fun l => decide (Inst64.generateMoveImmToReg 0x10 15 ∈ l)) = some false ∧
    (generateBufferedAddressCalculation64 exampleTool exampleAbsoluteLoad 0 0x100000 7 9
        BUFFER_ENTRIES .FlagsProtectionMethod_full).map
      (fun l => (l[9]?, (exec (l.take 9) zeroState).regs 15)) =
      some (some (Inst64.generateMoveRegToRegaddrImm 15 14 8 true), 0) := by
  decide

/-! ## Results on `generateBufferedAddressCalculation32` -/

/-- C16 (divergence of the code): the precursor built by
`generateBufferedAddressCalculation32` is the same for all `blockId` and
`memopId`, so neither is stored into the entry; and for
`mov eax, [ebx + 0x10]` its only store through an address register is the one
of `tempReg1` (register 7, the effective address) at `[tempReg2 + 0]`, where
the 64-bit path stores `blockId`; nothing is stored at offsets 4 and 8. -/
theorem precursor32_entry_stores :
    (∀ (tool : ToolData) (instruction : MemoryInstruction)
      (bufferStore bufferPtrStore blockId memopId blockId2 memopId2 bufferSize : Nat)
      (method : FlagsProtectionMethods),
      generateBufferedAddressCalculation32 tool instruction bufferStore bufferPtrStore blockId
          memopId bufferSize method =
        generateBufferedAddressCalculation32 tool instruction bufferStore bufferPtrStore blockId2
          memopId2 bufferSize method) ∧
    (generateBufferedAddressCalculation32 exampleTool exampleMov32 0 0x100000 7 9
        BUFFER_ENTRIES .FlagsProtectionMethod_full).map
      (fun l => l.filter Inst32.isEntryStore) =
      some [Inst32.generateMoveRegToRegaddrImm 7 6 0] ∧
    (generateBufferedAddressCalculation64 exampleTool exampleMov 0 0x100000 7 9
        BUFFER_ENTRIES .FlagsProtectionMethod_full).map
      (fun l => l.filter Inst64.isEntryStore) =
      some [Inst64.generateMoveRegToRegaddrImm 15 14 8 true,
        Inst64.generateMoveRegToRegaddrImm 15 14 0 false,
        Inst64.generateMoveRegToRegaddrImm 15 14 4 false] := by
  refine ⟨fun _ _ _ _ _ _ _ _ _ _ => rfl, by decide, by decide⟩

/-- C19 (amended): in the 32-bit path a memory operand with a program-counter
base is rejected as a bad operand, whatever its displacement:
`generateBufferedAddressCalculation32` returns no precursor. -/
theorem pc_relative32_rejected (tool : ToolData) (instruction : MemoryInstruction)
    (operand : Operand) (bufferStore bufferPtrStore blockId memopId bufferSize : Nat)
    (method : FlagsProtectionMethods)
    (hop : instruction.memoryOperand = some operand)
    (hbase : operand.base = UdReg.UD_R_RIP) :
    generateBufferedAddressCalculation32 tool instruction bufferStore bufferPtrStore blockId
      memopId bufferSize method = none := by
  have hb : baseReg32 instruction.memoryOperand = none := by
    simp [hop, baseReg32, hbase, IS_32BIT_GPR]
  unfold generateBufferedAddressCalculation32
  cases selectTempRegs X86_32BIT_GPRS instruction with
  | none => rfl
  | some t =>
    obtain ⟨t1, t2, t3⟩ := t
    simp only [hb]

/-- Witness for `pc_relative32_rejected`: the program-counter-relative load
with displacement `0x100`, with `FlagsProtectionMethod_light`. -/
theorem pc_relative32_rejected_witness :
    generateBufferedAddressCalculation32 exampleTool examplePcLoad32 0 0x100000 1 2
      BUFFER_ENTRIES .FlagsProtectionMethod_light = none :=
  pc_relative32_rejected exampleTool examplePcLoad32 ⟨.UD_R_RIP, .UD_NONE, 0, 0x100⟩ 0 0x100000
    1 2 BUFFER_ENTRIES .FlagsProtectionMethod_light rfl rfl

/-- C19 as stated fails: for the load with a program-counter base and
displacement `0x100` three temp registers are found, but the base is not a
32-bit general-purpose register, and no precursor is returned. -/
theorem pc_relative32_counterexample :
    selectTempRegs X86_32BIT_GPRS examplePcLoad32 = some (7, 6, 5) ∧
    baseReg32 examplePcLoad32.memoryOperand = none ∧
    (generateBufferedAddressCalculation32 exampleTool examplePcLoad32 0 0x100000 7 9
      BUFFER_ENTRIES .FlagsProtectionMethod_full).isSome = false := by
  decide

/-! ## Results on the thread table -/

/-- C29: `HashThread(tid)` is `(tid >> 12) & 0xFFFF` for every thread key, and
is below the table size `ThreadHashAnd + 1 = 65536`. -/
theorem HashThread_lt (tid : Nat) :
    HashThread tid = (tid >>> 12) &&& 0xFFFF ∧ HashThread tid < ThreadHashAnd + 1 ∧
      ThreadHashAnd + 1 = 65536 := by
  have h : (tid >>> 12) &&& 0xFFFF ≤ 0xFFFF := Nat.and_le_right
  have e : HashThread tid = (tid >>> 12) &&& 0xFFFF := by
    unfold HashThread toU32 ThreadHashShift ThreadHashAnd U32
    omega
  refine ⟨e, ?_, rfl⟩
  rw [e]
  unfold ThreadHashAnd
  omega

theorem HashThread_bound (tid : Nat) : HashThread tid < ThreadHashAnd + 1 := by
  have h : (tid >>> 12) &&& 0xFFFF ≤ 0xFFFF := Nat.and_le_right
  unfold HashThread toU32 ThreadHashShift ThreadHashAnd U32
  omega

theorem probeEmpty_steps (td : Nat → ThreadData) :
    ∀ (k fuel a : Nat), a < ThreadHashAnd + 1 → k < fuel →
      (∀ j, j < k → (td ((a + j) % (ThreadHashAnd + 1))).id ≠ 0) →
      (td ((a + k) % (ThreadHashAnd + 1))).id = 0 →
      probeEmpty td fuel a = some ((a + k) % (ThreadHashAnd + 1)) := by
  intro k
  induction k with
  | zero =>
    intro fuel a ha hf _ hz
    obtain ⟨f, rfl⟩ : ∃ f, fuel = f + 1 := ⟨fuel - 1, by omega⟩
    have e : (a + 0) % (ThreadHashAnd + 1) = a := by
      rw [Nat.add_zero, Nat.mod_eq_of_lt ha]
    rw [e] at hz ⊢
    simp [probeEmpty, hz]
  | succ k ih =>
    intro fuel a ha hf hocc hz
    obtain ⟨f, rfl⟩ : ∃ f, fuel = f + 1 := ⟨fuel - 1, by omega⟩
    have h0 : (td a).id ≠ 0 := by
      have := hocc 0 (by omega)
      rwa [Nat.add_zero, Nat.mod_eq_of_lt ha] at this
    have hnext : add32 a 1 % (ThreadHashAnd + 1) = (a + 1) % (ThreadHashAnd + 1) := by
      unfold add32 U32
      unfold ThreadHashAnd at ha ⊢
      omega
    have hshift : ∀ j, ((a + 1) % (ThreadHashAnd + 1) + j) % (ThreadHashAnd + 1) =
        (a + (j + 1)) % (ThreadHashAnd + 1) := by
      intro j
      unfold ThreadHashAnd
      omega
    simp only [probeEmpty, h0, ne_eq, not_false_eq_true, if_true, hnext]
    rw [ih f ((a + 1) % (ThreadHashAnd + 1)) (Nat.mod_lt _ (by unfold ThreadHashAnd; omega))
      (by omega) (fun j hj => by rw [hshift]; exact hocc (j + 1) (by omega))
      (by rw [hshift]; exact hz), hshift]

theorem firstEmpty_exists (td : Nat → ThreadData) (h e : Nat) (hh : h < ThreadHashAnd + 1)
    (he : e < ThreadHashAnd + 1) (hempty : (td e).id = 0) :
    ∃ k, k < ThreadHashAnd + 1 ∧
      (∀ j, j < k → (td ((h + j) % (ThreadHashAnd + 1))).id ≠ 0) ∧
      (td ((h + k) % (ThreadHashAnd + 1))).id = 0 := by
  have hex : ∃ k, k < ThreadHashAnd + 1 ∧ (td ((h + k) % (ThreadHashAnd + 1))).id = 0 := by
    refine ⟨(e + (ThreadHashAnd + 1) - h) % (ThreadHashAnd + 1), Nat.mod_lt _ (by omega), ?_⟩
    have : (h + (e + (ThreadHashAnd + 1) - h) % (ThreadHashAnd + 1)) % (ThreadHashAnd + 1) = e := by
      unfold ThreadHashAnd at hh he ⊢
      omega
    rw [this]
    exact hempty
  classical
  refine ⟨Nat.find hex, (Nat.find_spec hex).1, ?_, (Nat.find_spec hex).2⟩
  intro j hj hz
  exact Nat.find_min hex hj ⟨by have := (Nat.find_spec hex).1; omega, hz⟩

/-- C30 (amended): for every thread table with at least one empty slot and
every thread key, `SetThreadData` stops probing at the first empty slot among
`h, h+1, ...` modulo 65536 (`k` steps after the home slot `h`), stores the key
and its data there and leaves every other slot unchanged; the final
`assert(actual == h)` holds exactly when `k = 0`, so the call completes
successfully when the home slot is empty and fails the assertion when the home
slot is occupied. -/
theorem SetThreadData_probes (td : Nat → ThreadData) (tid data e fuel : Nat)
    (he : e < ThreadHashAnd + 1) (hempty : (td e).id = 0)
    (hfuel : ThreadHashAnd + 1 ≤ fuel) :
    ∃ k, k < ThreadHashAnd + 1 ∧
      (∀ j, j < k → (td ((HashThread tid + j) % (ThreadHashAnd + 1))).id ≠ 0) ∧
      (td ((HashThread tid + k) % (ThreadHashAnd + 1))).id = 0 ∧
      SetThreadData fuel td tid data =
        some ⟨setSlot td ((HashThread tid + k) % (ThreadHashAnd + 1)) tid data,
          decide (k = 0)⟩ ∧
      (∀ i, i ≠ (HashThread tid + k) % (ThreadHashAnd + 1) →
        setSlot td ((HashThread tid + k) % (ThreadHashAnd + 1)) tid data i = td i) ∧
      setSlot td ((HashThread tid + k) % (ThreadHashAnd + 1)) tid data
        ((HashThread tid + k) % (ThreadHashAnd + 1)) = ⟨tid, data⟩ ∧
      ((td (HashThread tid)).id ≠ 0 → k ≠ 0) := by
  have hh : HashThread tid < ThreadHashAnd + 1 := by
    have := (HashThread_bound tid)
    exact this
  obtain ⟨k, hk, hocc, hz⟩ := firstEmpty_exists td (HashThread tid) e hh he hempty
  refine ⟨k, hk, hocc, hz, ?_, ?_, ?_, ?_⟩
  · unfold SetThreadData
    simp only [probeEmpty_steps td k fuel (HashThread tid) hh (by omega) hocc hz]
    congr 2
    by_cases hk0 : k = 0
    · subst hk0
      simp [Nat.mod_eq_of_lt hh]
    · have : (HashThread tid + k) % (ThreadHashAnd + 1) ≠ HashThread tid := by
        unfold ThreadHashAnd at hh hk ⊢
        omega
      simp [hk0, this]
  · intro i hi
    simp [setSlot, hi]
  · simp [setSlot]
  · intro hne hk0
    subst hk0
    rw [Nat.add_zero, Nat.mod_eq_of_lt hh] at hz
    exact hne hz

/-- Witness for `SetThreadData_probes`: the table with slot 5 occupied, the
thread key `0x10005000` (home slot 5) and the empty slot 6. -/
theorem SetThreadData_probes_witness :
    ∃ k, k < ThreadHashAnd + 1 ∧
      (∀ j, j < k → (exampleTable ((HashThread 0x10005000 + j) % (ThreadHashAnd + 1))).id ≠ 0) ∧
      (exampleTable ((HashThread 0x10005000 + k) % (ThreadHashAnd + 1))).id = 0 ∧
      SetThreadData 65536 exampleTable 0x10005000 77 =
        some ⟨setSlot exampleTable ((HashThread 0x10005000 + k) % (ThreadHashAnd + 1))
          0x10005000 77, decide (k = 0)⟩ ∧
      (∀ i, i ≠ (HashThread 0x10005000 + k) % (ThreadHashAnd + 1) →
        setSlot exampleTable ((HashThread 0x10005000 + k) % (ThreadHashAnd + 1))
          0x10005000 77 i = exampleTable i) ∧
      setSlot exampleTable ((HashThread 0x10005000 + k) % (ThreadHashAnd + 1)) 0x10005000 77
        ((HashThread 0x10005000 + k) % (ThreadHashAnd + 1)) = ⟨0x10005000, 77⟩ ∧
      ((exampleTable (HashThread 0x10005000)).id ≠ 0 → k ≠ 0) :=
  SetThreadData_probes exampleTable 0x10005000 77 6 65536 (by decide) (by decide) (by decide)

/-- C30 as stated fails: in the table whose slot 5 is held by thread `0x5000`,
adding thread `0x10005000` (home slot 5 as well) stores it in slot 6, and the
call does not complete: `assert(actual == h)` fails. -/
theorem SetThreadData_collision_counterexample :
    HashThread 0x10005000 = 5 ∧ (exampleTable 5).id = 0x5000 ∧ (exampleTable 6).id = 0 ∧
    (SetThreadData 65536 exampleTable 0x10005000 77).map
      (fun r => (r.completed, (r.table 6).id)) = some (false, 0x10005000) := by
  decide

/-! ## Results on the choice of the temp registers -/

/-- C22 (amended): whenever `generateBufferedAddressCalculation64` gets past its
register-selection assertion for an instruction with an explicit memory
operand, `tempReg1`, `tempReg2` and `tempReg3` are three pairwise distinct
general-purpose register numbers (below 16), none of which is among the
registers touched by the instruction, so none is the operand's base or index
register. -/
theorem tempRegs_distinct_untouched (instruction : MemoryInstruction) (operand : Operand)
    (t1 t2 t3 : Nat)
    (hsel : selectTempRegs X86_64BIT_GPRS instruction = some (t1, t2, t3))
    (hop : instruction.memoryOperand = some operand) :
    t1 < 16 ∧ t2 < 16 ∧ t3 < 16 ∧ t1 ≠ t2 ∧ t1 ≠ t3 ∧ t2 ≠ t3 ∧
    ∀ t ∈ [t1, t2, t3], t ∉ instruction.touched ∧ t ∉ operand.registers ∧
      operand.base ≠ UdReg.gpr64 t ∧ operand.index ≠ UdReg.gpr64 t := by
  obtain ⟨c1, c2, c3, d12, d13, d23⟩ :=
    selectTempRegs_spec X86_64BIT_GPRS (by decide) instruction t1 t2 t3 hsel
  have key : ∀ t, (availableRegs instruction).contains t = true →
      t < 16 ∧ t ∉ instruction.touched ∧ t ∉ operand.registers ∧
        operand.base ≠ UdReg.gpr64 t ∧ operand.index ≠ UdReg.gpr64 t := by
    intro t ht
    obtain ⟨hlt, _, hrest⟩ := availableRegs_contains instruction t ht
    obtain ⟨hr, htouch⟩ := hrest operand hop
    refine ⟨hlt, htouch, hr, ?_, ?_⟩
    · intro hb
      apply hr
      simp [Operand.registers, hb]
    · intro hi
      apply hr
      simp [Operand.registers, hi]
  refine ⟨(key t1 c1).1, (key t2 c2).1, (key t3 c3).1, d12, d13, d23, ?_⟩
  intro t ht
  simp only [List.mem_cons, List.mem_singleton, List.not_mem_nil, or_false] at ht
  rcases ht with rfl | rfl | rfl
  · exact (key _ c1).2
  · exact (key _ c2).2
  · exact (key _ c3).2

/-- Witness for `tempRegs_distinct_untouched`: `mov rax, [rbx + rcx*4 + 0x10]`
with temp registers 15, 14, 13. -/
theorem tempRegs_distinct_untouched_witness :
    15 < 16 ∧ 14 < 16 ∧ 13 < 16 ∧ 15 ≠ 14 ∧ 15 ≠ 13 ∧ 14 ≠ 13 ∧
    ∀ t ∈ [15, 14, 13], t ∉ exampleMov.touched ∧
      t ∉ Operand.registers ⟨.gpr64 3, .gpr64 1, 4, 0x10⟩ ∧
      Operand.base ⟨.gpr64 3, .gpr64 1, 4, 0x10⟩ ≠ UdReg.gpr64 t ∧
      Operand.index ⟨.gpr64 3, .gpr64 1, 4, 0x10⟩ ≠ UdReg.gpr64 t :=
  tempRegs_distinct_untouched exampleMov ⟨.gpr64 3, .gpr64 1, 4, 0x10⟩ 15 14 13 (by decide) rfl

/-- C22 as stated fails: for `push r15`, which has no explicit memory operand,
the touched registers are not entered into the set, the selection gets past
its assertion with `tempReg1 = 15`, a register the instruction touches, and
the precursor is produced. -/
theorem tempRegs_touched_counterexample :
    selectTempRegs X86_64BIT_GPRS examplePush = some (15, 14, 13) ∧
    15 ∈ examplePush.touched ∧
    (generateBufferedAddressCalculation64 exampleTool examplePush 0 0x100000 7 9
      BUFFER_ENTRIES .FlagsProtectionMethod_full).isSome = true := by
  decide

/-- C23 (amended): in the temp-register selection (with 16 or 8 as the marker
of a temp register not yet found) the stack pointer is never in the free set,
whether or not the target instruction touches it, and is never chosen as
`tempReg1`, `tempReg2` or `tempReg3`. -/
theorem stackPointer_never_selected (unset : Nat) (instruction : MemoryInstruction)
    (t1 t2 t3 : Nat) (hu : unset = X86_64BIT_GPRS ∨ unset = X86_32BIT_GPRS)
    (hsel : selectTempRegs unset instruction = some (t1, t2, t3)) :
    (availableRegs instruction).contains X86_REG_SP = false ∧
    t1 ≠ X86_REG_SP ∧ t2 ≠ X86_REG_SP ∧ t3 ≠ X86_REG_SP := by
  have hlt : unset < U32 := by
    rcases hu with rfl | rfl <;> decide
  obtain ⟨c1, c2, c3, _⟩ := selectTempRegs_spec unset hlt instruction t1 t2 t3 hsel
  refine ⟨?_, (availableRegs_contains instruction t1 c1).2.1,
    (availableRegs_contains instruction t2 c2).2.1,
    (availableRegs_contains instruction t3 c3).2.1⟩
  cases hc : (availableRegs instruction).contains X86_REG_SP with
  | false => rfl
  | true => exact absurd rfl (availableRegs_contains instruction X86_REG_SP hc).2.1

/-- Witness for `stackPointer_never_selected`: `mov rax, [rbx + rcx*4 + 0x10]`,
which does not touch the stack pointer. -/
theorem stackPointer_never_selected_witness :
    (availableRegs exampleMov).contains X86_REG_SP = false ∧
    15 ≠ X86_REG_SP ∧ 14 ≠ X86_REG_SP ∧ 13 ≠ X86_REG_SP :=
  stackPointer_never_selected X86_64BIT_GPRS exampleMov 15 14 13 (Or.inl rfl) (by decide)

/-- C23 as stated fails: `mov rax, [rbx + rcx*4 + 0x10]` does not touch the
stack pointer (register 4), yet the stack pointer is not in the free set. -/
theorem stackPointer_free_counterexample :
    X86_REG_SP ∉ exampleMov.touched ∧
    X86_REG_SP ∉ Operand.registers ⟨.gpr64 3, .gpr64 1, 4, 0x10⟩ ∧
    exampleMov.memoryOperand = some ⟨.gpr64 3, .gpr64 1, 4, 0x10⟩ ∧
    (availableRegs exampleMov).contains X86_REG_SP = false := by
  decide

theorem filter_range_succ_length (p : Nat → Bool) (n : Nat) :
    ((List.range (n + 1)).filter p).length =
      ((List.range n).filter p).length + (if p n = true then 1 else 0) := by
  rw [List.range_succ, List.filter_append, List.length_append]
  by_cases hp : p n = true <;> simp [List.filter, hp]

/-- After `n` iterations of the selection loop, with `unset` itself not
available, the temp registers found so far are as many as the available
registers tested, up to three. -/
theorem pickTempReg_count (unset : Nat) (available : BitSet)
    (hun : available.contains unset = false) :
    ∀ n a b c, (List.range n).foldl (pickTempReg unset available) (unset, unset, unset)
        = (a, b, c) →
      (a ≠ unset ↔
        1 ≤ ((List.range n).filter (fun i => available.contains (sub32 unset i))).length) ∧
      (b ≠ unset ↔
        2 ≤ ((List.range n).filter (fun i => available.contains (sub32 unset i))).length) ∧
      (c ≠ unset ↔
        3 ≤ ((List.range n).filter (fun i => available.contains (sub32 unset i))).length) := by
  intro n
  induction n with
  | zero =>
    intro a b c h
    simp only [List.range_zero, List.foldl_nil, Prod.mk.injEq] at h
    obtain ⟨rfl, rfl, rfl⟩ := h
    simp
  | succ n ih =>
    intro a b c h
    rw [List.range_succ, List.foldl_append] at h
    simp only [List.foldl_cons, List.foldl_nil] at h
    obtain ⟨⟨a0, b0, c0⟩, h0⟩ : ∃ t, (List.range n).foldl (pickTempReg unset available)
        (unset, unset, unset) = t := ⟨_, rfl⟩
    rw [h0] at h
    obtain ⟨ia, ib, ic⟩ := ih a0 b0 c0 h0
    have hg := filter_range_succ_length (fun i => available.contains (sub32 unset i)) n
    simp only at hg
    rw [hg]
    generalize ((List.range n).filter (fun i => available.contains (sub32 unset i))).length = g
      at ia ib ic
    unfold pickTempReg at h
    simp only at h
    by_cases hc : available.contains (sub32 unset n) = true
    · have hidx : sub32 unset n ≠ unset := by
        intro e
        rw [e, hun] at hc
        cases hc
      simp only [hc, if_true] at h ⊢
      by_cases ha : a0 = unset
      · simp only [ha, if_true, Prod.mk.injEq] at h
        obtain ⟨rfl, rfl, rfl⟩ := h
        omega
      · by_cases hb : b0 = unset
        · simp only [ha, hb, if_true, if_false, Prod.mk.injEq] at h
          obtain ⟨rfl, rfl, rfl⟩ := h
          omega
        · by_cases hcc : c0 = unset
          · simp only [ha, hb, hcc, if_true, if_false, Prod.mk.injEq] at h
            obtain ⟨rfl, rfl, rfl⟩ := h
            omega
          · simp only [ha, hb, hcc, if_false, Prod.mk.injEq] at h
            obtain ⟨rfl, rfl, rfl⟩ := h
            omega
    · simp only [hc, if_false, Prod.mk.injEq, Bool.false_eq_true] at h ⊢
      obtain ⟨rfl, rfl, rfl⟩ := h
      omega

theorem availableRegs_contains_unset (instruction : MemoryInstruction) :
    (availableRegs instruction).contains X86_64BIT_GPRS = false := by
  simp [BitSet.contains, availableRegs_maxVal, X86_64BIT_GPRS]

theorem selectTempRegs_isSome_iff (instruction : MemoryInstruction) :
    (selectTempRegs X86_64BIT_GPRS instruction).isSome = true ↔
      3 ≤ scannedFree X86_64BIT_GPRS instruction := by
  obtain ⟨⟨a, b, c⟩, h0⟩ : ∃ t, (List.range (availableRegs instruction).size).foldl
      (pickTempReg X86_64BIT_GPRS (availableRegs instruction))
      (X86_64BIT_GPRS, X86_64BIT_GPRS, X86_64BIT_GPRS) = t := ⟨_, rfl⟩
  obtain ⟨ia, ib, ic⟩ := pickTempReg_count X86_64BIT_GPRS (availableRegs instruction)
    (availableRegs_contains_unset instruction) _ a b c h0
  have hsel : selectTempRegs X86_64BIT_GPRS instruction =
      if a ≠ X86_64BIT_GPRS ∧ b ≠ X86_64BIT_GPRS ∧ c ≠ X86_64BIT_GPRS then some (a, b, c)
      else none := by
    unfold selectTempRegs
    simp only [h0]
  rw [hsel]
  unfold scannedFree
  generalize ((List.range (availableRegs instruction).size).filter
    (fun i => (availableRegs instruction).contains (sub32 X86_64BIT_GPRS i))).length = g
    at ia ib ic ⊢
  by_cases hall : a ≠ X86_64BIT_GPRS ∧ b ≠ X86_64BIT_GPRS ∧ c ≠ X86_64BIT_GPRS
  · rw [if_pos hall]
    simp only [Option.isSome_some, true_iff]
    omega
  · rw [if_neg hall]
    simp only [Option.isSome_none, Bool.false_eq_true, false_iff]
    omega

theorem scanned_split (c : Nat → Bool) :
    ∀ j, j ≤ 17 →
      ((List.range j).filter (fun i => c (sub32 16 i))).length +
        ((List.range (17 - j)).filter c).length = ((List.range 17).filter c).length := by
  intro j
  induction j with
  | zero => intro _; simp
  | succ j ih =>
    intro hj
    have h1 := filter_range_succ_length (fun i => c (sub32 16 i)) j
    have h2 := filter_range_succ_length c (16 - j)
    have e1 : 16 - j + 1 = 17 - j := by omega
    have e2 : 17 - (j + 1) = 16 - j := by omega
    have e3 : sub32 16 j = 16 - j := sub32_eq 16 j (by omega) (by decide)
    simp only at h1
    rw [e1] at h2
    rw [e3] at h1
    have := ih (by omega)
    rw [h1, e2]
    omega

theorem availableRegs_size_eq (instruction : MemoryInstruction) :
    (availableRegs instruction).size =
      ((List.range 17).filter (availableRegs instruction).contains).length := by
  have hm := availableRegs_maxVal instruction
  have h17 := filter_range_succ_length (availableRegs instruction).contains 16
  have h16 : (availableRegs instruction).contains 16 = false := by
    simp [BitSet.contains, hm]
  rw [h17, h16]
  unfold BitSet.size
  rw [hm]
  simp only [Bool.false_eq_true, if_false, Nat.add_zero]
  congr 1
  apply List.filter_congr
  intro x hx
  have : x < 16 := List.mem_range.mp hx
  simp [BitSet.contains, hm, this]

/-- What the selection loop of the 64-bit path does: it finds three temp
registers exactly when at least three of the registers `16 - i`, `i < k`,
which it tests are free, `k` being the number of free registers.  It fails
whenever fewer than three registers are free, and it finds three temps
whenever at least ten registers are free. -/
theorem selectTempRegs_scan (instruction : MemoryInstruction) :
    ((selectTempRegs X86_64BIT_GPRS instruction).isSome = true ↔
      3 ≤ scannedFree X86_64BIT_GPRS instruction) ∧
    ((availableRegs instruction).size < 3 →
      selectTempRegs X86_64BIT_GPRS instruction = none) ∧
    (10 ≤ (availableRegs instruction).size →
      (selectTempRegs X86_64BIT_GPRS instruction).isSome = true) := by
  have hiff := selectTempRegs_isSome_iff instruction
  have hsize : (availableRegs instruction).size ≤ 16 := by
    have := BitSet.size_le (availableRegs instruction)
    rwa [availableRegs_maxVal] at this
  have hsplit := scanned_split (availableRegs instruction).contains
    (availableRegs instruction).size (by omega)
  rw [← availableRegs_size_eq] at hsplit
  have hle : ((List.range (17 - (availableRegs instruction).size)).filter
      (availableRegs instruction).contains).length ≤ 17 - (availableRegs instruction).size :=
    (List.length_filter_le _ _).trans (List.length_range _).le
  have hscan : scannedFree X86_64BIT_GPRS instruction ≤ (availableRegs instruction).size := by
    unfold scannedFree
    exact (List.length_filter_le _ _).trans (List.length_range _).le
  have hsf : scannedFree X86_64BIT_GPRS instruction =
      ((List.range (availableRegs instruction).size).filter
        (fun i => (availableRegs instruction).contains (sub32 16 i))).length := rfl
  refine ⟨hiff, ?_, ?_⟩
  · intro hlt
    cases hs : selectTempRegs X86_64BIT_GPRS instruction with
    | none => rfl
    | some t =>
      have : 3 ≤ scannedFree X86_64BIT_GPRS instruction := hiff.mp (by rw [hs]; rfl)
      omega
  · intro hge
    apply hiff.mpr
    rw [hsf]
    omega

theorem exec1_regs_frame (x : Inst64) (r : Nat) (h : x.writesReg ≠ some r) (s : MachineState) :
    (exec1 s x).regs r = s.regs r := by
  cases x <;> simp only [Inst64.writesReg, ne_eq, Option.some.injEq, not_false_eq_true,
    reduceCtorEq] at h <;> simp only [exec1, MachineState.setReg] <;>
    first
      | rfl
      | exact if_neg (fun e => h e.symm)

theorem exec_regs_frame (l : List Inst64) (r : Nat) :
    ∀ s : MachineState, (∀ x ∈ l, x.writesReg ≠ some r) → (exec l s).regs r = s.regs r := by
  induction l with
  | nil => intro s _; rfl
  | cons x l ih =>
    intro s h
    rw [exec_cons, ih _ (fun y hy => h y (List.mem_cons_of_mem _ hy)),
      exec1_regs_frame x r (h x (List.mem_cons_self _ _))]

theorem exec1_mem_frame (x : Inst64) (h : x.writesMem = false) (s : MachineState) :
    (exec1 s x).mem = s.mem := by
  cases x <;> simp [Inst64.writesMem] at h <;> simp [exec1, MachineState.setReg]

theorem exec_mem_frame (l : List Inst64) :
    ∀ s : MachineState, (∀ x ∈ l, x.writesMem = false) → (exec l s).mem = s.mem := by
  induction l with
  | nil => intro s _; rfl
  | cons x l ih =>
    intro s h
    rw [exec_cons, ih _ (fun y hy => h y (List.mem_cons_of_mem _ hy)),
      exec1_mem_frame x (h x (List.mem_cons_self _ _))]

theorem addressCalc64_writes (tool : ToolData) (instruction : MemoryInstruction)
    (method : FlagsProtectionMethods) (baseReg lValue indexReg t1 t2 : Nat) :
    ∀ x ∈ addressCalc64 tool instruction method baseReg lValue indexReg t1 t2,
      x.writesMem = false ∧ (x.writesReg = some t1 ∨ x.writesReg = some t2) := by
  have hall : (addressCalc64 tool instruction method baseReg lValue indexReg t1 t2).all
      (fun x => !x.writesMem && (decide (x.writesReg = some t1) || decide (x.writesReg = some t2)))
      = true := by
    unfold addressCalc64
    cases instruction.memoryOperand with
    | none => simp [Inst64.writesMem, Inst64.writesReg]
    | some operand =>
      simp only [List.all_append]
      split_ifs <;> simp [Inst64.writesMem, Inst64.writesReg]
  rw [List.all_eq_true] at hall
  intro x hx
  have := hall x hx
  simpa using this

theorem exec_saveTemps64_mem (tool : ToolData) (t1 t2 t3 : Nat) (s : MachineState) :
    (exec (saveTemps64 tool t1 t2 t3) s).mem =
      storeBytes (storeBytes (storeBytes s.mem (regStorageSlot tool 2) 8 (s.regs t1))
        (regStorageSlot tool 3) 8 (s.regs t2)) (regStorageSlot tool 4) 8 (s.regs t3) := by
  simp [saveTemps64, exec_cons, exec_nil, exec1]

theorem exec_entryAddress64_mem (tool : ToolData) (bufferStore bufferPtrStore t2 t3 : Nat)
    (s : MachineState) :
    (exec (entryAddress64 tool bufferStore bufferPtrStore t2 t3) s).mem = s.mem := by
  simp [entryAddress64, exec_cons, exec_nil, exec1, MachineState.setReg]

theorem exec_entryAddress64_t3 (tool : ToolData) (bufferStore bufferPtrStore t2 t3 : Nat)
    (h23 : t2 ≠ t3) (s : MachineState) :
    (exec (entryAddress64 tool bufferStore bufferPtrStore t2 t3) s).regs t3 =
      (loadBytes s.mem (add64 tool.instDataAddress bufferPtrStore) 8 * 16 % U64) / 16 := by
  have h32 : t3 ≠ t2 := fun h => h23 h.symm
  simp [entryAddress64, exec_cons, exec_nil, exec1, MachineState.setReg, h23, h32,
    logBase2_Size__BufferEntry]

theorem exec_entryAddress64_t2 (tool : ToolData) (bufferStore bufferPtrStore t2 t3 : Nat)
    (h23 : t2 ≠ t3) (s : MachineState) :
    (exec (entryAddress64 tool bufferStore bufferPtrStore t2 t3) s).regs t2 =
      entryAddressIn tool bufferStore bufferPtrStore s := by
  have h32 : t3 ≠ t2 := fun h => h23 h.symm
  simp [entryAddress64, exec_cons, exec_nil, exec1, MachineState.setReg, h23, h32,
    logBase2_Size__BufferEntry, entryAddressIn, add64]

theorem exec_incPointer64 (tool : ToolData) (bufferPtrStore bufferSize t3 : Nat)
    (s : MachineState) :
    (exec (incPointer64 tool bufferPtrStore bufferSize t3) s).mem =
        storeBytes s.mem (add64 tool.instDataAddress bufferPtrStore) 8 (add64 (s.regs t3) 1) ∧
    (exec (incPointer64 tool bufferPtrStore bufferSize t3) s).compared =
        some (add64 (s.regs t3) 1, bufferSize) ∧
    (exec (incPointer64 tool bufferPtrStore bufferSize t3) s).regs t3 = add64 (s.regs t3) 1 := by
  simp [incPointer64, exec_cons, exec_nil, exec1, MachineState.setReg]

theorem exec_restoreTemps64 (tool : ToolData) (t1 t2 t3 : Nat) (s : MachineState) :
    (exec (restoreTemps64 tool t1 t2 t3) s).mem = s.mem ∧
    (exec (restoreTemps64 tool t1 t2 t3) s).compared = s.compared ∧
    ∀ r, (exec (restoreTemps64 tool t1 t2 t3) s).regs r =
      if r = t1 then loadBytes s.mem (regStorageSlot tool 2) 8
      else if r = t2 then loadBytes s.mem (regStorageSlot tool 3) 8
      else if r = t3 then loadBytes s.mem (regStorageSlot tool 4) 8
      else s.regs r := by
  simp [restoreTemps64, exec_cons, exec_nil, exec1, MachineState.setReg]

/-- C21 (amended): for every cursor value `c < 2^32` held in `tempReg3`, the
shift pair emitted by the precursor (shift left by 4, the add of `tempReg3` to
`tempReg2`, shift right by 4) leaves `tempReg3` equal to `c` itself in the
64-bit path, and equal to `c mod 2^28` in the 32-bit path; in the 64-bit path
the result is `c mod BUFFER_ENTRIES` exactly when `c < BUFFER_ENTRIES`. -/
theorem shift_pair_keeps_cursor (tool : ToolData) (bufferStore bufferPtrStore t1 t2 t3 : Nat)
    (s : MachineState) (h23 : t2 ≠ t3) (hc : s.regs t3 < U32) :
    (entryAddress64 tool bufferStore bufferPtrStore t2 t3).drop 2 =
      [Inst64.generateShiftLeftLogical 4 t3, Inst64.generateRegAddReg2OpForm t3 t2,
        Inst64.generateShiftRightLogical 4 t3] ∧
    (exec ((entryAddress64 tool bufferStore bufferPtrStore t2 t3).drop 2) s).regs t3 =
      s.regs t3 ∧
    ((exec ((entryAddress64 tool bufferStore bufferPtrStore t2 t3).drop 2) s).regs t3 =
      s.regs t3 % BUFFER_ENTRIES ↔ s.regs t3 < BUFFER_ENTRIES) ∧
    ((fillEntry32 tool bufferStore bufferPtrStore t1 t2 t3).drop 2).take 3 =
      [Inst32.generateShiftLeftLogical 4 t3, Inst32.generateRegAddReg2OpForm t3 t2,
        Inst32.generateShiftRightLogical 4 t3] ∧
    ((((fillEntry32 tool bufferStore bufferPtrStore t1 t2 t3).drop 2).take 3).foldl exec32
      s).regs t3 = s.regs t3 % 2 ^ 28 := by
  have h32 : t3 ≠ t2 := fun h => h23 h.symm
  have e64 : (exec ((entryAddress64 tool bufferStore bufferPtrStore t2 t3).drop 2) s).regs t3 =
      s.regs t3 := by
    simp [entryAddress64, exec_cons, exec_nil, exec1, MachineState.setReg, h23, h32,
      logBase2_Size__BufferEntry]
    unfold U32 at hc
    unfold U64
    omega
  refine ⟨rfl, e64, ?_, rfl, ?_⟩
  · rw [e64]
    unfold BUFFER_ENTRIES
    omega
  · simp [fillEntry32, exec32, MachineState.setReg, h23, h32, logBase2_Size__BufferEntry]
    unfold U32 at hc ⊢
    omega

/-- Witness for `shift_pair_keeps_cursor`: temp registers 15, 14, 13 and the
cursor value 65536 in register 13. -/
theorem shift_pair_keeps_cursor_witness :
    (entryAddress64 exampleTool 0 0x100000 14 13).drop 2 =
      [Inst64.generateShiftLeftLogical 4 13, Inst64.generateRegAddReg2OpForm 13 14,
        Inst64.generateShiftRightLogical 4 13] ∧
    (exec ((entryAddress64 exampleTool 0 0x100000 14 13).drop 2) cursor65536State).regs 13 =
      cursor65536State.regs 13 ∧
    ((exec ((entryAddress64 exampleTool 0 0x100000 14 13).drop 2) cursor65536State).regs 13 =
      cursor65536State.regs 13 % BUFFER_ENTRIES ↔ cursor65536State.regs 13 < BUFFER_ENTRIES) ∧
    ((fillEntry32 exampleTool 0 0x100000 15 14 13).drop 2).take 3 =
      [Inst32.generateShiftLeftLogical 4 13, Inst32.generateRegAddReg2OpForm 13 14,
        Inst32.generateShiftRightLogical 4 13] ∧
    ((((fillEntry32 exampleTool 0 0x100000 15 14 13).drop 2).take 3).foldl exec32
      cursor65536State).regs 13 = cursor65536State.regs 13 % 2 ^ 28 :=
  shift_pair_keeps_cursor exampleTool 0 0x100000 15 14 13 cursor65536State (by decide)
    (by decide)

/-- C21 as stated fails: with the cursor value 65536 in `tempReg3` (register
13) the shift pair of the 64-bit path leaves 65536 in it, and so does the
shift pair of the 32-bit path, while `65536 mod BUFFER_ENTRIES` is 0. -/
theorem shift_pair_counterexample :
    cursor65536State.regs 13 = 65536 ∧
    (exec ((entryAddress64 exampleTool 0 0x100000 14 13).drop 2) cursor65536State).regs 13 =
      65536 ∧
    ((((fillEntry32 exampleTool 0 0x100000 15 14 13).drop 2).take 3).foldl exec32
      cursor65536State).regs 13 = 65536 ∧
    65536 % BUFFER_ENTRIES = 0 := by
  decide

theorem signed64_of_lt (x : Nat) (h : x < 2 ^ 63) : signed64 x = (x : Int) := by
  have hx : x % U64 = x := Nat.mod_eq_of_lt (by unfold U64; omega)
  unfold signed64
  rw [hx, if_pos h]
  exact_mod_cast hx

theorem regStorageSlot_eq (tool : ToolData) (k : Nat) (hk : k * 8 < 40)
    (hR : add64 tool.instDataAddress tool.regStorageOffset + 40 ≤ U64) :
    regStorageSlot tool k = add64 tool.instDataAddress tool.regStorageOffset + k * 8 :=
  add64_of_lt _ _ (by omega)

/-- The state in which the cursor is incremented: cursor value, flags and
memory after the spills, the address calculation, the entry stores and the
cursor update, for a cursor slot that the spill slots do not overlap. -/
theorem exec_upto_incPointer64 (tool : ToolData) (instruction : MemoryInstruction)
    (method : FlagsProtectionMethods)
    (baseReg lValue indexReg bufferStore bufferPtrStore blockId memopId bufferSize : Nat)
    (t1 t2 t3 : Nat) (h13 : t1 ≠ t3) (h23 : t2 ≠ t3)
    (hR : add64 tool.instDataAddress tool.regStorageOffset + 40 ≤ U64)
    (hP : add64 tool.instDataAddress bufferPtrStore + 8 ≤
        add64 tool.instDataAddress tool.regStorageOffset + 16 ∨
      add64 tool.instDataAddress tool.regStorageOffset + 40 ≤
        add64 tool.instDataAddress bufferPtrStore)
    (s : MachineState) :
    (exec (saveTemps64 tool t1 t2 t3 ++
        addressCalc64 tool instruction method baseReg lValue indexReg t1 t2 ++
        entryAddress64 tool bufferStore bufferPtrStore t2 t3 ++
        fillEntry64 blockId memopId t1 t2 ++
        incPointer64 tool bufferPtrStore bufferSize t3) s).compared =
      some (add64 ((loadBytes s.mem (add64 tool.instDataAddress bufferPtrStore) 8 * 16 % U64)
        / 16) 1, bufferSize) ∧
    loadBytes (exec (saveTemps64 tool t1 t2 t3 ++
        addressCalc64 tool instruction method baseReg lValue indexReg t1 t2 ++
        entryAddress64 tool bufferStore bufferPtrStore t2 t3 ++
        fillEntry64 blockId memopId t1 t2 ++
        incPointer64 tool bufferPtrStore bufferSize t3) s).mem
        (add64 tool.instDataAddress bufferPtrStore) 8 =
      add64 ((loadBytes s.mem (add64 tool.instDataAddress bufferPtrStore) 8 * 16 % U64)
        / 16) 1 := by
  have hw := addressCalc64_writes tool instruction method baseReg lValue indexReg t1 t2
  have s2 := regStorageSlot_eq tool 2 (by omega) hR
  have s3 := regStorageSlot_eq tool 3 (by omega) hR
  have s4 := regStorageSlot_eq tool 4 (by omega) hR
  -- the cursor as the entry-address block reads it
  have hcur : loadBytes (exec (addressCalc64 tool instruction method baseReg lValue indexReg
      t1 t2) (exec (saveTemps64 tool t1 t2 t3) s)).mem
      (add64 tool.instDataAddress bufferPtrStore) 8 =
      loadBytes s.mem (add64 tool.instDataAddress bufferPtrStore) 8 := by
    rw [exec_mem_frame _ _ (fun x hx => (hw x hx).1), exec_saveTemps64_mem, s2, s3, s4,
      loadBytes_storeBytes_disjoint _ _ _ _ _ _ (by omega),
      loadBytes_storeBytes_disjoint _ _ _ _ _ _ (by omega),
      loadBytes_storeBytes_disjoint _ _ _ _ _ _ (by omega)]
  have hfill : ∀ x ∈ fillEntry64 blockId memopId t1 t2, x.writesReg ≠ some t3 := by
    intro x hx
    simp only [fillEntry64, List.mem_cons, List.mem_singleton, List.not_mem_nil,
      or_false] at hx
    rcases hx with rfl | rfl | rfl | rfl | rfl <;>
      simp [Inst64.writesReg, h13]
  have ht3 : (exec (fillEntry64 blockId memopId t1 t2)
      (exec (entryAddress64 tool bufferStore bufferPtrStore t2 t3)
        (exec (addressCalc64 tool instruction method baseReg lValue indexReg t1 t2)
          (exec (saveTemps64 tool t1 t2 t3) s)))).regs t3 =
      (loadBytes s.mem (add64 tool.instDataAddress bufferPtrStore) 8 * 16 % U64) / 16 := by
    rw [exec_regs_frame _ _ _ hfill, exec_entryAddress64_t3 _ _ _ _ _ h23, hcur]
  obtain ⟨im, ic, _⟩ := exec_incPointer64 tool bufferPtrStore bufferSize t3
    (exec (fillEntry64 blockId memopId t1 t2)
      (exec (entryAddress64 tool bufferStore bufferPtrStore t2 t3)
        (exec (addressCalc64 tool instruction method baseReg lValue indexReg t1 t2)
          (exec (saveTemps64 tool t1 t2 t3) s))))
  simp only [exec_append]
  rw [ic, im, ht3, loadBytes_storeBytes_same]
  refine ⟨rfl, ?_⟩
  apply Nat.mod_eq_of_lt
  unfold add64 U64
  omega

/-- C26: for a reserved-data layout in which the register storage does not
wrap around the address space and the cursor slot does not overlap the three
spill slots, and a 32-bit `bufferSize`: the precursor ends with the
conditional jump whose offset is `Size__64_bit_inst_function_call_support`;
executed from a state whose cursor slot holds a 32-bit value `c`, it leaves
`c + 1` in the cursor slot and reaches the jump with the flags of the
comparison of `c + 1` with `bufferSize`, so the jump is taken (the tool call
skipped) exactly when `c + 1 < bufferSize`.  Consequently, with
`bufferSize = BUFFER_ENTRIES` and a cursor of 0, after `n < 65536` executions
the cursor is `n`, and execution `n + 1` takes the jump exactly when
`n + 1 < 65536`: the first 65535 skip the call and the 65536th falls
through. -/
theorem cursor_update_and_jump (tool : ToolData) (instruction : MemoryInstruction)
    (bufferStore bufferPtrStore blockId memopId bufferSize : Nat)
    (method : FlagsProtectionMethods)
    (hgen : (generateBufferedAddressCalculation64 tool instruction bufferStore bufferPtrStore
      blockId memopId bufferSize method).isSome = true)
    (hR : add64 tool.instDataAddress tool.regStorageOffset + 40 ≤ U64)
    (hP : add64 tool.instDataAddress bufferPtrStore + 8 ≤
        add64 tool.instDataAddress tool.regStorageOffset + 16 ∨
      add64 tool.instDataAddress tool.regStorageOffset + 40 ≤
        add64 tool.instDataAddress bufferPtrStore)
    (hb : bufferSize < U32) :
    ∃ pre,
      generateBufferedAddressCalculation64 tool instruction bufferStore bufferPtrStore
          blockId memopId bufferSize method =
        some (pre ++ [Inst64.generateBranchJL tool.Size__64_bit_inst_function_call_support]) ∧
      (∀ s : MachineState,
        loadBytes s.mem (add64 tool.instDataAddress bufferPtrStore) 8 < U32 →
        loadBytes (exec (pre ++
            [Inst64.generateBranchJL tool.Size__64_bit_inst_function_call_support]) s).mem
            (add64 tool.instDataAddress bufferPtrStore) 8 =
          loadBytes s.mem (add64 tool.instDataAddress bufferPtrStore) 8 + 1 ∧
        (exec pre s).compared =
          some (loadBytes s.mem (add64 tool.instDataAddress bufferPtrStore) 8 + 1,
            bufferSize) ∧
        (branchJLTaken (exec pre s) = true ↔
          loadBytes s.mem (add64 tool.instDataAddress bufferPtrStore) 8 + 1 < bufferSize)) ∧
      (bufferSize = BUFFER_ENTRIES → ∀ s0 : MachineState,
        loadBytes s0.mem (add64 tool.instDataAddress bufferPtrStore) 8 = 0 →
        ∀ n, n < BUFFER_ENTRIES →
          loadBytes ((exec (pre ++
              [Inst64.generateBranchJL tool.Size__64_bit_inst_function_call_support]))^[n]
              s0).mem (add64 tool.instDataAddress bufferPtrStore) 8 = n ∧
          (branchJLTaken (exec pre ((exec (pre ++
              [Inst64.generateBranchJL tool.Size__64_bit_inst_function_call_support]))^[n]
              s0)) = true ↔ n + 1 < BUFFER_ENTRIES)) := by
  obtain ⟨insts, hi⟩ := Option.isSome_iff_exists.mp hgen
  obtain ⟨t1, t2, t3, baseReg, lValue, indexReg, hs, _, _, heq⟩ :=
    generate64_inv tool instruction bufferStore bufferPtrStore blockId memopId bufferSize
      method insts hi
  obtain ⟨_, _, _, _, h13, h23⟩ :=
    selectTempRegs_spec X86_64BIT_GPRS (by decide) instruction t1 t2 t3 hs
  have hstep : ∀ s : MachineState,
      loadBytes s.mem (add64 tool.instDataAddress bufferPtrStore) 8 < U32 →
      loadBytes (exec (saveTemps64 tool t1 t2 t3 ++
          addressCalc64 tool instruction method baseReg lValue indexReg t1 t2 ++
          entryAddress64 tool bufferStore bufferPtrStore t2 t3 ++
          fillEntry64 blockId memopId t1 t2 ++
          incPointer64 tool bufferPtrStore bufferSize t3 ++
          restoreTemps64 tool t1 t2 t3 ++
          [Inst64.generateBranchJL tool.Size__64_bit_inst_function_call_support]) s).mem
          (add64 tool.instDataAddress bufferPtrStore) 8 =
        loadBytes s.mem (add64 tool.instDataAddress bufferPtrStore) 8 + 1 ∧
      (exec (saveTemps64 tool t1 t2 t3 ++
          addressCalc64 tool instruction method baseReg lValue indexReg t1 t2 ++
          entryAddress64 tool bufferStore bufferPtrStore t2 t3 ++
          fillEntry64 blockId memopId t1 t2 ++
          incPointer64 tool bufferPtrStore bufferSize t3 ++
          restoreTemps64 tool t1 t2 t3) s).compared =
        some (loadBytes s.mem (add64 tool.instDataAddress bufferPtrStore) 8 + 1,
          bufferSize) := by
    intro s hc
    obtain ⟨hcmp, hmem⟩ := exec_upto_incPointer64 tool instruction method baseReg lValue
      indexReg bufferStore bufferPtrStore blockId memopId bufferSize t1 t2 t3 h13 h23 hR hP s
    have hval : ∀ c, c < U32 → add64 (c * 16 % U64 / 16) 1 = c + 1 := by
      intro c hc
      unfold add64 U64
      unfold U32 at hc
      omega
    rw [hval _ hc] at hcmp hmem
    constructor
    · rw [exec_append, exec_cons, exec_nil]
      simp only [exec1]
      rw [exec_append, (exec_restoreTemps64 tool t1 t2 t3 _).1]
      exact hmem
    · rw [exec_append, (exec_restoreTemps64 tool t1 t2 t3 _).2.1]
      exact hcmp
  have htaken : ∀ s : MachineState,
      loadBytes s.mem (add64 tool.instDataAddress bufferPtrStore) 8 < U32 →
      (branchJLTaken (exec (saveTemps64 tool t1 t2 t3 ++
          addressCalc64 tool instruction method baseReg lValue indexReg t1 t2 ++
          entryAddress64 tool bufferStore bufferPtrStore t2 t3 ++
          fillEntry64 blockId memopId t1 t2 ++
          incPointer64 tool bufferPtrStore bufferSize t3 ++
          restoreTemps64 tool t1 t2 t3) s) = true ↔
        loadBytes s.mem (add64 tool.instDataAddress bufferPtrStore) 8 + 1 < bufferSize) := by
    intro s hc
    unfold branchJLTaken
    rw [(hstep s hc).2]
    simp only [decide_eq_true_eq]
    rw [signed64_of_lt _ (by unfold U32 at hc; omega),
      signed64_of_lt _ (by unfold U32 at hb; omega)]
    exact Int.ofNat_lt
  refine ⟨_, by rw [hi, heq], fun s hc => ⟨(hstep s hc).1, (hstep s hc).2, htaken s hc⟩, ?_⟩
  intro hbs s0 h0 n hn
  have hiter : ∀ m, m ≤ BUFFER_ENTRIES →
      loadBytes ((exec (saveTemps64 tool t1 t2 t3 ++
          addressCalc64 tool instruction method baseReg lValue indexReg t1 t2 ++
          entryAddress64 tool bufferStore bufferPtrStore t2 t3 ++
          fillEntry64 blockId memopId t1 t2 ++
          incPointer64 tool bufferPtrStore bufferSize t3 ++
          restoreTemps64 tool t1 t2 t3 ++
          [Inst64.generateBranchJL tool.Size__64_bit_inst_function_call_support]))^[m]
          s0).mem (add64 tool.instDataAddress bufferPtrStore) 8 = m := by
    intro m
    induction m with
    | zero => intro _; exact h0
    | succ m ih =>
      intro hm
      have ihm := ih (by omega)
      rw [Function.iterate_succ_apply', (hstep _ (by
        rw [ihm]
        unfold BUFFER_ENTRIES at hm
        unfold U32
        omega)).1, ihm]
  have hn' := hiter n (by omega)
  refine ⟨hn', ?_⟩
  rw [htaken _ (by
    rw [hn']
    unfold BUFFER_ENTRIES at hn
    unfold U32
    omega), hn', hbs]

/-- Witness for `cursor_update_and_jump`: `mov rax, [rbx + rcx*4 + 0x10]` with
the buffer at offset 0, the cursor at offset `0x100000` and
`bufferSize = BUFFER_ENTRIES`. -/
theorem cursor_update_and_jump_witness :
    ∃ pre,
      generateBufferedAddressCalculation64 exampleTool exampleMov 0 0x100000 7 9
          BUFFER_ENTRIES .FlagsProtectionMethod_full =
        some (pre ++
          [Inst64.generateBranchJL exampleTool.Size__64_bit_inst_function_call_support]) ∧
      (∀ s : MachineState,
        loadBytes s.mem (add64 exampleTool.instDataAddress 0x100000) 8 < U32 →
        loadBytes (exec (pre ++
            [Inst64.generateBranchJL exampleTool.Size__64_bit_inst_function_call_support])
            s).mem (add64 exampleTool.instDataAddress 0x100000) 8 =
          loadBytes s.mem (add64 exampleTool.instDataAddress 0x100000) 8 + 1 ∧
        (exec pre s).compared =
          some (loadBytes s.mem (add64 exampleTool.instDataAddress 0x100000) 8 + 1,
            BUFFER_ENTRIES) ∧
        (branchJLTaken (exec pre s) = true ↔
          loadBytes s.mem (add64 exampleTool.instDataAddress 0x100000) 8 + 1 <
            BUFFER_ENTRIES)) ∧
      (BUFFER_ENTRIES = BUFFER_ENTRIES → ∀ s0 : MachineState,
        loadBytes s0.mem (add64 exampleTool.instDataAddress 0x100000) 8 = 0 →
        ∀ n, n < BUFFER_ENTRIES →
          loadBytes ((exec (pre ++
              [Inst64.generateBranchJL exampleTool.Size__64_bit_inst_function_call_support]))^[n]
              s0).mem (add64 exampleTool.instDataAddress 0x100000) 8 = n ∧
          (branchJLTaken (exec pre ((exec (pre ++
              [Inst64.generateBranchJL exampleTool.Size__64_bit_inst_function_call_support]))^[n]
              s0)) = true ↔ n + 1 < BUFFER_ENTRIES)) :=
  cursor_update_and_jump exampleTool exampleMov 0 0x100000 7 9 BUFFER_ENTRIES
    .FlagsProtectionMethod_full (by decide) (by decide) (by decide) (by decide)

/-- The memory in which the registers are restored: the spills, then the three
entry stores at the entry address of the start state, then the cursor. -/
theorem exec_upto_incPointer64_mem (tool : ToolData) (instruction : MemoryInstruction)
    (method : FlagsProtectionMethods)
    (baseReg lValue indexReg bufferStore bufferPtrStore blockId memopId bufferSize : Nat)
    (t1 t2 t3 : Nat) (h12 : t1 ≠ t2) (h23 : t2 ≠ t3)
    (hR : add64 tool.instDataAddress tool.regStorageOffset + 40 ≤ U64)
    (hP : add64 tool.instDataAddress bufferPtrStore + 8 ≤
        add64 tool.instDataAddress tool.regStorageOffset + 16 ∨
      add64 tool.instDataAddress tool.regStorageOffset + 40 ≤
        add64 tool.instDataAddress bufferPtrStore)
    (s : MachineState) :
    ∃ v1 v3, (exec (saveTemps64 tool t1 t2 t3 ++
        addressCalc64 tool instruction method baseReg lValue indexReg t1 t2 ++
        entryAddress64 tool bufferStore bufferPtrStore t2 t3 ++
        fillEntry64 blockId memopId t1 t2 ++
        incPointer64 tool bufferPtrStore bufferSize t3) s).mem =
      storeBytes (storeBytes (storeBytes (storeBytes
        (storeBytes (storeBytes (storeBytes s.mem
          (add64 tool.instDataAddress tool.regStorageOffset + 16) 8 (s.regs t1))
          (add64 tool.instDataAddress tool.regStorageOffset + 24) 8 (s.regs t2))
          (add64 tool.instDataAddress tool.regStorageOffset + 32) 8 (s.regs t3))
        (add64 (entryAddressIn tool bufferStore bufferPtrStore s) 8) 8 v1)
        (add64 (entryAddressIn tool bufferStore bufferPtrStore s) 0) 4 (blockId % U64))
        (add64 (entryAddressIn tool bufferStore bufferPtrStore s) 4) 4 (memopId % U64))
        (add64 tool.instDataAddress bufferPtrStore) 8 v3 := by
  have hw := addressCalc64_writes tool instruction method baseReg lValue indexReg t1 t2
  have s2 := regStorageSlot_eq tool 2 (by omega) hR
  have s3 := regStorageSlot_eq tool 3 (by omega) hR
  have s4 := regStorageSlot_eq tool 4 (by omega) hR
  have hmem2 : (exec (addressCalc64 tool instruction method baseReg lValue indexReg
      t1 t2) (exec (saveTemps64 tool t1 t2 t3) s)).mem =
      storeBytes (storeBytes (storeBytes s.mem
          (add64 tool.instDataAddress tool.regStorageOffset + 16) 8 (s.regs t1))
          (add64 tool.instDataAddress tool.regStorageOffset + 24) 8 (s.regs t2))
          (add64 tool.instDataAddress tool.regStorageOffset + 32) 8 (s.regs t3) := by
    rw [exec_mem_frame _ _ (fun x hx => (hw x hx).1), exec_saveTemps64_mem, s2, s3, s4]
  have hE : entryAddressIn tool bufferStore bufferPtrStore
      (exec (addressCalc64 tool instruction method baseReg lValue indexReg t1 t2)
        (exec (saveTemps64 tool t1 t2 t3) s)) =
      entryAddressIn tool bufferStore bufferPtrStore s := by
    unfold entryAddressIn
    rw [hmem2, loadBytes_storeBytes_disjoint _ _ _ _ _ _ (by omega),
      loadBytes_storeBytes_disjoint _ _ _ _ _ _ (by omega),
      loadBytes_storeBytes_disjoint _ _ _ _ _ _ (by omega)]
  refine ⟨(exec (entryAddress64 tool bufferStore bufferPtrStore t2 t3)
      (exec (addressCalc64 tool instruction method baseReg lValue indexReg t1 t2)
        (exec (saveTemps64 tool t1 t2 t3) s))).regs t1,
    add64 ((exec (fillEntry64 blockId memopId t1 t2)
      (exec (entryAddress64 tool bufferStore bufferPtrStore t2 t3)
        (exec (addressCalc64 tool instruction method baseReg lValue indexReg t1 t2)
          (exec (saveTemps64 tool t1 t2 t3) s)))).regs t3) 1, ?_⟩
  simp only [exec_append]
  rw [(exec_incPointer64 tool bufferPtrStore bufferSize t3 _).1,
    exec_fillEntry64_mem blockId memopId t1 t2 h12, exec_entryAddress64_mem,
    exec_entryAddress64_t2 _ _ _ _ _ h23, hE, hmem2]

theorem precursor64_writes (tool : ToolData) (instruction : MemoryInstruction)
    (method : FlagsProtectionMethods)
    (baseReg lValue indexReg bufferStore bufferPtrStore blockId memopId bufferSize : Nat)
    (t1 t2 t3 : Nat) :
    ∀ x ∈ addressCalc64 tool instruction method baseReg lValue indexReg t1 t2 ++
        entryAddress64 tool bufferStore bufferPtrStore t2 t3 ++
        fillEntry64 blockId memopId t1 t2 ++
        incPointer64 tool bufferPtrStore bufferSize t3,
      x.writesReg = none ∨ x.writesReg = some t1 ∨ x.writesReg = some t2 ∨
        x.writesReg = some t3 := by
  have hw := addressCalc64_writes tool instruction method baseReg lValue indexReg t1 t2
  intro x hx
  simp only [List.mem_append] at hx
  rcases hx with ((hx | hx) | hx) | hx
  · rcases (hw x hx).2 with h | h
    · exact Or.inr (Or.inl h)
    · exact Or.inr (Or.inr (Or.inl h))
  · simp only [entryAddress64, List.mem_cons, List.mem_singleton, List.not_mem_nil,
      or_false] at hx
    rcases hx with rfl | rfl | rfl | rfl | rfl <;> simp [Inst64.writesReg]
  · simp only [fillEntry64, List.mem_cons, List.mem_singleton, List.not_mem_nil,
      or_false] at hx
    rcases hx with rfl | rfl | rfl | rfl | rfl <;> simp [Inst64.writesReg]
  · simp only [incPointer64, List.mem_cons, List.mem_singleton, List.not_mem_nil,
      or_false] at hx
    rcases hx with rfl | rfl | rfl <;> simp [Inst64.writesReg]

/-- C25 (amended): the 64-bit precursor is the three spills of `tempReg1`,
`tempReg2`, `tempReg3` to the slots `regStorage + 16`, `+ 24`, `+ 32`, then a
body that writes no general-purpose register other than these three, then the
three reloads from the same slots in the order 3, 2, 1, then the jump.  Hence
executing it leaves every general-purpose register with the value it had on
entry, from any state in which the three temp registers hold 64-bit values,
the register storage does not wrap around the address space, and neither the
cursor slot nor the 16-byte buffer entry that is filled overlaps the three
spill slots. -/
theorem precursor64_preserves_registers (tool : ToolData) (instruction : MemoryInstruction)
    (bufferStore bufferPtrStore blockId memopId bufferSize : Nat)
    (method : FlagsProtectionMethods) (t1 t2 t3 : Nat)
    (hsel : selectTempRegs X86_64BIT_GPRS instruction = some (t1, t2, t3))
    (hgen : (generateBufferedAddressCalculation64 tool instruction bufferStore bufferPtrStore
      blockId memopId bufferSize method).isSome = true) :
    ∃ body,
      generateBufferedAddressCalculation64 tool instruction bufferStore bufferPtrStore
          blockId memopId bufferSize method =
        some ([Inst64.generateMoveRegToMem t1
              (add64 (add64 tool.instDataAddress tool.regStorageOffset) 16),
            Inst64.generateMoveRegToMem t2
              (add64 (add64 tool.instDataAddress tool.regStorageOffset) 24),
            Inst64.generateMoveRegToMem t3
              (add64 (add64 tool.instDataAddress tool.regStorageOffset) 32)] ++ body ++
          [Inst64.generateMoveMemToReg
              (add64 (add64 tool.instDataAddress tool.regStorageOffset) 32) t3,
            Inst64.generateMoveMemToReg
              (add64 (add64 tool.instDataAddress tool.regStorageOffset) 24) t2,
            Inst64.generateMoveMemToReg
              (add64 (add64 tool.instDataAddress tool.regStorageOffset) 16) t1] ++
          [Inst64.generateBranchJL tool.Size__64_bit_inst_function_call_support]) ∧
      (∀ x ∈ body, x.writesReg = none ∨ x.writesReg = some t1 ∨ x.writesReg = some t2 ∨
        x.writesReg = some t3) ∧
      ∀ s : MachineState,
        s.regs t1 < U64 → s.regs t2 < U64 → s.regs t3 < U64 →
        add64 tool.instDataAddress tool.regStorageOffset + 40 ≤ U64 →
        (add64 tool.instDataAddress bufferPtrStore + 8 ≤
            add64 tool.instDataAddress tool.regStorageOffset + 16 ∨
          add64 tool.instDataAddress tool.regStorageOffset + 40 ≤
            add64 tool.instDataAddress bufferPtrStore) →
        entryAddressIn tool bufferStore bufferPtrStore s + 16 ≤ U64 →
        (entryAddressIn tool bufferStore bufferPtrStore s + 16 ≤
            add64 tool.instDataAddress tool.regStorageOffset + 16 ∨
          add64 tool.instDataAddress tool.regStorageOffset + 40 ≤
            entryAddressIn tool bufferStore bufferPtrStore s) →
        ∀ r, (exec ([Inst64.generateMoveRegToMem t1
              (add64 (add64 tool.instDataAddress tool.regStorageOffset) 16),
            Inst64.generateMoveRegToMem t2
              (add64 (add64 tool.instDataAddress tool.regStorageOffset) 24),
            Inst64.generateMoveRegToMem t3
              (add64 (add64 tool.instDataAddress tool.regStorageOffset) 32)] ++ body ++
          [Inst64.generateMoveMemToReg
              (add64 (add64 tool.instDataAddress tool.regStorageOffset) 32) t3,
            Inst64.generateMoveMemToReg
              (add64 (add64 tool.instDataAddress tool.regStorageOffset) 24) t2,
            Inst64.generateMoveMemToReg
              (add64 (add64 tool.instDataAddress tool.regStorageOffset) 16) t1] ++
          [Inst64.generateBranchJL tool.Size__64_bit_inst_function_call_support]) s).regs r =
          s.regs r := by
  obtain ⟨insts, hi⟩ := Option.isSome_iff_exists.mp hgen
  obtain ⟨u1, u2, u3, baseReg, lValue, indexReg, hs, _, _, heq⟩ :=
    generate64_inv tool instruction bufferStore bufferPtrStore blockId memopId bufferSize
      method insts hi
  rw [hsel] at hs
  simp only [Option.some.injEq, Prod.mk.injEq] at hs
  obtain ⟨e1, e2, e3⟩ := hs
  subst e1 e2 e3
  obtain ⟨_, _, _, h12, h13, h23⟩ :=
    selectTempRegs_spec X86_64BIT_GPRS (by decide) instruction t1 t2 t3 hsel
  have hsave : saveTemps64 tool t1 t2 t3 = [Inst64.generateMoveRegToMem t1
        (add64 (add64 tool.instDataAddress tool.regStorageOffset) 16),
      Inst64.generateMoveRegToMem t2
        (add64 (add64 tool.instDataAddress tool.regStorageOffset) 24),
      Inst64.generateMoveRegToMem t3
        (add64 (add64 tool.instDataAddress tool.regStorageOffset) 32)] := rfl
  have hrest : restoreTemps64 tool t1 t2 t3 = [Inst64.generateMoveMemToReg
        (add64 (add64 tool.instDataAddress tool.regStorageOffset) 32) t3,
      Inst64.generateMoveMemToReg
        (add64 (add64 tool.instDataAddress tool.regStorageOffset) 24) t2,
      Inst64.generateMoveMemToReg
        (add64 (add64 tool.instDataAddress tool.regStorageOffset) 16) t1] := rfl
  have hbody := precursor64_writes tool instruction method baseReg lValue indexReg bufferStore
    bufferPtrStore blockId memopId bufferSize t1 t2 t3
  refine ⟨addressCalc64 tool instruction method baseReg lValue indexReg t1 t2 ++
      entryAddress64 tool bufferStore bufferPtrStore t2 t3 ++
      fillEntry64 blockId memopId t1 t2 ++
      incPointer64 tool bufferPtrStore bufferSize t3, ?_, hbody, ?_⟩
  · rw [hi, heq, hsave, hrest]
    simp only [List.append_assoc]
  · intro s r1 r2 r3 hR hP hEw hE r
    rw [← hsave, ← hrest]
    have hshape : saveTemps64 tool t1 t2 t3 ++
        (addressCalc64 tool instruction method baseReg lValue indexReg t1 t2 ++
          entryAddress64 tool bufferStore bufferPtrStore t2 t3 ++
          fillEntry64 blockId memopId t1 t2 ++
          incPointer64 tool bufferPtrStore bufferSize t3) ++
        restoreTemps64 tool t1 t2 t3 ++
        [Inst64.generateBranchJL tool.Size__64_bit_inst_function_call_support] =
        (saveTemps64 tool t1 t2 t3 ++
          addressCalc64 tool instruction method baseReg lValue indexReg t1 t2 ++
          entryAddress64 tool bufferStore bufferPtrStore t2 t3 ++
          fillEntry64 blockId memopId t1 t2 ++
          incPointer64 tool bufferPtrStore bufferSize t3) ++
        restoreTemps64 tool t1 t2 t3 ++
        [Inst64.generateBranchJL tool.Size__64_bit_inst_function_call_support] := by
      simp only [List.append_assoc]
    rw [hshape, exec_append, exec_cons, exec_nil]
    simp only [exec1]
    rw [exec_append, (exec_restoreTemps64 tool t1 t2 t3 _).2.2 r]
    obtain ⟨v1, v3, hm⟩ := exec_upto_incPointer64_mem tool instruction method baseReg lValue
      indexReg bufferStore bufferPtrStore blockId memopId bufferSize t1 t2 t3 h12 h23 hR hP s
    rw [hm, regStorageSlot_eq tool 2 (by omega) hR, regStorageSlot_eq tool 3 (by omega) hR,
      regStorageSlot_eq tool 4 (by omega) hR]
    have a8 : add64 (entryAddressIn tool bufferStore bufferPtrStore s) 8 =
        entryAddressIn tool bufferStore bufferPtrStore s + 8 := add64_of_lt _ _ (by omega)
    have a0 : add64 (entryAddressIn tool bufferStore bufferPtrStore s) 0 =
        entryAddressIn tool bufferStore bufferPtrStore s :=
      (add64_of_lt _ _ (by omega)).trans (Nat.add_zero _)
    have a4 : add64 (entryAddressIn tool bufferStore bufferPtrStore s) 4 =
        entryAddressIn tool bufferStore bufferPtrStore s + 4 := add64_of_lt _ _ (by omega)
    rw [a8, a0, a4]
    have hpow : (256 : Nat) ^ 8 = U64 := by unfold U64; norm_num
    by_cases hr1 : r = t1
    · rw [if_pos hr1, hr1]
      rw [loadBytes_storeBytes_disjoint _ _ _ _ _ _ (by omega),
        loadBytes_storeBytes_disjoint _ _ _ _ _ _ (by omega),
        loadBytes_storeBytes_disjoint _ _ _ _ _ _ (by omega),
        loadBytes_storeBytes_disjoint _ _ _ _ _ _ (by omega),
        loadBytes_storeBytes_disjoint _ _ _ _ _ _ (by omega),
        loadBytes_storeBytes_disjoint _ _ _ _ _ _ (by omega),
        loadBytes_storeBytes_same, hpow, Nat.mod_eq_of_lt r1]
    · rw [if_neg hr1]
      by_cases hr2 : r = t2
      · rw [if_pos hr2, hr2]
        rw [loadBytes_storeBytes_disjoint _ _ _ _ _ _ (by omega),
          loadBytes_storeBytes_disjoint _ _ _ _ _ _ (by omega),
          loadBytes_storeBytes_disjoint _ _ _ _ _ _ (by omega),
          loadBytes_storeBytes_disjoint _ _ _ _ _ _ (by omega),
          loadBytes_storeBytes_disjoint _ _ _ _ _ _ (by omega),
          loadBytes_storeBytes_same, hpow, Nat.mod_eq_of_lt r2]
      · rw [if_neg hr2]
        by_cases hr3 : r = t3
        · rw [if_pos hr3, hr3]
          rw [loadBytes_storeBytes_disjoint _ _ _ _ _ _ (by omega),
            loadBytes_storeBytes_disjoint _ _ _ _ _ _ (by omega),
            loadBytes_storeBytes_disjoint _ _ _ _ _ _ (by omega),
            loadBytes_storeBytes_disjoint _ _ _ _ _ _ (by omega),
            loadBytes_storeBytes_same, hpow, Nat.mod_eq_of_lt r3]
        · rw [if_neg hr3]
          have hall : ∀ x ∈ saveTemps64 tool t1 t2 t3 ++
              addressCalc64 tool instruction method baseReg lValue indexReg t1 t2 ++
              entryAddress64 tool bufferStore bufferPtrStore t2 t3 ++
              fillEntry64 blockId memopId t1 t2 ++
              incPointer64 tool bufferPtrStore bufferSize t3, x.writesReg ≠ some r := by
            intro x hx
            simp only [List.append_assoc, List.mem_append] at hx
            rcases hx with hx | hx
            · simp only [saveTemps64, List.mem_cons, List.mem_singleton, List.not_mem_nil,
                or_false] at hx
              rcases hx with rfl | rfl | rfl <;> simp [Inst64.writesReg]
            · have hx2 : x ∈ addressCalc64 tool instruction method baseReg lValue indexReg
                  t1 t2 ++ entryAddress64 tool bufferStore bufferPtrStore t2 t3 ++
                  fillEntry64 blockId memopId t1 t2 ++
                  incPointer64 tool bufferPtrStore bufferSize t3 := by
                simp only [List.append_assoc, List.mem_append]
                exact hx
              rcases hbody x hx2 with h | h | h | h <;> rw [h] <;> simp
              · exact fun e => hr1 e.symm
              · exact fun e => hr2 e.symm
              · exact fun e => hr3 e.symm
          exact exec_regs_frame _ r s hall

/-- Witness for `precursor64_preserves_registers`:
`mov rax, [rbx + rcx*4 + 0x10]` with the buffer at offset 0, the cursor at
offset `0x100000` and the register storage at offset `0x200000`. -/
theorem precursor64_preserves_registers_witness :
    ∃ body,
      generateBufferedAddressCalculation64 exampleToolFarStorage exampleMov 0 0x100000
          7 9 BUFFER_ENTRIES .FlagsProtectionMethod_full =
        some ([Inst64.generateMoveRegToMem 15
              (add64 (add64 exampleToolFarStorage.instDataAddress exampleToolFarStorage.regStorageOffset) 16),
            Inst64.generateMoveRegToMem 14
              (add64 (add64 exampleToolFarStorage.instDataAddress exampleToolFarStorage.regStorageOffset) 24),
            Inst64.generateMoveRegToMem 13
              (add64 (add64 exampleToolFarStorage.instDataAddress exampleToolFarStorage.regStorageOffset) 32)] ++ body ++
          [Inst64.generateMoveMemToReg
              (add64 (add64 exampleToolFarStorage.instDataAddress exampleToolFarStorage.regStorageOffset) 32) 13,
            Inst64.generateMoveMemToReg
              (add64 (add64 exampleToolFarStorage.instDataAddress exampleToolFarStorage.regStorageOffset) 24) 14,
            Inst64.generateMoveMemToReg
              (add64 (add64 exampleToolFarStorage.instDataAddress exampleToolFarStorage.regStorageOffset) 16) 15] ++
          [Inst64.generateBranchJL exampleToolFarStorage.Size__64_bit_inst_function_call_support]) ∧
      (∀ x ∈ body, x.writesReg = none ∨ x.writesReg = some 15 ∨ x.writesReg = some 14 ∨
        x.writesReg = some 13) ∧
      ∀ s : MachineState,
        s.regs 15 < U64 → s.regs 14 < U64 → s.regs 13 < U64 →
        add64 exampleToolFarStorage.instDataAddress exampleToolFarStorage.regStorageOffset + 40 ≤ U64 →
        (add64 exampleToolFarStorage.instDataAddress 0x100000 + 8 ≤
            add64 exampleToolFarStorage.instDataAddress exampleToolFarStorage.regStorageOffset + 16 ∨
          add64 exampleToolFarStorage.instDataAddress exampleToolFarStorage.regStorageOffset + 40 ≤
            add64 exampleToolFarStorage.instDataAddress 0x100000) →
        entryAddressIn exampleToolFarStorage 0 0x100000 s + 16 ≤ U64 →
        (entryAddressIn exampleToolFarStorage 0 0x100000 s + 16 ≤
            add64 exampleToolFarStorage.instDataAddress exampleToolFarStorage.regStorageOffset + 16 ∨
          add64 exampleToolFarStorage.instDataAddress exampleToolFarStorage.regStorageOffset + 40 ≤
            entryAddressIn exampleToolFarStorage 0 0x100000 s) →
        ∀ r, (exec ([Inst64.generateMoveRegToMem 15
              (add64 (add64 exampleToolFarStorage.instDataAddress exampleToolFarStorage.regStorageOffset) 16),
            Inst64.generateMoveRegToMem 14
              (add64 (add64 exampleToolFarStorage.instDataAddress exampleToolFarStorage.regStorageOffset) 24),
            Inst64.generateMoveRegToMem 13
              (add64 (add64 exampleToolFarStorage.instDataAddress exampleToolFarStorage.regStorageOffset) 32)] ++ body ++
          [Inst64.generateMoveMemToReg
              (add64 (add64 exampleToolFarStorage.instDataAddress exampleToolFarStorage.regStorageOffset) 32) 13,
            Inst64.generateMoveMemToReg
              (add64 (add64 exampleToolFarStorage.instDataAddress exampleToolFarStorage.regStorageOffset) 24) 14,
            Inst64.generateMoveMemToReg
              (add64 (add64 exampleToolFarStorage.instDataAddress exampleToolFarStorage.regStorageOffset) 16) 15] ++
          [Inst64.generateBranchJL exampleToolFarStorage.Size__64_bit_inst_function_call_support]) s).regs r =
          s.regs r :=
  precursor64_preserves_registers exampleToolFarStorage exampleMov 0 0x100000 7 9
    BUFFER_ENTRIES .FlagsProtectionMethod_full 15 14 13 (by decide) (by decide)

/-- C25 as stated fails: with the register storage at `0x800000` and the
buffer at `0x600000`, in the state whose cursor holds `0x20001` and whose
registers are all 0 the entry that is filled lies at `0x800010`, on the spill
slots of `tempReg1` and `tempReg2`; the precursor for
`mov rax, [rbx + rcx*4 + 0x10]` then leaves `9 * 2^32 + 7` (the two ids) in
register 15 and `0x10` (the effective address) in register 14. -/
theorem precursor64_clobbers_counterexample :
    selectTempRegs X86_64BIT_GPRS exampleMov = some (15, 14, 13) ∧
    strayCursorState.regs 15 = 0 ∧ strayCursorState.regs 14 = 0 ∧
    entryAddressIn exampleToolFarStorage 0 0x100000 strayCursorState = 0x800010 ∧
    regStorageSlot exampleToolFarStorage 2 = 0x800010 ∧
    (generateBufferedAddressCalculation64 exampleToolFarStorage exampleMov 0 0x100000 7 9
        BUFFER_ENTRIES .FlagsProtectionMethod_full).map
      (fun l => ((exec l strayCursorState).regs 15, (exec l strayCursorState).regs 14)) =
      some (9 * 2 ^ 32 + 7, 0x10) := by
  decide

/-! ## Results on `CacheSimulation::instrument` -/

/-- C27 (amended): `CacheSimulation::instrument` writes the initial value 1,
4 bytes wide, at `dataAddr + bufferStore`, the first word of the buffer, and
at no other place; the cursor offset `buffPtrStore` is handed out afterwards,
`BUFFER_ENTRIES * Size__BufferEntry` bytes further on, so the location the
precursor loads the cursor from and stores it back to
(`dataAddr + buffPtrStore`) is a different location, and, while the offsets
do not wrap around the address space, one that no call of
`initializeReservedData` reaches. -/
theorem instrument_initial_value (tool : ToolData) (used : Nat) (appName : List Char)
    (exposedBlocks bufferSize t2 t3 : Nat) :
    ∃ d, instrumentData tool.instDataAddress used true appName exposedBlocks = some d ∧
      d.initCalls =
        [⟨add64 tool.instDataAddress d.bufferStore, 4, .word32 1⟩,
         ⟨add64 tool.instDataAddress d.commentStore, commentSize appName,
           .chars (commentText appName exposedBlocks)⟩] ∧
      d.bufferStore = used ∧
      d.buffPtrStore = add64 d.bufferStore (BUFFER_ENTRIES * Size__BufferEntry) ∧
      d.commentStore = add64 d.buffPtrStore 8 ∧
      Inst64.generateMoveMemToReg (add64 tool.instDataAddress d.buffPtrStore) t3 ∈
        entryAddress64 tool d.bufferStore d.buffPtrStore t2 t3 ∧
      Inst64.generateMoveRegToMem t3 (add64 tool.instDataAddress d.buffPtrStore) ∈
        incPointer64 tool d.buffPtrStore bufferSize t3 ∧
      add64 tool.instDataAddress d.buffPtrStore ≠ add64 tool.instDataAddress d.bufferStore ∧
      (tool.instDataAddress + used + BUFFER_ENTRIES * Size__BufferEntry + 8 ≤ U64 →
        add64 tool.instDataAddress d.bufferStore + 4 ≤
            add64 tool.instDataAddress d.buffPtrStore ∧
          add64 tool.instDataAddress d.buffPtrStore + 8 ≤
            tool.instDataAddress + used + BUFFER_ENTRIES * Size__BufferEntry + 8 ∧
          (tool.instDataAddress + used + BUFFER_ENTRIES * Size__BufferEntry + 8 < U64 →
            add64 tool.instDataAddress d.commentStore =
              tool.instDataAddress + used + BUFFER_ENTRIES * Size__BufferEntry + 8)) := by
  refine ⟨_, rfl, rfl, rfl, rfl, rfl, ?_, ?_, ?_, ?_⟩
  · simp [entryAddress64]
  · simp [incPointer64]
  · simp only [reserveDataOffset, BUFFER_ENTRIES, Size__BufferEntry]
    unfold add64 U64
    omega
  · intro h
    simp only [reserveDataOffset, BUFFER_ENTRIES, Size__BufferEntry] at h ⊢
    unfold add64
    unfold U64 at h ⊢
    omega

/-- C27 as stated fails: with the reserved data at `0x600000` and nothing
handed out before, the value 1 is written at `0x600000` (offset `bufferStore
= 0`), the comment at `0x700008`, and the cursor of the precursor lies at
`0x600000 + buffPtrStore = 0x700000`, where nothing is written. -/
theorem instrument_initial_value_counterexample :
    (instrumentData 0x600000 0 true ['a', '.', 'o', 'u', 't'] 3).map
      (fun d => (d.bufferStore, d.buffPtrStore,
        d.initCalls.map (fun c => (c.address, c.size, decide (c.data = .word32 1))))) =
      some (0, 0x100000, [(0x600000, 4, true), (0x700008, 28, false)]) ∧
    add64 0x600000 0x100000 = 0x700000 := by
  decide

theorem toDigitsCore_length : ∀ (fuel n k : Nat) (acc : List Char), 1 ≤ k → n < 10 ^ k →
    (Nat.toDigitsCore 10 fuel n acc).length ≤ acc.length + k := by
  intro fuel
  induction fuel with
  | zero =>
    intro n k acc _ _
    simp [Nat.toDigitsCore]
  | succ fuel ih =>
    intro n k acc hk hn
    unfold Nat.toDigitsCore
    simp only
    split_ifs with h0
    · simp only [List.length_cons]
      omega
    · obtain ⟨j, rfl⟩ : ∃ j, k = j + 1 := ⟨k - 1, by omega⟩
      have hj : 1 ≤ j := by
        by_contra hc
        have : j = 0 := by omega
        subst this
        apply h0
        simp only [zero_add, pow_one] at hn
        omega
      have hdiv : n / 10 < 10 ^ j := by
        rw [pow_succ] at hn
        omega
      have := ih (n / 10) j (Nat.digitChar (n % 10) :: acc) hj hdiv
      simp only [List.length_cons] at this
      omega

theorem decimal_length (n : Nat) (h : n < U32) : (decimal n).length ≤ 10 := by
  have := toDigitsCore_length (n + 1) n 10 [] (by decide) (by unfold U32 at h; omega)
  simpa [decimal, Nat.toDigits] using this

theorem verifyBounds_iff (sh : SectionHeader) : ∀ objs : List TextObject,
    verifyBounds sh objs = true ↔
      ∀ o ∈ objs, sh.inRange o.getBaseAddress = true ∧
        (sh.inRange (add64 o.getBaseAddress o.getSizeInBytes) = true ∨
          add64 o.getBaseAddress o.getSizeInBytes = add64 sh.sh_addr sh.sh_size) := by
  intro objs
  induction objs with
  | nil => simp [verifyBounds]
  | cons o rest ih =>
    simp only [verifyBounds, List.mem_cons, forall_eq_or_imp]
    rw [← ih]
    cases h1 : sh.inRange o.getBaseAddress <;>
      cases h2 : sh.inRange (add64 o.getBaseAddress o.getSizeInBytes) <;>
      by_cases h3 : add64 o.getBaseAddress o.getSizeInBytes = add64 sh.sh_addr sh.sh_size <;>
      simp [h3]

theorem verifySorted_iff : ∀ objs : List TextObject,
    verifySorted objs = true ↔
      objs.Chain' (fun a b => a.getBaseAddress ≤ b.getBaseAddress) := by
  intro objs
  induction objs with
  | nil => simp [verifySorted]
  | cons a rest ih =>
    cases rest with
    | nil => simp [verifySorted]
    | cons b rest =>
      rw [List.chain'_cons, ← ih]
      by_cases h : a.getBaseAddress > b.getBaseAddress
      · simp only [verifySorted, h, if_true]
        constructor
        · intro hf; cases hf
        · intro hc; omega
      · simp only [verifySorted, h, if_false]
        constructor
        · intro hv; exact ⟨by omega, hv⟩
        · intro hc; exact hc.2

/-- C32 (amended): for objects whose exit address `base + size` does not wrap
around `2^64`, `TextSection::verify` returns true if and only if the object
list is empty, or every object's base satisfies
`sh_addr ≤ base < sh_addr + sh_size`, every object's exit address satisfies
`sh_addr ≤ base + size ≤ sh_addr + sh_size`, the bases of adjacent objects are
in non-decreasing order, and the first object's base equals `sh_addr`. -/
theorem verify_iff (sh : SectionHeader) (objs : List TextObject)
    (hobj : ∀ o ∈ objs, o.getBaseAddress + o.getSizeInBytes < U64) :
    verify sh objs = true ↔
      objs = [] ∨
        ((∀ o ∈ objs, sh.sh_addr ≤ o.getBaseAddress ∧
            o.getBaseAddress < sh.sh_addr + sh.sh_size) ∧
          (∀ o ∈ objs, sh.sh_addr ≤ o.getBaseAddress + o.getSizeInBytes ∧
            o.getBaseAddress + o.getSizeInBytes ≤ sh.sh_addr + sh.sh_size) ∧
          objs.Chain' (fun a b => a.getBaseAddress ≤ b.getBaseAddress) ∧
          (∀ o, objs.head? = some o → o.getBaseAddress = sh.sh_addr)) := by
  have hb : verifyBounds sh objs = true ↔
      ((∀ o ∈ objs, sh.sh_addr ≤ o.getBaseAddress ∧
          o.getBaseAddress < sh.sh_addr + sh.sh_size) ∧
        (∀ o ∈ objs, sh.sh_addr ≤ o.getBaseAddress + o.getSizeInBytes ∧
          o.getBaseAddress + o.getSizeInBytes ≤ sh.sh_addr + sh.sh_size)) := by
    rw [verifyBounds_iff, ← forall₂_and]
    apply forall₂_congr
    intro o ho
    have hw := hobj o ho
    have he : add64 o.getBaseAddress o.getSizeInBytes =
        o.getBaseAddress + o.getSizeInBytes := add64_of_lt _ _ hw
    rw [he]
    simp only [SectionHeader.inRange, decide_eq_true_eq]
    unfold add64
    unfold U64 at hw ⊢
    omega
  have hf : verifyFirst sh objs = true ↔
      ∀ o, objs.head? = some o → o.getBaseAddress = sh.sh_addr := by
    cases objs with
    | nil => simp [verifyFirst]
    | cons o rest =>
      by_cases h : o.getBaseAddress = sh.sh_addr <;> simp [verifyFirst, h]
  cases hl : objs with
  | nil => simp [verify]
  | cons o rest =>
    rw [← hl]
    have hne : objs ≠ [] := by rw [hl]; simp
    have hlen : objs.length ≠ 0 := by rw [hl]; simp
    have key : (verifyBounds sh objs = true ∧ verifySorted objs = true ∧
        verifyFirst sh objs = true) ↔
        ((∀ o ∈ objs, sh.sh_addr ≤ o.getBaseAddress ∧
            o.getBaseAddress < sh.sh_addr + sh.sh_size) ∧
          (∀ o ∈ objs, sh.sh_addr ≤ o.getBaseAddress + o.getSizeInBytes ∧
            o.getBaseAddress + o.getSizeInBytes ≤ sh.sh_addr + sh.sh_size) ∧
          objs.Chain' (fun a b => a.getBaseAddress ≤ b.getBaseAddress) ∧
          (∀ o, objs.head? = some o → o.getBaseAddress = sh.sh_addr)) := by
      rw [hb, verifySorted_iff, hf, and_assoc]
    rw [← key]
    simp only [hne, false_or]
    unfold verify
    rw [if_pos hlen]
    cases verifyBounds sh objs <;> cases verifySorted objs <;> cases verifyFirst sh objs <;>
      simp

/-- Witness for `verify_iff`: two functions of 16 and 240 bytes tiling the
section of 256 bytes at `0x1000`. -/
theorem verify_iff_witness :
    verify ⟨4096, 256⟩ [TextObject.Function 0 ⟨0, 4096, 16, .function⟩ 4096 16,
        TextObject.Function 1 ⟨1, 4112, 240, .function⟩ 4112 240] = true ↔
      [TextObject.Function 0 ⟨0, 4096, 16, .function⟩ 4096 16,
        TextObject.Function 1 ⟨1, 4112, 240, .function⟩ 4112 240] = [] ∨
        ((∀ o ∈ [TextObject.Function 0 ⟨0, 4096, 16, .function⟩ 4096 16,
            TextObject.Function 1 ⟨1, 4112, 240, .function⟩ 4112 240],
            SectionHeader.sh_addr ⟨4096, 256⟩ ≤ o.getBaseAddress ∧
            o.getBaseAddress <
              SectionHeader.sh_addr ⟨4096, 256⟩ + SectionHeader.sh_size ⟨4096, 256⟩) ∧
          (∀ o ∈ [TextObject.Function 0 ⟨0, 4096, 16, .function⟩ 4096 16,
            TextObject.Function 1 ⟨1, 4112, 240, .function⟩ 4112 240],
            SectionHeader.sh_addr ⟨4096, 256⟩ ≤ o.getBaseAddress + o.getSizeInBytes ∧
            o.getBaseAddress + o.getSizeInBytes ≤
              SectionHeader.sh_addr ⟨4096, 256⟩ + SectionHeader.sh_size ⟨4096, 256⟩) ∧
          [TextObject.Function 0 ⟨0, 4096, 16, .function⟩ 4096 16,
            TextObject.Function 1 ⟨1, 4112, 240, .function⟩ 4112 240].Chain'
            (fun a b => a.getBaseAddress ≤ b.getBaseAddress) ∧
          (∀ o, [TextObject.Function 0 ⟨0, 4096, 16, .function⟩ 4096 16,
            TextObject.Function 1 ⟨1, 4112, 240, .function⟩ 4112 240].head? = some o →
            o.getBaseAddress = SectionHeader.sh_addr ⟨4096, 256⟩)) :=
  verify_iff ⟨4096, 256⟩ [TextObject.Function 0 ⟨0, 4096, 16, .function⟩ 4096 16,
    TextObject.Function 1 ⟨1, 4112, 240, .function⟩ 4112 240]
    (fun o ho => by
      simp only [List.mem_cons, List.mem_singleton, List.not_mem_nil, or_false] at ho
      rcases ho with rfl | rfl <;> decide)

/-- C32 as stated fails: in the section at address 0 of `2^64 - 1` bytes, the
objects at 0 (1 byte) and at `2^64 - 2` (2 bytes) pass `verify`, because the
exit address of the second wraps to 0, which is in range; yet that object ends
at `2^64`, beyond `sh_addr + sh_size = 2^64 - 1`. -/
theorem verify_iff_counterexample :
    verify ⟨0, 18446744073709551615⟩
      [TextObject.Function 0 ⟨0, 0, 1, .function⟩ 0 1,
        TextObject.Function 1 ⟨1, 18446744073709551614, 2, .function⟩ 18446744073709551614 2]
      = true ∧
    add64 18446744073709551614 2 = 0 ∧
    ¬ ((18446744073709551614 : Nat) + 2 ≤ 0 + 18446744073709551615) := by
  decide

/-! ## Further results on `digestLinear` -/

/-- What the loop of `digestLinear` has done when it ends, for a byte counter
that cannot wrap: the appended lengths add up to the distance covered, and an
over-run is smaller than the last appended instruction. -/
theorem digestLoop_ended (decode : Nat → Nat → Nat) (base size : Nat)
    (hsize : size < U32)
    (hno : ∀ i c, c < size → c + decode i c < U32) :
    ∀ fuel c n acc c1 out, c ≤ size →
      digestLoop decode base size fuel c n acc = some (c1, out) →
      ∃ news, out = acc ++ news ∧ size ≤ c1 ∧ c1 < U32 ∧ c + totalLength news = c1 ∧
        (size < c1 → ∃ pre last, news = pre ++ [last] ∧ c1 < size + last.sizeInBytes) := by
  intro fuel
  induction fuel with
  | zero => intro c n acc c1 out _ h; simp [digestLoop] at h
  | succ fuel ih =>
    intro c n acc c1 out hc h
    by_cases hlt : c < size
    · have hw := hno n c hlt
      have hstep : add32 c (decode n c) = c + decode n c := by
        unfold add32; exact Nat.mod_eq_of_lt hw
      simp only [digestLoop, hlt, if_true, hstep] at h
      by_cases hle : c + decode n c ≤ size
      · obtain ⟨news, ho, h1, h2, h3, h4⟩ := ih _ _ _ c1 out hle h
        refine ⟨{ index := n, baseAddress := add64 base c, sizeInBytes := decode n c } :: news,
          by simp [ho], h1, h2, ?_, ?_⟩
        · simp only [totalLength, List.map_cons, List.sum_cons] at h3 ⊢
          omega
        · intro hgt
          obtain ⟨pre, last, hn, hl⟩ := h4 hgt
          exact ⟨{ index := n, baseAddress := add64 base c, sizeInBytes := decode n c } :: pre,
            last, by simp [hn], hl⟩
      · obtain ⟨f, rfl⟩ | rfl : (∃ f, fuel = f + 1) ∨ fuel = 0 := by
          cases fuel with
          | zero => exact Or.inr rfl
          | succ f => exact Or.inl ⟨f, rfl⟩
        · have hnl : ¬ c + decode n c < size := by omega
          simp only [digestLoop, hnl, if_false, Option.some.injEq, Prod.mk.injEq] at h
          obtain ⟨rfl, rfl⟩ := h
          refine ⟨[{ index := n, baseAddress := add64 base c, sizeInBytes := decode n c }],
            rfl, by omega, hw, by simp [totalLength], ?_⟩
          intro _
          exact ⟨[], _, rfl, by simp; omega⟩
        · simp [digestLoop] at h
    · simp only [digestLoop, hlt, if_false, Option.some.injEq, Prod.mk.injEq] at h
      obtain ⟨rfl, rfl⟩ := h
      have hcs : c = size := by omega
      subst hcs
      exact ⟨[], by simp, le_refl _, hsize, by simp [totalLength],
        fun h => absurd h (lt_irrefl _)⟩

/-- C33 (amended): for an object size below `2^32` and decoded lengths with
which the 32-bit byte counter cannot wrap, whenever the loop of
`digestLinear` ends with the instructions `decoded` (lengths as decoded):
when their lengths over-run the object by `e > 0` bytes, `digestLinear`
returns `decoded` with only the last instruction changed, its length reduced
by exactly `e`; when there is no over-run it returns `decoded` unchanged.  The
loop does end when every decoded length is at least 1. -/
theorem digestLinear_truncates_tail (decode : Nat → Nat → Nat)
    (baseAddress sizeInBytes : Nat)
    (hsize : sizeInBytes < U32)
    (hno : ∀ i c, c < sizeInBytes → c + decode i c < U32) :
    (∀ fuel currByte decoded,
      digestLoop decode baseAddress sizeInBytes fuel 0 0 [] = some (currByte, decoded) →
      sizeInBytes ≤ totalLength decoded ∧
      (sizeInBytes < totalLength decoded →
        ∃ pre last, decoded = pre ++ [last] ∧
          totalLength decoded - sizeInBytes < last.sizeInBytes ∧
          digestLinear decode baseAddress sizeInBytes fuel =
            some (pre ++ [{ last with sizeInBytes :=
              last.sizeInBytes - (totalLength decoded - sizeInBytes) }])) ∧
      (totalLength decoded = sizeInBytes →
        digestLinear decode baseAddress sizeInBytes fuel = some decoded)) ∧
    ((∀ i c, 1 ≤ decode i c) → ∀ fuel, sizeInBytes < fuel →
      ∃ currByte decoded,
        digestLoop decode baseAddress sizeInBytes fuel 0 0 [] = some (currByte, decoded)) := by
  constructor
  · intro fuel c1 decoded hrun
    obtain ⟨news, ho, h1, h2, h3, h4⟩ :=
      digestLoop_ended decode baseAddress sizeInBytes hsize hno fuel 0 0 [] c1 decoded
        (Nat.zero_le _) hrun
    simp only [List.nil_append] at ho
    subst ho
    simp only [Nat.zero_add] at h3
    rw [h3]
    refine ⟨h1, ?_, ?_⟩
    · intro hgt
      obtain ⟨pre, last, hn, hl⟩ := h4 hgt
      subst hn
      have hsum : totalLength pre + last.sizeInBytes = c1 := by
        simpa [totalLength_append, totalLength] using h3
      have hextra : sub32 c1 sizeInBytes = c1 - sizeInBytes := sub32_eq _ _ h1 h2
      have hback : sub32 c1 (c1 - sizeInBytes) = sizeInBytes := by
        rw [sub32_eq _ _ (by omega) h2]; omega
      have hlast : sub32 last.sizeInBytes (c1 - sizeInBytes)
          = last.sizeInBytes - (c1 - sizeInBytes) :=
        sub32_eq _ _ (by omega) (by omega)
      refine ⟨pre, last, rfl, by omega, ?_⟩
      simp [digestLinear, hrun, hgt, hextra, shrinkBack_append, hback, hlast]
    · intro heq
      subst heq
      simp [digestLinear, hrun]
  · intro hpos fuel hfuel
    obtain ⟨c1, news, hrun, _⟩ :=
      digestLoop_spec decode baseAddress sizeInBytes hsize hpos hno fuel 0 0 []
        (Nat.zero_le _) (by omega)
    exact ⟨c1, _, hrun⟩

/-- Witness for `digestLinear_truncates_tail`: an object of 10 bytes decoded
in instructions of 4 bytes. -/
theorem digestLinear_truncates_tail_witness :
    (∀ fuel currByte decoded,
      digestLoop (fun _ _ => 4) 4096 10 fuel 0 0 [] = some (currByte, decoded) →
      10 ≤ totalLength decoded ∧
      (10 < totalLength decoded →
        ∃ pre last, decoded = pre ++ [last] ∧
          totalLength decoded - 10 < last.sizeInBytes ∧
          digestLinear (fun _ _ => 4) 4096 10 fuel =
            some (pre ++ [{ last with sizeInBytes :=
              last.sizeInBytes - (totalLength decoded - 10) }])) ∧
      (totalLength decoded = 10 →
        digestLinear (fun _ _ => 4) 4096 10 fuel = some decoded)) ∧
    ((∀ i c : Nat, 1 ≤ (fun _ _ => 4 : Nat → Nat → Nat) i c) → ∀ fuel, 10 < fuel →
      ∃ currByte decoded,
        digestLoop (fun _ _ => 4) 4096 10 fuel 0 0 [] = some (currByte, decoded)) :=
  digestLinear_truncates_tail (fun _ _ => 4) 4096 10 (by decide)
    (fun _ c h => by simp only [U32]; omega)

/-- C33 as stated fails: for an object of `2^32 - 1` bytes and the decoded
lengths `0xFFFFFFFE, 3, 0xFFFFFFFE` the byte counter wraps twice and ends on
the object size; the decoded lengths over-run the object by `2^32` bytes, and
`digestLinear` returns the three instructions with their lengths unchanged. -/
theorem digestLinear_truncates_tail_counterexample :
    digestLoop (fun i _ => if i = 1 then 3 else 4294967294) 0 4294967295 4 0 0 [] =
      some (4294967295, [⟨0, 0, 4294967294⟩, ⟨1, 4294967294, 3⟩, ⟨2, 1, 4294967294⟩]) ∧
    totalLength [⟨0, 0, 4294967294⟩, ⟨1, 4294967294, 3⟩, ⟨2, 1, 4294967294⟩] =
      4294967295 + 4294967296 ∧
    digestLinear (fun i _ => if i = 1 then 3 else 4294967294) 0 4294967295 4 =
      some [⟨0, 0, 4294967294⟩, ⟨1, 4294967294, 3⟩, ⟨2, 1, 4294967294⟩] := by
  decide

theorem layout_sizes (base : Nat) : ∀ (lens : List Nat) (c n : Nat),
    (layout base c n lens).map X86Instruction.sizeInBytes = lens := by
  intro lens
  induction lens with
  | nil => intro c n; rfl
  | cons l rest ih => intro c n; simp [layout, ih]

theorem layout_totalLength (base : Nat) (lens : List Nat) (c n : Nat) :
    totalLength (layout base c n lens) = lens.sum := by
  unfold totalLength
  rw [layout_sizes]

theorem layout_append (base : Nat) : ∀ (l1 l2 : List Nat) (c n : Nat),
    layout base c n (l1 ++ l2) =
      layout base c n l1 ++ layout base (c + l1.sum) (n + l1.length) l2 := by
  intro l1
  induction l1 with
  | nil => intro l2 c n; simp [layout]
  | cons l rest ih =>
    intro l2 c n
    have e1 : c + l + rest.sum = c + (l + rest.sum) := by omega
    have e2 : n + 1 + rest.length = n + (rest.length + 1) := by omega
    have hl : layout base c n (l :: rest ++ l2) =
        ⟨n, add64 base c, l⟩ :: layout base (c + l) (n + 1) (rest ++ l2) := rfl
    have hr : layout base c n (l :: rest) =
        ⟨n, add64 base c, l⟩ :: layout base (c + l) (n + 1) rest := rfl
    rw [hl, hr, ih, List.sum_cons, List.length_cons, e1, e2]
    rfl

theorem layout_take (base : Nat) : ∀ (lens : List Nat) (c n k : Nat),
    (layout base c n lens).take k = layout base c n (lens.take k) := by
  intro lens
  induction lens with
  | nil => intro c n k; simp [layout]
  | cons l rest ih =>
    intro c n k
    cases k with
    | zero => simp [layout]
    | succ k => simp [layout, ih]

theorem layout_get (base : Nat) : ∀ (lens : List Nat) (c n k : Nat) (x : X86Instruction),
    (layout base c n lens)[k]? = some x →
      x.index = n + k ∧ x.baseAddress = add64 base (c + (lens.take k).sum) ∧
        lens[k]? = some x.sizeInBytes := by
  intro lens
  induction lens with
  | nil => intro c n k x h; simp [layout] at h
  | cons l rest ih =>
    intro c n k x h
    cases k with
    | zero =>
      simp only [layout, List.getElem?_cons_zero, Option.some.injEq] at h
      subst h
      simp
    | succ k =>
      simp only [layout, List.getElem?_cons_succ] at h
      obtain ⟨h1, h2, h3⟩ := ih _ _ k x h
      refine ⟨by omega, ?_, by simpa using h3⟩
      rw [h2]
      simp only [List.take_succ_cons, List.sum_cons]
      congr 1
      omega

/-- The loop of `digestLinear` for decoded lengths of at least 1 and a byte
counter that cannot wrap: it ends, and what it appends is the layout of the
decoded lengths. -/
theorem digestLoop_layout (decode : Nat → Nat → Nat) (base size : Nat)
    (hsize : size < U32)
    (hpos : ∀ i c, 1 ≤ decode i c)
    (hno : ∀ i c, c < size → c + decode i c < U32) :
    ∀ fuel c n acc, c ≤ size → n ≤ c → size - c < fuel →
      ∃ c1 lens, digestLoop decode base size fuel c n acc =
          some (c1, acc ++ layout base c n lens) ∧
        (∀ l ∈ lens, 1 ≤ l) ∧ size ≤ c1 ∧ c1 < U32 ∧ c + lens.sum = c1 ∧
        (size < c1 → ∃ pre last, lens = pre ++ [last] ∧ c1 < size + last) := by
  intro fuel
  induction fuel with
  | zero => intro c n acc _ _ h; omega
  | succ fuel ih =>
    intro c n acc hc hn hf
    by_cases hlt : c < size
    · have hd := hpos n c
      have hw := hno n c hlt
      have hstep : add32 c (decode n c) = c + decode n c := by
        unfold add32; exact Nat.mod_eq_of_lt hw
      have hidx : add32 n 1 = n + 1 := by
        unfold add32
        exact Nat.mod_eq_of_lt (by omega)
      by_cases hle : c + decode n c ≤ size
      · obtain ⟨c1, lens, hrun, h0, h1, h2, h3, h4⟩ :=
          ih (c + decode n c) (n + 1)
            (acc ++ [{ index := n, baseAddress := add64 base c, sizeInBytes := decode n c }])
            hle (by omega) (by omega)
        refine ⟨c1, decode n c :: lens, ?_, ?_, h1, h2, ?_, ?_⟩
        · simp only [digestLoop, hlt, if_true, hstep, hidx]
          rw [hrun]
          simp [layout]
        · intro l hl
          rcases List.mem_cons.mp hl with rfl | hl
          · exact hd
          · exact h0 l hl
        · simp only [List.sum_cons]
          omega
        · intro hgt
          obtain ⟨pre, last, hp, hl⟩ := h4 hgt
          exact ⟨decode n c :: pre, last, by simp [hp], hl⟩
      · obtain ⟨f, rfl⟩ : ∃ f, fuel = f + 1 := ⟨fuel - 1, by omega⟩
        refine ⟨c + decode n c, [decode n c], ?_, ?_, by omega, hw, by simp, ?_⟩
        · simp only [digestLoop, hlt, if_true, hstep, hidx]
          have : ¬ c + decode n c < size := by omega
          simp [this, layout]
        · intro l hl
          simp only [List.mem_singleton] at hl
          subst hl
          exact hd
        · intro _
          exact ⟨[], _, rfl, by omega⟩
    · have hcs : c = size := by omega
      subst hcs
      exact ⟨c, [], by simp [digestLoop, layout], by simp, le_refl _, hsize, by simp,
        fun h => absurd h (lt_irrefl _)⟩

/-- C35 (amended): given a decoder that returns a length of at least 1 for
every instruction, an object size below `2^32` with which the 32-bit byte
counter cannot wrap, and an object that lies within the 64-bit address space,
`digestLinear` terminates and the returned instructions tile the object: the
`k`-th instruction has index `k` and address `base` plus the sum of the
lengths of the instructions before it, each instruction starts where the one
before it ends, the lengths add up to the object size (the last one ends at
`base + size`), and every instruction, a truncated tail included, has a final
length of at least 1. -/
theorem digestLinear_tiles (decode : Nat → Nat → Nat)
    (baseAddress sizeInBytes fuel : Nat)
    (hsize : sizeInBytes < U32)
    (hpos : ∀ i c, 1 ≤ decode i c)
    (hno : ∀ i c, c < sizeInBytes → c + decode i c < U32)
    (hbase : baseAddress + sizeInBytes ≤ U64)
    (hfuel : sizeInBytes < fuel) :
    ∃ insts, digestLinear decode baseAddress sizeInBytes fuel = some insts ∧
      totalLength insts = sizeInBytes ∧
      (∀ k x, insts[k]? = some x →
        x.index = k ∧ x.baseAddress = baseAddress + totalLength (insts.take k) ∧
          1 ≤ x.sizeInBytes ∧
          totalLength (insts.take (k + 1)) = totalLength (insts.take k) + x.sizeInBytes ∧
          x.baseAddress + x.sizeInBytes ≤ baseAddress + sizeInBytes) := by
  obtain ⟨c1, lens, hrun, h0, h1, h2, h3, h4⟩ :=
    digestLoop_layout decode baseAddress sizeInBytes hsize hpos hno fuel 0 0 []
      (Nat.zero_le _) (Nat.le_refl _) (by omega)
  simp only [List.nil_append, Nat.zero_add] at hrun h3
  -- the lengths after the truncation
  have key : ∃ lens2 : List Nat,
      digestLinear decode baseAddress sizeInBytes fuel = some (layout baseAddress 0 0 lens2) ∧
      lens2.sum = sizeInBytes ∧ ∀ l ∈ lens2, 1 ≤ l := by
    by_cases hgt : c1 > sizeInBytes
    · obtain ⟨pre, last, hn, hl⟩ := h4 hgt
      subst hn
      have hsum : pre.sum + last = c1 := by simpa using h3
      have hextra : sub32 c1 sizeInBytes = c1 - sizeInBytes := sub32_eq _ _ h1 h2
      have hback : sub32 c1 (c1 - sizeInBytes) = sizeInBytes := by
        rw [sub32_eq _ _ (by omega) h2]; omega
      have hlast : sub32 last (c1 - sizeInBytes) = last - (c1 - sizeInBytes) :=
        sub32_eq _ _ (by omega) (by omega)
      refine ⟨pre ++ [last - (c1 - sizeInBytes)], ?_, ?_, ?_⟩
      · rw [layout_append] at hrun
        simp only [layout] at hrun
        simp only [digestLinear, hrun, hgt, if_true, hextra, shrinkBack_append, hback, hlast,
          layout_append, layout]
      · simp only [List.sum_append, List.sum_cons, List.sum_nil]
        omega
      · intro l hl
        rcases List.mem_append.mp hl with hl | hl
        · exact h0 l (List.mem_append_left _ hl)
        · simp only [List.mem_singleton] at hl
          omega
    · have heq : c1 = sizeInBytes := by omega
      subst heq
      exact ⟨lens, by simp [digestLinear, hrun], h3, h0⟩
  obtain ⟨lens2, hres, hsum, hone⟩ := key
  refine ⟨_, hres, by rw [layout_totalLength, hsum], ?_⟩
  intro k x hx
  obtain ⟨hi, ha, hl⟩ := layout_get baseAddress lens2 0 0 k x hx
  have hk : k < lens2.length := by
    by_contra hc
    rw [List.getElem?_eq_none (by omega)] at hl
    cases hl
  have hmem : x.sizeInBytes ∈ lens2 := List.getElem?_mem hl
  have htake : (lens2.take (k + 1)).sum = (lens2.take k).sum + x.sizeInBytes := by
    rw [List.take_succ, hl]
    simp
  have hle : (lens2.take (k + 1)).sum ≤ lens2.sum := by
    have hsplit := List.take_append_drop (k + 1) lens2
    have := congrArg List.sum hsplit
    simp only [List.sum_append] at this
    omega
  rw [layout_take, layout_take, layout_totalLength, layout_totalLength]
  refine ⟨by omega, ?_, hone _ hmem, htake, ?_⟩
  · rw [ha, Nat.zero_add]
    exact add64_of_lt _ _ (by have := hone _ hmem; omega)
  · rw [ha, Nat.zero_add, add64_of_lt _ _ (by have := hone _ hmem; omega)]
    omega

/-- Witness for `digestLinear_tiles`: an object of 10 bytes at `0x1000`
decoded in instructions of 4 bytes. -/
theorem digestLinear_tiles_witness :
    ∃ insts, digestLinear (fun _ _ => 4) 4096 10 11 = some insts ∧
      totalLength insts = 10 ∧
      (∀ k x, insts[k]? = some x →
        x.index = k ∧ x.baseAddress = 4096 + totalLength (insts.take k) ∧
          1 ≤ x.sizeInBytes ∧
          totalLength (insts.take (k + 1)) = totalLength (insts.take k) + x.sizeInBytes ∧
          x.baseAddress + x.sizeInBytes ≤ 4096 + 10) :=
  digestLinear_tiles (fun _ _ => 4) 4096 10 11 (by decide) (fun _ _ => by simp)
    (fun _ c h => by simp only [U32]; omega) (by decide) (by decide)

/-- C35 as stated fails: (a) for an object of `2^32 - 1` bytes decoded in
instructions of 2 bytes `digestLinear` never returns, whatever the fuel;
(b) for an object of 2 bytes at `2^64 - 1` decoded in instructions of 1 byte,
the second instruction gets the address 0, not `base + 1`. -/
theorem digestLinear_tiles_counterexample :
    (¬ ∃ fuel insts, digestLinear (fun _ _ => 2) 0 4294967295 fuel = some insts) ∧
    digestLinear (fun _ _ => 1) 18446744073709551615 2 3 =
      some [⟨0, 18446744073709551615, 1⟩, ⟨1, 0, 1⟩] := by
  constructor
  · rintro ⟨fuel, insts, h⟩
    have hnone := digestLoop_even_never_ends 0 fuel 0 0 [] (by decide) (by decide)
    simp [digestLinear, hnone] at h
  · decide

/-! ## Results on the address lookup -/

theorem lookupInFunctions_none {α : Type} (lookup : TextObject → Nat → Option α) (addr : Nat) :
    ∀ objs : List TextObject,
      (∀ o ∈ objs, o.isFunction = true →
        TextObject.inRange o.getBaseAddress o.getSizeInBytes addr = false) →
      lookupInFunctions lookup addr objs = none := by
  intro objs
  induction objs with
  | nil => intro _; rfl
  | cons o rest ih =>
    intro h
    have hrest := ih (fun p hp => h p (List.mem_cons_of_mem _ hp))
    by_cases hf : o.isFunction = true
    · have := h o (List.mem_cons_self _ _) hf
      simp [lookupInFunctions, hf, this, hrest]
    · simp [lookupInFunctions, hf, hrest]

theorem lookupInFunctions_first {α : Type} (lookup : TextObject → Nat → Option α) (addr : Nat)
    (f : TextObject) (post : List TextObject) (hf : f.isFunction = true)
    (hin : TextObject.inRange f.getBaseAddress f.getSizeInBytes addr = true) :
    ∀ pre : List TextObject,
      (∀ o ∈ pre, o.isFunction = true →
        TextObject.inRange o.getBaseAddress o.getSizeInBytes addr = false) →
      lookupInFunctions lookup addr (pre ++ f :: post) = lookup f addr := by
  intro pre
  induction pre with
  | nil => intro _; simp [lookupInFunctions, hf, hin]
  | cons o rest ih =>
    intro h
    have hrest := ih (fun p hp => h p (List.mem_cons_of_mem _ hp))
    by_cases ho : o.isFunction = true
    · have := h o (List.mem_cons_self _ _) ho
      simp [lookupInFunctions, ho, this, hrest]
    · simp [lookupInFunctions, ho, hrest]

/-- C39 (amended): with Function objects whose `base + size` does not wrap
around `2^64`, `getInstructionAtAddress(addr)` and
`getBasicBlockAtAddress(addr)` return `NULL` whenever `addr` is outside the
section's range or in the range `[base, base + size)` of no Function object
(so for every address covered only by FreeText objects); otherwise they return
the result of the lookup in the first Function, in list order, whose range
contains `addr`, whatever comes after it in the list. -/
theorem lookup_first_function {α β : Type} (sh : SectionHeader) (objs : List TextObject)
    (getInstruction : TextObject → Nat → Option α)
    (getBasicBlock : TextObject → Nat → Option β) (addr : Nat)
    (hwrap : ∀ o ∈ objs, o.isFunction = true → o.getBaseAddress + o.getSizeInBytes < U64) :
    (sh.inRange addr = false →
      TextSection.getInstructionAtAddress sh objs getInstruction addr = none ∧
      TextSection.getBasicBlockAtAddress sh objs getBasicBlock addr = none) ∧
    ((∀ o ∈ objs, o.isFunction = true →
        ¬ (o.getBaseAddress ≤ addr ∧ addr < o.getBaseAddress + o.getSizeInBytes)) →
      TextSection.getInstructionAtAddress sh objs getInstruction addr = none ∧
      TextSection.getBasicBlockAtAddress sh objs getBasicBlock addr = none) ∧
    (∀ pre f post, objs = pre ++ f :: post → f.isFunction = true →
      f.getBaseAddress ≤ addr → addr < f.getBaseAddress + f.getSizeInBytes →
      (∀ o ∈ pre, o.isFunction = true →
        ¬ (o.getBaseAddress ≤ addr ∧ addr < o.getBaseAddress + o.getSizeInBytes)) →
      sh.inRange addr = true →
      TextSection.getInstructionAtAddress sh objs getInstruction addr = getInstruction f addr ∧
      TextSection.getBasicBlockAtAddress sh objs getBasicBlock addr = getBasicBlock f addr) := by
  have hiff : ∀ o ∈ objs, o.isFunction = true →
      (TextObject.inRange o.getBaseAddress o.getSizeInBytes addr = true ↔
        o.getBaseAddress ≤ addr ∧ addr < o.getBaseAddress + o.getSizeInBytes) := by
    intro o ho hf
    unfold TextObject.inRange
    rw [add64_of_lt _ _ (hwrap o ho hf)]
    simp
  refine ⟨?_, ?_, ?_⟩
  · intro hout
    simp [TextSection.getInstructionAtAddress, TextSection.getBasicBlockAtAddress, hout]
  · intro hnone
    have hfalse : ∀ o ∈ objs, o.isFunction = true →
        TextObject.inRange o.getBaseAddress o.getSizeInBytes addr = false := by
      intro o ho hf
      cases hc : TextObject.inRange o.getBaseAddress o.getSizeInBytes addr with
      | false => rfl
      | true => exact absurd ((hiff o ho hf).mp hc) (hnone o ho hf)
    unfold TextSection.getInstructionAtAddress TextSection.getBasicBlockAtAddress
    rw [lookupInFunctions_none _ _ _ hfalse, lookupInFunctions_none _ _ _ hfalse]
    simp
  · intro pre f post hsplit hf h1 h2 hpre hin
    subst hsplit
    have hfin : TextObject.inRange f.getBaseAddress f.getSizeInBytes addr = true :=
      (hiff f (by simp) hf).mpr ⟨h1, h2⟩
    have hfalse : ∀ o ∈ pre, o.isFunction = true →
        TextObject.inRange o.getBaseAddress o.getSizeInBytes addr = false := by
      intro o ho hfo
      cases hc : TextObject.inRange o.getBaseAddress o.getSizeInBytes addr with
      | false => rfl
      | true =>
        exact absurd ((hiff o (List.mem_append_left _ ho) hfo).mp hc) (hpre o ho hfo)
    unfold TextSection.getInstructionAtAddress TextSection.getBasicBlockAtAddress
    rw [lookupInFunctions_first _ _ f post hf hfin pre hfalse,
      lookupInFunctions_first _ _ f post hf hfin pre hfalse]
    simp [hin]

/-- Witness for `lookup_first_function`: a FreeText of 16 bytes at `0x1000`,
then two overlapping functions at `0x1010` (32 bytes) and `0x1020`, in a
section of 256 bytes; the lookups answer with the index of the function asked
and the address. -/
theorem lookup_first_function_witness :
    (SectionHeader.inRange ⟨4096, 256⟩ 4130 = false →
      TextSection.getInstructionAtAddress ⟨4096, 256⟩
        [TextObject.FreeText 0 none 4096 16 true,
          TextObject.Function 1 ⟨1, 4112, 32, .function⟩ 4112 32,
          TextObject.Function 2 ⟨2, 4128, 224, .function⟩ 4128 224]
        (fun f a => some (f.getIndex, a)) 4130 = none ∧
      TextSection.getBasicBlockAtAddress ⟨4096, 256⟩
        [TextObject.FreeText 0 none 4096 16 true,
          TextObject.Function 1 ⟨1, 4112, 32, .function⟩ 4112 32,
          TextObject.Function 2 ⟨2, 4128, 224, .function⟩ 4128 224]
        (fun f a => some (f.getIndex + a)) 4130 = none) ∧
    ((∀ o ∈ [TextObject.FreeText 0 none 4096 16 true,
          TextObject.Function 1 ⟨1, 4112, 32, .function⟩ 4112 32,
          TextObject.Function 2 ⟨2, 4128, 224, .function⟩ 4128 224], o.isFunction = true →
        ¬ (o.getBaseAddress ≤ 4130 ∧ 4130 < o.getBaseAddress + o.getSizeInBytes)) →
      TextSection.getInstructionAtAddress ⟨4096, 256⟩
        [TextObject.FreeText 0 none 4096 16 true,
          TextObject.Function 1 ⟨1, 4112, 32, .function⟩ 4112 32,
          TextObject.Function 2 ⟨2, 4128, 224, .function⟩ 4128 224]
        (fun f a => some (f.getIndex, a)) 4130 = none ∧
      TextSection.getBasicBlockAtAddress ⟨4096, 256⟩
        [TextObject.FreeText 0 none 4096 16 true,
          TextObject.Function 1 ⟨1, 4112, 32, .function⟩ 4112 32,
          TextObject.Function 2 ⟨2, 4128, 224, .function⟩ 4128 224]
        (fun f a => some (f.getIndex + a)) 4130 = none) ∧
    (∀ pre f post, [TextObject.FreeText 0 none 4096 16 true,
          TextObject.Function 1 ⟨1, 4112, 32, .function⟩ 4112 32,
          TextObject.Function 2 ⟨2, 4128, 224, .function⟩ 4128 224] = pre ++ f :: post →
      f.isFunction = true →
      f.getBaseAddress ≤ 4130 → 4130 < f.getBaseAddress + f.getSizeInBytes →
      (∀ o ∈ pre, o.isFunction = true →
        ¬ (o.getBaseAddress ≤ 4130 ∧ 4130 < o.getBaseAddress + o.getSizeInBytes)) →
      SectionHeader.inRange ⟨4096, 256⟩ 4130 = true →
      TextSection.getInstructionAtAddress ⟨4096, 256⟩
        [TextObject.FreeText 0 none 4096 16 true,
          TextObject.Function 1 ⟨1, 4112, 32, .function⟩ 4112 32,
          TextObject.Function 2 ⟨2, 4128, 224, .function⟩ 4128 224]
        (fun f a => some (f.getIndex, a)) 4130 = (fun f a => some (f.getIndex, a)) f 4130 ∧
      TextSection.getBasicBlockAtAddress ⟨4096, 256⟩
        [TextObject.FreeText 0 none 4096 16 true,
          TextObject.Function 1 ⟨1, 4112, 32, .function⟩ 4112 32,
          TextObject.Function 2 ⟨2, 4128, 224, .function⟩ 4128 224]
        (fun f a => some (f.getIndex + a)) 4130 = (fun f a => some (f.getIndex + a)) f 4130) :=
  lookup_first_function ⟨4096, 256⟩
    [TextObject.FreeText 0 none 4096 16 true,
      TextObject.Function 1 ⟨1, 4112, 32, .function⟩ 4112 32,
      TextObject.Function 2 ⟨2, 4128, 224, .function⟩ 4128 224]
    (fun f a => some (f.getIndex, a)) (fun f a => some (f.getIndex + a)) 4130
    (fun o ho _ => by
      simp only [List.mem_cons, List.mem_singleton, List.not_mem_nil, or_false] at ho
      rcases ho with rfl | rfl | rfl <;> decide)

/-- C39 as stated fails: in the section of 16 bytes at `2^64 - 16` whose only
object is a function at `2^64 - 16` of 16 bytes, the address `2^64 - 16` is in
the section's range and in `[base, base + size)`, yet both lookups return
`NULL`, because `base + size` wraps to 0 in `inRange`.  (In the witness
list, the address `0x1022` lies in both functions and the first one
answers.) -/
theorem lookup_first_function_counterexample :
    SectionHeader.inRange ⟨18446744073709551600, 16⟩ 18446744073709551600 = true ∧
    ((18446744073709551600 : Nat) ≤ 18446744073709551600 ∧
      18446744073709551600 < 18446744073709551600 + 16) ∧
    TextSection.getInstructionAtAddress ⟨18446744073709551600, 16⟩
      [TextObject.Function 0 ⟨0, 18446744073709551600, 16, .function⟩ 18446744073709551600 16]
      (fun f a => some (f.getIndex, a)) 18446744073709551600 = none ∧
    TextSection.getBasicBlockAtAddress ⟨18446744073709551600, 16⟩
      [TextObject.Function 0 ⟨0, 18446744073709551600, 16, .function⟩ 18446744073709551600 16]
      (fun f a => some (f.getIndex + a)) 18446744073709551600 = none ∧
    TextSection.getInstructionAtAddress ⟨4096, 256⟩
      [TextObject.FreeText 0 none 4096 16 true,
        TextObject.Function 1 ⟨1, 4112, 32, .function⟩ 4112 32,
        TextObject.Function 2 ⟨2, 4128, 224, .function⟩ 4128 224]
      (fun f a => some (f.getIndex, a)) 4130 = some (1, 4130) := by
  decide

/-! ## Results on the reloads of `AX` -/

theorem base64_of_some (tool : ToolData) (operand : Operand) (baseReg lValue : Nat)
    (hbv : baseAndValue64 tool (some operand) = some (baseReg, lValue))
    (hb : operand.base ≠ UdReg.UD_NONE) :
    baseReg = operand.base.number ∧
      (baseReg = X86_REG_AX ↔ operand.base = UdReg.gpr64 0 ∨ operand.base = UdReg.UD_R_RIP) := by
  simp only [baseAndValue64, hb, ne_eq, not_false_eq_true, if_true] at hbv
  cases hbase : operand.base with
  | UD_NONE => exact absurd hbase hb
  | gpr64 r =>
    by_cases hr : r < 16
    · simp [hbase, IS_64BIT_GPR, IS_PC_REG, hr, UdReg.number] at hbv
      obtain ⟨rfl, _⟩ := hbv
      simp [UdReg.number, X86_REG_AX]
    · simp [hbase, IS_64BIT_GPR, IS_PC_REG, hr] at hbv
  | gpr32 r => simp [hbase, IS_64BIT_GPR, IS_PC_REG] at hbv
  | UD_R_RIP =>
    simp [hbase, IS_64BIT_GPR, IS_PC_REG] at hbv
    obtain ⟨rfl, _⟩ := hbv
    simp [UdReg.number, X86_REG_AX]
  | other => simp [hbase, IS_64BIT_GPR, IS_PC_REG] at hbv

theorem index64_ax (operand : Operand) (indexReg : Nat)
    (hix : indexReg64 (some operand) = some indexReg) (hin : operand.index ≠ UdReg.UD_NONE) :
    indexReg = X86_REG_AX ↔ operand.index = UdReg.gpr64 0 := by
  have h1 := (index64_of_some operand indexReg hix hin).1
  simp only [indexReg64, hin, ne_eq, not_false_eq_true, if_true] at hix
  cases hidx : operand.index with
  | UD_NONE => exact absurd hidx hin
  | gpr64 r =>
    rw [h1, hidx]
    simp [UdReg.number, X86_REG_AX]
  | gpr32 r => simp [hidx, IS_64BIT_GPR] at hix
  | UD_R_RIP => simp [hidx, IS_64BIT_GPR] at hix
  | other => simp [hidx, IS_64BIT_GPR] at hix

/-- C34 (amended): in the 64-bit precursor for an explicit memory operand, the
address calculation is the base move (when there is a base), followed by a
reload of `tempReg1` from the flags-save slot `dataAddr + regStorageOffset` if
and only if the base register is `AX` or the program counter and the method is
`FlagsProtectionMethod_light`; then the index move (when there is an index),
followed by a reload of `tempReg2` from the same slot if and only if the index
register is `AX` and the method is light; then instructions none of which
loads from memory.  So no reload of `tempReg1` is emitted for an operand whose
base is neither `AX` nor the program counter. -/
theorem reload_after_moves (tool : ToolData) (instruction : MemoryInstruction)
    (operand : Operand) (bufferStore bufferPtrStore blockId memopId bufferSize : Nat)
    (method : FlagsProtectionMethods) (t1 t2 t3 : Nat)
    (hsel : selectTempRegs X86_64BIT_GPRS instruction = some (t1, t2, t3))
    (hop : instruction.memoryOperand = some operand)
    (hgen : (generateBufferedAddressCalculation64 tool instruction bufferStore bufferPtrStore
      blockId memopId bufferSize method).isSome = true) :
    ∃ tail,
      generateBufferedAddressCalculation64 tool instruction bufferStore bufferPtrStore
          blockId memopId bufferSize method =
        some (saveTemps64 tool t1 t2 t3 ++
          ((if operand.base ≠ UdReg.UD_NONE then
              Inst64.generateMoveRegToReg operand.base.number t1 ::
                (if (operand.base = UdReg.gpr64 0 ∨ operand.base = UdReg.UD_R_RIP) ∧
                    method = .FlagsProtectionMethod_light then
                  [Inst64.generateMoveMemToReg
                    (add64 tool.instDataAddress tool.regStorageOffset) t1]
                else [])
            else []) ++
           (if operand.index ≠ UdReg.UD_NONE then
              Inst64.generateMoveRegToReg operand.index.number t2 ::
                (if operand.index = UdReg.gpr64 0 ∧
                    method = .FlagsProtectionMethod_light then
                  [Inst64.generateMoveMemToReg
                    (add64 tool.instDataAddress tool.regStorageOffset) t2]
                else [])
            else []) ++ tail) ++
          entryAddress64 tool bufferStore bufferPtrStore t2 t3 ++
          fillEntry64 blockId memopId t1 t2 ++
          incPointer64 tool bufferPtrStore bufferSize t3 ++
          restoreTemps64 tool t1 t2 t3 ++
          [Inst64.generateBranchJL tool.Size__64_bit_inst_function_call_support]) ∧
      ∀ x ∈ tail, x.isLoad = false := by
  obtain ⟨insts, hi⟩ := Option.isSome_iff_exists.mp hgen
  obtain ⟨u1, u2, u3, baseReg, lValue, indexReg, hs, hbv, hix, heq⟩ :=
    generate64_inv tool instruction bufferStore bufferPtrStore blockId memopId bufferSize
      method insts hi
  rw [hsel] at hs
  simp only [Option.some.injEq, Prod.mk.injEq] at hs
  obtain ⟨e1, e2, e3⟩ := hs
  subst e1 e2 e3
  rw [hop] at hbv hix
  refine ⟨(if IS_PC_REG operand.base then
      [Inst64.generateMoveImmToReg instruction.programAddress t1,
       Inst64.generateRegAddImm t1 instruction.sizeInBytes]
    else []) ++
    (if operand.base ≠ UdReg.UD_NONE then [Inst64.generateRegAddImm t1 lValue]
    else [Inst64.generateMoveImmToReg lValue t1]) ++
    (if operand.index ≠ UdReg.UD_NONE then
      [Inst64.generateRegImmMultReg t2 (effectiveScale operand) t2,
       Inst64.generateRegAddReg2OpForm t2 t1]
    else []), ?_, ?_⟩
  · rw [hi, heq]
    congr 7
    unfold addressCalc64
    simp only [hop]
    by_cases hb : operand.base = UdReg.UD_NONE
    · by_cases hin : operand.index = UdReg.UD_NONE
      · simp [hb, hin]
      · have hi1 := (index64_of_some operand indexReg hix hin).1
        have hi2 := index64_ax operand indexReg hix hin
        have condi : (indexReg = X86_REG_AX ∧
            method = FlagsProtectionMethods.FlagsProtectionMethod_light) ↔
            (operand.index = UdReg.gpr64 0 ∧
              method = FlagsProtectionMethods.FlagsProtectionMethod_light) := by
          rw [hi2]
        simp only [hb, hin, ne_eq, not_true_eq_false, not_false_eq_true, if_true, if_false,
          List.append_nil, List.nil_append, List.append_assoc, List.cons_append,
          if_congr condi rfl rfl, ← hi1, List.singleton_append]
    · obtain ⟨hb1, hb2⟩ := base64_of_some tool operand baseReg lValue hbv hb
      have condb : (baseReg = X86_REG_AX ∧
          method = FlagsProtectionMethods.FlagsProtectionMethod_light) ↔
          ((operand.base = UdReg.gpr64 0 ∨ operand.base = UdReg.UD_R_RIP) ∧
            method = FlagsProtectionMethods.FlagsProtectionMethod_light) := by
        rw [hb2]
      by_cases hin : operand.index = UdReg.UD_NONE
      · simp only [hb, hin, ne_eq, not_true_eq_false, not_false_eq_true, if_true, if_false,
          List.append_nil, List.nil_append, List.append_assoc, List.cons_append,
          if_congr condb rfl rfl, ← hb1, List.singleton_append]
      · have hi1 := (index64_of_some operand indexReg hix hin).1
        have hi2 := index64_ax operand indexReg hix hin
        have condi : (indexReg = X86_REG_AX ∧
            method = FlagsProtectionMethods.FlagsProtectionMethod_light) ↔
            (operand.index = UdReg.gpr64 0 ∧
              method = FlagsProtectionMethods.FlagsProtectionMethod_light) := by
          rw [hi2]
        simp only [hb, hin, ne_eq, not_true_eq_false, not_false_eq_true, if_true, if_false,
          List.append_nil, List.nil_append, List.append_assoc, List.cons_append,
          if_congr condb rfl rfl, if_congr condi rfl rfl, ← hb1, ← hi1,
          List.singleton_append]
  · intro x hx
    simp only [List.mem_append] at hx
    rcases hx with (hx | hx) | hx
    · split_ifs at hx
      · simp only [List.mem_cons, List.mem_singleton, List.not_mem_nil, or_false] at hx
        rcases hx with rfl | rfl <;> rfl
      · simp at hx
    · split_ifs at hx <;>
      · simp only [List.mem_singleton] at hx
        subst hx
        rfl
    · split_ifs at hx
      · simp only [List.mem_cons, List.mem_singleton, List.not_mem_nil, or_false] at hx
        rcases hx with rfl | rfl <;> rfl
      · simp at hx

/-- Witness for `reload_after_moves`: `mov rax, [rbx + rcx*4 + 0x10]` with
`FlagsProtectionMethod_light`; neither the base `rbx` nor the index `rcx` is
`AX`, and no reload is emitted. -/
theorem reload_after_moves_witness :
    ∃ tail,
      generateBufferedAddressCalculation64 exampleTool exampleMov 0 0x100000 7 9
          BUFFER_ENTRIES .FlagsProtectionMethod_light =
        some (saveTemps64 exampleTool 15 14 13 ++
          ((if Operand.base ⟨.gpr64 3, .gpr64 1, 4, 0x10⟩ ≠ UdReg.UD_NONE then
              Inst64.generateMoveRegToReg (Operand.base ⟨.gpr64 3, .gpr64 1, 4, 0x10⟩).number 15 ::
                (if (Operand.base ⟨.gpr64 3, .gpr64 1, 4, 0x10⟩ = UdReg.gpr64 0 ∨
                      Operand.base ⟨.gpr64 3, .gpr64 1, 4, 0x10⟩ = UdReg.UD_R_RIP) ∧
                    FlagsProtectionMethods.FlagsProtectionMethod_light =
                      .FlagsProtectionMethod_light then
                  [Inst64.generateMoveMemToReg
                    (add64 exampleTool.instDataAddress exampleTool.regStorageOffset) 15]
                else [])
            else []) ++
           (if Operand.index ⟨.gpr64 3, .gpr64 1, 4, 0x10⟩ ≠ UdReg.UD_NONE then
              Inst64.generateMoveRegToReg
                  (Operand.index ⟨.gpr64 3, .gpr64 1, 4, 0x10⟩).number 14 ::
                (if Operand.index ⟨.gpr64 3, .gpr64 1, 4, 0x10⟩ = UdReg.gpr64 0 ∧
                    FlagsProtectionMethods.FlagsProtectionMethod_light =
                      .FlagsProtectionMethod_light then
                  [Inst64.generateMoveMemToReg
                    (add64 exampleTool.instDataAddress exampleTool.regStorageOffset) 14]
                else [])
            else []) ++ tail) ++
          entryAddress64 exampleTool 0 0x100000 14 13 ++
          fillEntry64 7 9 15 14 ++
          incPointer64 exampleTool 0x100000 BUFFER_ENTRIES 13 ++
          restoreTemps64 exampleTool 15 14 13 ++
          [Inst64.generateBranchJL exampleTool.Size__64_bit_inst_function_call_support]) ∧
      ∀ x ∈ tail, x.isLoad = false :=
  reload_after_moves exampleTool exampleMov ⟨.gpr64 3, .gpr64 1, 4, 0x10⟩ 0 0x100000 7 9
    BUFFER_ENTRIES .FlagsProtectionMethod_light 15 14 13 (by decide) rfl (by decide)

/-- C34 as stated fails: (a) for `mov rax, [rip + 0x100]` with
`FlagsProtectionMethod_light` the base register is the program counter, not
`AX`, and yet the instruction after the three spills and the base move is a
reload of `tempReg1` (register 15) from the flags-save slot
`dataAddr + regStorageOffset = 0x600100`: `baseReg` is 0, the number of `AX`,
for a program-counter base; (b) for `mov rdx, [rbx + rax*4 + 0x10]` with
`FlagsProtectionMethod_light` the base is `rbx`, not `AX`, and a reload is
emitted all the same, that of `tempReg2` (register 14) after the index
move. -/
theorem reload_rip_counterexample :
    Operand.base ⟨.UD_R_RIP, .UD_NONE, 0, 0x100⟩ ≠ UdReg.gpr64 0 ∧
    exampleRipLoad.memoryOperand = some ⟨.UD_R_RIP, .UD_NONE, 0, 0x100⟩ ∧
    selectTempRegs X86_64BIT_GPRS exampleRipLoad = some (15, 14, 13) ∧
    add64 exampleTool.instDataAddress exampleTool.regStorageOffset = 0x600100 ∧
    (generateBufferedAddressCalculation64 exampleTool exampleRipLoad 0 0x100000 7 9
        BUFFER_ENTRIES .FlagsProtectionMethod_light).map (fun l => (l.drop 3).take 2) =
      some [Inst64.generateMoveRegToReg 0 15, Inst64.generateMoveMemToReg 0x600100 15] ∧
    exampleIndexAx.memoryOperand = some ⟨.gpr64 3, .gpr64 0, 4, 0x10⟩ ∧
    Operand.base ⟨.gpr64 3, .gpr64 0, 4, 0x10⟩ ≠ UdReg.gpr64 0 ∧
    selectTempRegs X86_64BIT_GPRS exampleIndexAx = some (15, 14, 13) ∧
    (generateBufferedAddressCalculation64 exampleTool exampleIndexAx 0 0x100000 7 9
        BUFFER_ENTRIES .FlagsProtectionMethod_light).map (fun l => (l.drop 3).take 3) =
      some [Inst64.generateMoveRegToReg 3 15, Inst64.generateMoveRegToReg 0 14,
        Inst64.generateMoveMemToReg 0x600100 14] := by
  decide

/-! ## Results on `RemoveThreadData` -/

theorem probeEmpty_some (td : Nat → ThreadData) :
    ∀ (fuel a x : Nat), a < ThreadHashAnd + 1 → probeEmpty td fuel a = some x →
      x < ThreadHashAnd + 1 ∧ (td x).id = 0 := by
  intro fuel
  induction fuel with
  | zero =>
    intro a x _ h
    simp [probeEmpty] at h
  | succ f ih =>
    intro a x ha h
    by_cases h0 : (td a).id = 0
    · simp only [probeEmpty, h0, ne_eq, not_true_eq_false, if_false, Option.some.injEq] at h
      subst h
      exact ⟨ha, h0⟩
    · simp only [probeEmpty, h0, ne_eq, not_false_eq_true, if_true] at h
      exact ih _ x (Nat.mod_lt _ (by unfold ThreadHashAnd; omega)) h

theorem probeThread_after_set (td : Nat → ThreadData) (tid data : Nat)
    (habsent : ∀ i, i < ThreadHashAnd + 1 → (td i).id ≠ tid) :
    ∀ (fuel a x : Nat), a < ThreadHashAnd + 1 → probeEmpty td fuel a = some x →
      ∀ fuel2, fuel ≤ fuel2 → probeThread (setSlot td x tid data) tid fuel2 a = some x := by
  intro fuel
  induction fuel with
  | zero =>
    intro a x _ h
    simp [probeEmpty] at h
  | succ f ih =>
    intro a x ha h fuel2 hf
    obtain ⟨g, rfl⟩ : ∃ g, fuel2 = g + 1 := ⟨fuel2 - 1, by omega⟩
    by_cases h0 : (td a).id = 0
    · simp only [probeEmpty, h0, ne_eq, not_true_eq_false, if_false, Option.some.injEq] at h
      subst h
      simp [probeThread, setSlot]
    · simp only [probeEmpty, h0, ne_eq, not_false_eq_true, if_true] at h
      have hx := probeEmpty_some td f _ x (Nat.mod_lt _ (by unfold ThreadHashAnd; omega)) h
      have hax : a ≠ x := fun e => h0 (e ▸ hx.2)
      have hne : ((setSlot td x tid data) a).id ≠ tid := by
        simp only [setSlot, hax, if_false]
        exact habsent a ha
      simp only [probeThread, hne, ne_eq, not_false_eq_true, if_true]
      exact ih _ x (Nat.mod_lt _ (by unfold ThreadHashAnd; omega)) h g (by omega)

/-- C38: for every thread table in which the empty slots (`id = 0`) also have
`data = 0` and that has at least one empty slot, and every thread key `tid`
not present in the table (so `tid` is non-zero), `SetThreadData` stops, and
`RemoveThreadData` for the same `tid`, applied to the table that
`SetThreadData` leaves, stops within the same number of loop tests and gives
back exactly the table from before the two calls. -/
theorem RemoveThreadData_restores (td : Nat → ThreadData) (tid data : Nat)
    (hdata : ∀ i, i < ThreadHashAnd + 1 → (td i).id = 0 → (td i).data = 0)
    (hempty : ∃ e, e < ThreadHashAnd + 1 ∧ (td e).id = 0)
    (habsent : ∀ i, i < ThreadHashAnd + 1 → (td i).id ≠ tid) :
    tid ≠ 0 ∧
    (∀ fuel, ThreadHashAnd + 1 ≤ fuel → (SetThreadData fuel td tid data).isSome = true) ∧
    ∀ fuel r, SetThreadData fuel td tid data = some r →
      ∀ fuel2, fuel ≤ fuel2 → RemoveThreadData fuel2 r.table tid = some td := by
  have hh : HashThread tid < ThreadHashAnd + 1 := HashThread_bound tid
  obtain ⟨e, he, hz⟩ := hempty
  refine ⟨fun h0 => habsent e he (hz.trans h0.symm), ?_, ?_⟩
  · intro fuel hfuel
    obtain ⟨k, hk, hocc, hzk⟩ := firstEmpty_exists td (HashThread tid) e hh he hz
    unfold SetThreadData
    simp only [probeEmpty_steps td k fuel (HashThread tid) hh (by omega) hocc hzk]
    rfl
  · intro fuel r hr fuel2 hf
    unfold SetThreadData at hr
    cases hp : probeEmpty td fuel (HashThread tid) with
    | none => simp [hp] at hr
    | some x =>
      simp only [hp, Option.some.injEq] at hr
      subst hr
      have hx := probeEmpty_some td fuel _ x hh hp
      unfold RemoveThreadData
      simp only [probeThread_after_set td tid data habsent fuel _ x hh hp fuel2 hf,
        Option.some.injEq]
      funext i
      by_cases hi : i = x
      · subst hi
        have hd := hdata i hx.1 hx.2
        have hid := hx.2
        simp only [if_true]
        cases htd : td i with
        | mk id d =>
          rw [htd] at hd hid
          simp only at hd hid
          rw [hd, hid]
      · simp [setSlot, hi]

/-- Witness for `RemoveThreadData_restores`: the table whose only occupied slot
is slot 5, and the thread key `0x6000` (home slot 6) with data 7. -/
theorem RemoveThreadData_restores_witness :
    (0x6000 : Nat) ≠ 0 ∧
    (∀ fuel, ThreadHashAnd + 1 ≤ fuel →
      (SetThreadData fuel exampleTable 0x6000 7).isSome = true) ∧
    ∀ fuel r, SetThreadData fuel exampleTable 0x6000 7 = some r →
      ∀ fuel2, fuel ≤ fuel2 → RemoveThreadData fuel2 r.table 0x6000 = some exampleTable :=
  RemoveThreadData_restores exampleTable 0x6000 7
    (fun i _ _ => by unfold exampleTable at *; split_ifs at *; simp_all)
    ⟨6, by decide, by decide⟩
    (fun i _ => by unfold exampleTable; split_ifs <;> simp)

/-! ## Results on the size of the comment buffer -/

theorem toDigitsCore_length_ge : ∀ (fuel n k : Nat) (acc : List Char), n < fuel → 10 ^ k ≤ n →
    acc.length + k + 1 ≤ (Nat.toDigitsCore 10 fuel n acc).length := by
  intro fuel
  induction fuel with
  | zero =>
    intro n k acc h _
    omega
  | succ fuel ih =>
    intro n k acc hf hn
    unfold Nat.toDigitsCore
    simp only
    have hpos : 0 < 10 ^ k := Nat.pow_pos (by decide)
    split_ifs with h0
    · have hlt : n < 10 := by omega
      have hk : k = 0 := by
        by_contra hk
        have : 10 ^ 1 ≤ 10 ^ k := Nat.pow_le_pow_right (by decide) (by omega)
        omega
      subst hk
      simp
    · cases k with
      | zero =>
        have := ih (n / 10) 0 (Nat.digitChar (n % 10) :: acc) (by omega) (by simp; omega)
        simp only [List.length_cons] at this
        omega
      | succ k =>
        have hk : 10 ^ k ≤ n / 10 := by
          rw [Nat.pow_succ] at hn
          omega
        have := ih (n / 10) k (Nat.digitChar (n % 10) :: acc) (by omega) hk
        simp only [List.length_cons] at this
        omega

/-- C37 (the code at the failing input): for the application name `a.out` and
1000000000 exposed basic blocks the text that `sprintf` writes is 28
characters long, so with its terminating NUL it takes 29 bytes, one more than
the `commentSize = 28` bytes of the buffer.  In general (for an `appName`
short enough for `commentSize` not to wrap) the text and its NUL fit in
`commentSize` bytes exactly when the block count is below `10^9`; for every
count from `10^9` on they take `commentSize + 1` bytes. -/
theorem comment_exceeds_commentSize :
    commentSize ['a', '.', 'o', 'u', 't'] = 28 ∧
    (commentText ['a', '.', 'o', 'u', 't'] 1000000000).length + 1 = 29 ∧
    (∀ (appName : List Char) (exposedBlocks : Nat), appName.length + 23 < U32 →
      exposedBlocks < U32 →
      ((commentText appName exposedBlocks).length + 1 ≤ commentSize appName ↔
        exposedBlocks < 10 ^ 9) ∧
      (10 ^ 9 ≤ exposedBlocks →
        (commentText appName exposedBlocks).length + 1 = commentSize appName + 1)) := by
  refine ⟨by decide, by decide, ?_⟩
  intro appName exposedBlocks hlen hb
  have h0 : decimal 0 = ['0'] := by decide
  have hsz : commentSize appName = appName.length + 23 := by
    unfold commentSize toU32
    simp only [extension, List.length_cons, List.length_nil]
    exact Nat.mod_eq_of_lt (by omega)
  have htext : (commentText appName exposedBlocks).length =
      appName.length + 13 + (decimal exposedBlocks).length := by
    simp only [commentText, h0, extension, List.length_append, List.length_cons,
      List.length_nil]
    omega
  have hup := decimal_length exposedBlocks hb
  have hlo : 10 ^ 9 ≤ exposedBlocks → 10 ≤ (decimal exposedBlocks).length := by
    intro h
    have := toDigitsCore_length_ge (exposedBlocks + 1) exposedBlocks 9 [] (by omega) h
    simpa [decimal, Nat.toDigits] using this
  have hsmall : exposedBlocks < 10 ^ 9 → (decimal exposedBlocks).length ≤ 9 := by
    intro h
    have := toDigitsCore_length (exposedBlocks + 1) exposedBlocks 9 [] (by decide) h
    simpa [decimal, Nat.toDigits] using this
  rw [hsz, htext]
  constructor
  · constructor
    · intro h
      by_contra hge
      have := hlo (by omega)
      omega
    · intro h
      have := hsmall h
      omega
  · intro h
    have := hlo h
    omega

/-! ## Results on the bounds of the buffer -/

/-- C36: for a reserved-data layout in which the register storage and the
buffer do not wrap around the address space and the cursor slot does not
overlap the three spill slots, the precursor generated with
`bufferSize = BUFFER_ENTRIES`, executed from a state whose cursor slot holds
`c < BUFFER_ENTRIES`, reaches the entry stores with
`dataAddr + bufferStore + c * Size__BufferEntry` in `tempReg2`; this entry
lies inside the reserved buffer
`[dataAddr + bufferStore, dataAddr + bufferStore + BUFFER_ENTRIES * Size__BufferEntry)`,
the three field stores go to its bytes `8 .. 15`, `0 .. 3` and `4 .. 7` and
change no byte outside it; the cursor is left at `c + 1`, and the conditional
jump is taken (the tool call skipped) exactly when `c + 1 < BUFFER_ENTRIES`. -/
theorem entry_inside_buffer (tool : ToolData) (instruction : MemoryInstruction)
    (bufferStore bufferPtrStore blockId memopId : Nat)
    (method : FlagsProtectionMethods) (t1 t2 t3 : Nat)
    (hsel : selectTempRegs X86_64BIT_GPRS instruction = some (t1, t2, t3))
    (hgen : (generateBufferedAddressCalculation64 tool instruction bufferStore bufferPtrStore
      blockId memopId BUFFER_ENTRIES method).isSome = true)
    (hR : add64 tool.instDataAddress tool.regStorageOffset + 40 ≤ U64)
    (hP : add64 tool.instDataAddress bufferPtrStore + 8 ≤
        add64 tool.instDataAddress tool.regStorageOffset + 16 ∨
      add64 tool.instDataAddress tool.regStorageOffset + 40 ≤
        add64 tool.instDataAddress bufferPtrStore)
    (hbuf : tool.instDataAddress + bufferStore + BUFFER_ENTRIES * Size__BufferEntry ≤ U64)
    (s : MachineState) (c : Nat)
    (hcur : loadBytes s.mem (add64 tool.instDataAddress bufferPtrStore) 8 = c)
    (hc : c < BUFFER_ENTRIES) :
    ∃ addressCalc,
      generateBufferedAddressCalculation64 tool instruction bufferStore bufferPtrStore
          blockId memopId BUFFER_ENTRIES method =
        some (saveTemps64 tool t1 t2 t3 ++ addressCalc ++
          entryAddress64 tool bufferStore bufferPtrStore t2 t3 ++
          fillEntry64 blockId memopId t1 t2 ++
          incPointer64 tool bufferPtrStore BUFFER_ENTRIES t3 ++
          restoreTemps64 tool t1 t2 t3 ++
          [Inst64.generateBranchJL tool.Size__64_bit_inst_function_call_support]) ∧
      (exec (saveTemps64 tool t1 t2 t3 ++ addressCalc ++
          entryAddress64 tool bufferStore bufferPtrStore t2 t3) s).regs t2 =
        tool.instDataAddress + bufferStore + c * Size__BufferEntry ∧
      tool.instDataAddress + bufferStore ≤
        tool.instDataAddress + bufferStore + c * Size__BufferEntry ∧
      tool.instDataAddress + bufferStore + c * Size__BufferEntry + Size__BufferEntry ≤
        tool.instDataAddress + bufferStore + BUFFER_ENTRIES * Size__BufferEntry ∧
      (∃ address,
        (exec (saveTemps64 tool t1 t2 t3 ++ addressCalc ++
          entryAddress64 tool bufferStore bufferPtrStore t2 t3 ++
          fillEntry64 blockId memopId t1 t2) s).mem =
        storeBytes (storeBytes (storeBytes
          (exec (saveTemps64 tool t1 t2 t3 ++ addressCalc ++
            entryAddress64 tool bufferStore bufferPtrStore t2 t3) s).mem
          (tool.instDataAddress + bufferStore + c * Size__BufferEntry + 8) 8 address)
          (tool.instDataAddress + bufferStore + c * Size__BufferEntry) 4 (blockId % U64))
          (tool.instDataAddress + bufferStore + c * Size__BufferEntry + 4) 4
          (memopId % U64)) ∧
      (∀ p, p < tool.instDataAddress + bufferStore + c * Size__BufferEntry ∨
          tool.instDataAddress + bufferStore + c * Size__BufferEntry + Size__BufferEntry ≤ p →
        (exec (saveTemps64 tool t1 t2 t3 ++ addressCalc ++
          entryAddress64 tool bufferStore bufferPtrStore t2 t3 ++
          fillEntry64 blockId memopId t1 t2) s).mem p =
        (exec (saveTemps64 tool t1 t2 t3 ++ addressCalc ++
          entryAddress64 tool bufferStore bufferPtrStore t2 t3) s).mem p) ∧
      loadBytes (exec (saveTemps64 tool t1 t2 t3 ++ addressCalc ++
          entryAddress64 tool bufferStore bufferPtrStore t2 t3 ++
          fillEntry64 blockId memopId t1 t2 ++
          incPointer64 tool bufferPtrStore BUFFER_ENTRIES t3 ++
          restoreTemps64 tool t1 t2 t3 ++
          [Inst64.generateBranchJL tool.Size__64_bit_inst_function_call_support]) s).mem
          (add64 tool.instDataAddress bufferPtrStore) 8 = c + 1 ∧
      (branchJLTaken (exec (saveTemps64 tool t1 t2 t3 ++ addressCalc ++
          entryAddress64 tool bufferStore bufferPtrStore t2 t3 ++
          fillEntry64 blockId memopId t1 t2 ++
          incPointer64 tool bufferPtrStore BUFFER_ENTRIES t3 ++
          restoreTemps64 tool t1 t2 t3) s) = true ↔ c + 1 < BUFFER_ENTRIES) := by
  obtain ⟨insts, hi⟩ := Option.isSome_iff_exists.mp hgen
  obtain ⟨u1, u2, u3, baseReg, lValue, indexReg, hs, _, _, heq⟩ :=
    generate64_inv tool instruction bufferStore bufferPtrStore blockId memopId BUFFER_ENTRIES
      method insts hi
  rw [hsel] at hs
  simp only [Option.some.injEq, Prod.mk.injEq] at hs
  obtain ⟨e1, e2, e3⟩ := hs
  subst e1 e2 e3
  obtain ⟨_, _, _, h12, h13, h23⟩ :=
    selectTempRegs_spec X86_64BIT_GPRS (by decide) instruction t1 t2 t3 hsel
  have hw := addressCalc64_writes tool instruction method baseReg lValue indexReg t1 t2
  have s2 := regStorageSlot_eq tool 2 (by omega) hR
  have s3 := regStorageSlot_eq tool 3 (by omega) hR
  have s4 := regStorageSlot_eq tool 4 (by omega) hR
  have hmem2 : (exec (addressCalc64 tool instruction method baseReg lValue indexReg
      t1 t2) (exec (saveTemps64 tool t1 t2 t3) s)).mem =
      storeBytes (storeBytes (storeBytes s.mem
          (add64 tool.instDataAddress tool.regStorageOffset + 16) 8 (s.regs t1))
          (add64 tool.instDataAddress tool.regStorageOffset + 24) 8 (s.regs t2))
          (add64 tool.instDataAddress tool.regStorageOffset + 32) 8 (s.regs t3) := by
    rw [exec_mem_frame _ _ (fun x hx => (hw x hx).1), exec_saveTemps64_mem, s2, s3, s4]
  have hE : entryAddressIn tool bufferStore bufferPtrStore
      (exec (addressCalc64 tool instruction method baseReg lValue indexReg t1 t2)
        (exec (saveTemps64 tool t1 t2 t3) s)) =
      entryAddressIn tool bufferStore bufferPtrStore s := by
    unfold entryAddressIn
    rw [hmem2, loadBytes_storeBytes_disjoint _ _ _ _ _ _ (by omega),
      loadBytes_storeBytes_disjoint _ _ _ _ _ _ (by omega),
      loadBytes_storeBytes_disjoint _ _ _ _ _ _ (by omega)]
  have hval : entryAddressIn tool bufferStore bufferPtrStore s =
      tool.instDataAddress + bufferStore + c * Size__BufferEntry := by
    unfold entryAddressIn
    rw [hcur]
    unfold BUFFER_ENTRIES Size__BufferEntry at hbuf
    unfold BUFFER_ENTRIES at hc
    unfold add64 logBase2_Size__BufferEntry Size__BufferEntry
    unfold U64 at hbuf ⊢
    omega
  have ht2 : (exec (saveTemps64 tool t1 t2 t3 ++
      addressCalc64 tool instruction method baseReg lValue indexReg t1 t2 ++
      entryAddress64 tool bufferStore bufferPtrStore t2 t3) s).regs t2 =
      tool.instDataAddress + bufferStore + c * Size__BufferEntry := by
    simp only [exec_append]
    rw [exec_entryAddress64_t2 _ _ _ _ _ h23, hE, hval]
  have hfill : (exec (saveTemps64 tool t1 t2 t3 ++
      addressCalc64 tool instruction method baseReg lValue indexReg t1 t2 ++
      entryAddress64 tool bufferStore bufferPtrStore t2 t3 ++
      fillEntry64 blockId memopId t1 t2) s).mem =
      storeBytes (storeBytes (storeBytes
        (exec (saveTemps64 tool t1 t2 t3 ++
          addressCalc64 tool instruction method baseReg lValue indexReg t1 t2 ++
          entryAddress64 tool bufferStore bufferPtrStore t2 t3) s).mem
        (tool.instDataAddress + bufferStore + c * Size__BufferEntry + 8) 8
        ((exec (saveTemps64 tool t1 t2 t3 ++
          addressCalc64 tool instruction method baseReg lValue indexReg t1 t2 ++
          entryAddress64 tool bufferStore bufferPtrStore t2 t3) s).regs t1))
        (tool.instDataAddress + bufferStore + c * Size__BufferEntry) 4 (blockId % U64))
        (tool.instDataAddress + bufferStore + c * Size__BufferEntry + 4) 4
        (memopId % U64) := by
    have hlt : tool.instDataAddress + bufferStore + c * Size__BufferEntry + 16 ≤ U64 := by
      unfold BUFFER_ENTRIES Size__BufferEntry at hbuf
      unfold BUFFER_ENTRIES at hc
      unfold Size__BufferEntry
      omega
    rw [exec_append _ (fillEntry64 blockId memopId t1 t2), exec_fillEntry64_mem _ _ _ _ h12,
      ht2, add64_of_lt _ 8 (by omega), add64_of_lt _ 4 (by omega),
      (add64_of_lt _ 0 (by omega)).trans (Nat.add_zero _)]
  have hc32 : c < U32 := by
    unfold BUFFER_ENTRIES at hc
    unfold U32
    omega
  obtain ⟨hcmp, hmem⟩ := exec_upto_incPointer64 tool instruction method baseReg lValue
    indexReg bufferStore bufferPtrStore blockId memopId BUFFER_ENTRIES t1 t2 t3 h13 h23 hR hP s
  have hinc : add64 (c * 16 % U64 / 16) 1 = c + 1 := by
    unfold add64 U64
    unfold U32 at hc32
    omega
  rw [hcur, hinc] at hcmp hmem
  refine ⟨addressCalc64 tool instruction method baseReg lValue indexReg t1 t2,
    by rw [hi, heq], ht2, Nat.le_add_right _ _, ?_, ⟨_, hfill⟩, ?_, ?_, ?_⟩
  · unfold BUFFER_ENTRIES at hc ⊢
    unfold Size__BufferEntry
    omega
  · intro p hp
    rw [hfill]
    have n1 : ¬ (tool.instDataAddress + bufferStore + c * Size__BufferEntry + 4 ≤ p ∧
        p < tool.instDataAddress + bufferStore + c * Size__BufferEntry + 4 + 4) := by
      unfold Size__BufferEntry at hp ⊢
      omega
    have n2 : ¬ (tool.instDataAddress + bufferStore + c * Size__BufferEntry ≤ p ∧
        p < tool.instDataAddress + bufferStore + c * Size__BufferEntry + 4) := by
      unfold Size__BufferEntry at hp ⊢
      omega
    have n3 : ¬ (tool.instDataAddress + bufferStore + c * Size__BufferEntry + 8 ≤ p ∧
        p < tool.instDataAddress + bufferStore + c * Size__BufferEntry + 8 + 8) := by
      unfold Size__BufferEntry at hp ⊢
      omega
    simp only [storeBytes, n1, n2, n3, if_false]
  · rw [exec_append, exec_cons, exec_nil]
    simp only [exec1]
    rw [exec_append, (exec_restoreTemps64 tool t1 t2 t3 _).1]
    exact hmem
  · unfold branchJLTaken
    rw [exec_append, (exec_restoreTemps64 tool t1 t2 t3 _).2.1, hcmp]
    simp only [decide_eq_true_eq]
    rw [signed64_of_lt _ (by unfold U32 at hc32; omega),
      signed64_of_lt _ (by unfold BUFFER_ENTRIES; omega)]
    exact Int.ofNat_lt

/-- Witness for `entry_inside_buffer`: `mov rax, [rbx + rcx*4 + 0x10]` with the
buffer at offset 0 of the reserved data at `0x600000`, the cursor at offset
`0x100000`, the register storage at offset `0x200000`, and a cursor of 5: the
entry is at `0x600050`. -/
theorem entry_inside_buffer_witness :
    ∃ addressCalc,
      generateBufferedAddressCalculation64 exampleToolFarStorage exampleMov 0 0x100000
          7 9 BUFFER_ENTRIES .FlagsProtectionMethod_full =
        some (saveTemps64 exampleToolFarStorage 15 14 13 ++ addressCalc ++
          entryAddress64 exampleToolFarStorage 0 0x100000 14 13 ++
          fillEntry64 7 9 15 14 ++
          incPointer64 exampleToolFarStorage 0x100000 BUFFER_ENTRIES 13 ++
          restoreTemps64 exampleToolFarStorage 15 14 13 ++
          [Inst64.generateBranchJL
            exampleToolFarStorage.Size__64_bit_inst_function_call_support]) ∧
      (exec (saveTemps64 exampleToolFarStorage 15 14 13 ++ addressCalc ++
          entryAddress64 exampleToolFarStorage 0 0x100000 14 13) cursorFiveState).regs 14 =
        exampleToolFarStorage.instDataAddress + 0 + 5 * Size__BufferEntry ∧
      exampleToolFarStorage.instDataAddress + 0 ≤
        exampleToolFarStorage.instDataAddress + 0 + 5 * Size__BufferEntry ∧
      exampleToolFarStorage.instDataAddress + 0 + 5 * Size__BufferEntry + Size__BufferEntry ≤
        exampleToolFarStorage.instDataAddress + 0 + BUFFER_ENTRIES * Size__BufferEntry ∧
      (∃ address,
        (exec (saveTemps64 exampleToolFarStorage 15 14 13 ++ addressCalc ++
          entryAddress64 exampleToolFarStorage 0 0x100000 14 13 ++
          fillEntry64 7 9 15 14) cursorFiveState).mem =
        storeBytes (storeBytes (storeBytes
          (exec (saveTemps64 exampleToolFarStorage 15 14 13 ++ addressCalc ++
            entryAddress64 exampleToolFarStorage 0 0x100000 14 13) cursorFiveState).mem
          (exampleToolFarStorage.instDataAddress + 0 + 5 * Size__BufferEntry + 8) 8 address)
          (exampleToolFarStorage.instDataAddress + 0 + 5 * Size__BufferEntry) 4 (7 % U64))
          (exampleToolFarStorage.instDataAddress + 0 + 5 * Size__BufferEntry + 4) 4
          (9 % U64)) ∧
      (∀ p, p < exampleToolFarStorage.instDataAddress + 0 + 5 * Size__BufferEntry ∨
          exampleToolFarStorage.instDataAddress + 0 + 5 * Size__BufferEntry +
            Size__BufferEntry ≤ p →
        (exec (saveTemps64 exampleToolFarStorage 15 14 13 ++ addressCalc ++
          entryAddress64 exampleToolFarStorage 0 0x100000 14 13 ++
          fillEntry64 7 9 15 14) cursorFiveState).mem p =
        (exec (saveTemps64 exampleToolFarStorage 15 14 13 ++ addressCalc ++
          entryAddress64 exampleToolFarStorage 0 0x100000 14 13) cursorFiveState).mem p) ∧
      loadBytes (exec (saveTemps64 exampleToolFarStorage 15 14 13 ++ addressCalc ++
          entryAddress64 exampleToolFarStorage 0 0x100000 14 13 ++
          fillEntry64 7 9 15 14 ++
          incPointer64 exampleToolFarStorage 0x100000 BUFFER_ENTRIES 13 ++
          restoreTemps64 exampleToolFarStorage 15 14 13 ++
          [Inst64.generateBranchJL
            exampleToolFarStorage.Size__64_bit_inst_function_call_support])
          cursorFiveState).mem
          (add64 exampleToolFarStorage.instDataAddress 0x100000) 8 = 5 + 1 ∧
      (branchJLTaken (exec (saveTemps64 exampleToolFarStorage 15 14 13 ++ addressCalc ++
          entryAddress64 exampleToolFarStorage 0 0x100000 14 13 ++
          fillEntry64 7 9 15 14 ++
          incPointer64 exampleToolFarStorage 0x100000 BUFFER_ENTRIES 13 ++
          restoreTemps64 exampleToolFarStorage 15 14 13) cursorFiveState) = true ↔
        5 + 1 < BUFFER_ENTRIES) :=
  entry_inside_buffer exampleToolFarStorage exampleMov 0 0x100000 7 9
    .FlagsProtectionMethod_full 15 14 13 (by decide) (by decide) (by decide) (by decide)
    (by decide) cursorFiveState 5 (by decide) (by decide)

/-! ## Results on the probes of `instrument` -/

end PEBIL
